import Mathlib

/-! # tiled-json-go: the Tiled JSON loader

A verification development for `src/tiled.go` (package `tiled`, the loaders
`ParseTilemap` and `ParseTileset`) and `src/tiled/tiled.go` (the older loader
`Parse`).

The repository consists of struct declarations with `json:"..."` tags and of
three loaders that call `ioutil.ReadFile` and then `json.Unmarshal`.  The
embedding therefore has three layers.

* The struct declarations are transcribed field by field as tables
  (`Map`, `Layer`, `Tileset`, ...): Go field name, Go type, JSON tag.
* `json.Unmarshal` is the Go standard library.  Its syntax phase (bytes to a
  JSON document) is a parameter of the development (`Env.scan`); what the
  syntax phase does with bytes that spell a given document is modelled by
  `checkValid`, following `encoding/json/scanner.go`: the document is accepted
  unless it nests arrays and objects deeper than `maxNestingDepth`.  Its
  reflection-driven decoding phase is modelled on JSON
  documents by `decode`, following `encoding/json/decode.go`: in-place
  decoding into the current value, case-insensitive key matching, unknown keys
  skipped, `null` ignored by non-nilable targets, type mismatches recorded
  (first one wins) while decoding continues, numbers parsed per target type.
* `ioutil.ReadFile` is a parameter as well (`Env.ReadFile`).

Go's `int` is taken to be 64 bits wide.  A `float64` is represented exactly, by
sign, odd mantissa and binary exponent; NaN and infinities are not represented
(no number literal denotes them, and `decode.go` leaves the target as it is when
a literal is out of range).  A Go string is represented by a Lean string, so
strings that are not valid UTF-8 are not represented either.  The statements about
records therefore range over records with finite numbers and valid strings.

The repository never writes a record back.  For the round-trip property of the
spec an encoder is modelled from the spec (`encode`), driven by the same `json`
tags.
-/

namespace Tiled

/-! ## JSON documents -/

/-- A JSON number literal.  `int` is a literal made of an optional minus sign and
digits only (the only shape `strconv.ParseInt` accepts); `dec` is a literal with a
fraction and/or an exponent, denoting `mant * 10 ^ exp10`. -/
inductive NumLit where
  | int (neg : Bool) (n : Nat)
  | dec (neg : Bool) (mant : Nat) (exp10 : Int)
  deriving DecidableEq, Repr

/-- A JSON document after the syntax phase.  Object members are kept in document
order, duplicates included, with their keys already unquoted. -/
inductive JSON where
  | null
  | bool (b : Bool)
  | num (n : NumLit)
  | str (s : String)
  | arr (elems : List JSON)
  | obj (members : List (String × JSON))
  deriving Repr

/-! ## Go types and the struct declarations of the repository -/

/-- The names of the struct types declared in `tiled.go`. -/
inductive TypeName where
  | Map | Property | Layer | Chunk | Object | Coordinate | Offset | Tileset | Grid
  | Tile | Frame | Terrain | WangSet | WangColor | WangTile | ObjectTemplate
  deriving DecidableEq, Repr

/-- The Go types that occur in the declarations.  `iface` is `interface{}`,
`mapStringIface` is `map[string]interface{}`, `struct n` refers to a declared
struct type by name. -/
inductive GoType where
  | int
  | uint8
  | float64
  | bool
  | string
  | iface
  | slice (elem : GoType)
  | array (len : Nat) (elem : GoType)
  | mapStringIface
  | struct (n : TypeName)
  deriving DecidableEq, Repr

/-- One struct field: Go name, Go type, and the name and `omitempty` option of its
`json` tag. -/
structure Field where
  name : String
  type : GoType
  tag : String
  omitempty : Bool
  deriving DecidableEq, Repr

/-- A field whose tag is just a name. -/
def fld (name : String) (type : GoType) (tag : String) : Field :=
  ⟨name, type, tag, false⟩

/-- `type Map struct` of `src/tiled.go`. -/
def Map : List Field :=
  [ fld "BackgroundColor" .string "backgroundcolor",
    fld "Height" .int "height",
    fld "HexSideLength" .int "hexsidelength",
    fld "Infinite" .bool "infinite",
    fld "Layers" (.slice (.struct .Layer)) "layers",
    fld "NextLayerID" .int "nextlayerid",
    fld "NextObjectID" .int "nextobjectid",
    fld "Orientation" .string "orientation",
    fld "Properties" (.slice (.struct .Property)) "properties",
    fld "RenderOrder" .string "renderorder",
    fld "StaggerAxis" .string "staggeraxis",
    fld "StaggerIndex" .string "staggerindex",
    fld "TiledVersion" .string "tiledversion",
    fld "TileHeight" .int "tileheight",
    fld "Tilesets" (.slice (.struct .Tileset)) "tilesets",
    fld "TileWidth" .int "tilewidth",
    fld "Type" .string "type",
    fld "Version" .float64 "version",
    fld "Width" .int "width" ]

/-- `type Property struct`. -/
def Property : List Field :=
  [ fld "Name" .string "name",
    fld "Type" .string "type",
    fld "Value" .iface "value" ]

/-- `type Layer struct` of `src/tiled.go`. -/
def Layer : List Field :=
  [ fld "ID" .int "id",
    fld "Name" .string "name",
    fld "Type" .string "type",
    fld "Visible" .bool "visible",
    fld "Width" .int "width",
    fld "Height" .int "height",
    fld "X" .int "x",
    fld "Y" .int "y",
    fld "OffsetX" .float64 "offsetx",
    fld "OffsetY" .float64 "offsety",
    fld "Opacity" .float64 "opacity",
    fld "Properties" (.slice (.struct .Property)) "properties",
    fld "Chunks" (.slice (.struct .Chunk)) "chunks",
    fld "Compression" .string "compression",
    fld "Data" .iface "data",
    fld "Encoding" .string "encoding",
    fld "Objects" (.slice (.struct .Object)) "objects",
    fld "DrawOrder" .string "draworder",
    fld "Layers" (.slice (.struct .Layer)) "layers",
    fld "Image" .string "image",
    fld "TransparentColor" .string "transparentcolor" ]

/-- `type Chunk struct`. -/
def Chunk : List Field :=
  [ fld "Data" .iface "data",
    fld "Height" .int "height",
    fld "Width" .int "width",
    fld "X" .int "x",
    fld "Y" .int "y" ]

/-- `type Object struct` of `src/tiled.go`; `Template` carries `omitempty`. -/
def Object : List Field :=
  [ fld "ID" .int "id",
    fld "GID" .int "gid",
    fld "Name" .string "name",
    fld "Type" .string "type",
    fld "X" .float64 "x",
    fld "Y" .float64 "y",
    fld "Width" .float64 "width",
    fld "Height" .float64 "height",
    fld "Visible" .bool "visible",
    fld "Ellipse" .bool "ellipse",
    fld "Point" .bool "point",
    fld "Polygon" (.slice (.struct .Coordinate)) "polygon",
    fld "Polyline" (.slice (.struct .Coordinate)) "polyline",
    fld "Properties" (.slice (.struct .Property)) "properties",
    fld "Rotation" .float64 "rotation",
    ⟨"Template", .string, "template", true⟩,
    fld "Text" .mapStringIface "text" ]

/-- `type Coordinate struct` of `src/tiled.go`. -/
def Coordinate : List Field :=
  [ fld "X" .float64 "x",
    fld "Y" .float64 "y" ]

/-- `type Offset struct`. -/
def Offset : List Field :=
  [ fld "X" .int "x",
    fld "Y" .int "y" ]

/-- `type Tileset struct` of `src/tiled.go`. -/
def Tileset : List Field :=
  [ fld "FirstGID" .int "firstgid",
    fld "Source" .string "source",
    fld "Name" .string "name",
    fld "Type" .string "type",
    fld "Columns" .int "columns",
    fld "Image" .string "image",
    fld "ImageWidth" .int "imagewidth",
    fld "ImageHeight" .int "imageheight",
    fld "Margin" .int "margin",
    fld "Spacing" .int "spacing",
    fld "TileCount" .int "tilecount",
    fld "TileWidth" .int "tilewidth",
    fld "TileHeight" .int "tileheight",
    fld "TransparentColor" .string "transparentcolor",
    fld "TileOffset" (.struct .Offset) "tileoffset",
    fld "Grid" (.struct .Grid) "grid",
    fld "Properties" (.slice (.struct .Property)) "properties",
    fld "Terrains" (.slice (.struct .Terrain)) "terrains",
    fld "Tiles" (.slice (.struct .Tile)) "tiles",
    fld "WangSets" (.slice (.struct .WangSet)) "wangsets" ]

/-- `type Grid struct`. -/
def Grid : List Field :=
  [ fld "Orientation" .string "orientation",
    fld "Width" .int "width",
    fld "Height" .int "height" ]

/-- `type Tile struct`. -/
def Tile : List Field :=
  [ fld "ID" .int "id",
    fld "Type" .string "type",
    fld "Properties" (.slice (.struct .Property)) "properties",
    fld "Animation" (.slice (.struct .Frame)) "animation",
    fld "Terrain" (.slice .int) "terrain",
    fld "Image" .string "image",
    fld "ImageHeight" .int "imageheight",
    fld "ImageWidth" .int "imagewidth",
    fld "ObjectGroup" (.struct .Layer) "objectgroup" ]

/-- `type Frame struct`. -/
def Frame : List Field :=
  [ fld "Duration" .int "duration",
    fld "TileID" .int "tileid" ]

/-- `type Terrain struct`. -/
def Terrain : List Field :=
  [ fld "Name" .string "name",
    fld "Tile" .int "tile" ]

/-- `type WangSet struct`. -/
def WangSet : List Field :=
  [ fld "CornerColors" (.slice (.struct .WangColor)) "cornercolors",
    fld "EdgeColors" (.slice (.struct .WangColor)) "edgecolors",
    fld "Name" .string "name",
    fld "Tile" .int "tile",
    fld "WangTiles" (.slice (.struct .WangTile)) "wangtiles" ]

/-- `type WangColor struct`. -/
def WangColor : List Field :=
  [ fld "Color" .string "color",
    fld "Name" .string "name",
    fld "Probability" .float64 "probability",
    fld "Tile" .int "tile" ]

/-- `type WangTile struct` of `src/tiled.go`. -/
def WangTile : List Field :=
  [ fld "TileID" .int "tileid",
    fld "WangID" (.array 8 .uint8) "wangid",
    fld "DFlip" .bool "dflip",
    fld "HFlip" .bool "hflip",
    fld "VFlip" .bool "vflip" ]

/-- `type ObjectTemplate struct`. -/
def ObjectTemplate : List Field :=
  [ fld "Type" .string "type",
    fld "Tileset" (.struct .Tileset) "tileset",
    fld "Object" (.struct .Object) "object" ]

/-- The struct declarations of package `tiled` in `src/tiled.go`. -/
def decls : TypeName → List Field
  | .Map => Map
  | .Property => Property
  | .Layer => Layer
  | .Chunk => Chunk
  | .Object => Object
  | .Coordinate => Coordinate
  | .Offset => Offset
  | .Tileset => Tileset
  | .Grid => Grid
  | .Tile => Tile
  | .Frame => Frame
  | .Terrain => Terrain
  | .WangSet => WangSet
  | .WangColor => WangColor
  | .WangTile => WangTile
  | .ObjectTemplate => ObjectTemplate

/-! ## Go values -/

/-- A finite `float64`, held exactly: the value is `(-1)^neg * mant * 2^exp`.  In
normal form `mant` is odd, or `mant = 0` and `exp = 0` (the two zeros). -/
structure Float64 where
  neg : Bool
  mant : Nat
  exp : Int
  deriving DecidableEq, Repr

/-- A Go value.  `nil` is the nil interface, nil slice or nil map.  A value of
interface type is represented by its dynamic value.  A slice carries the elements
below its length (`elems`) and the elements of its backing array between length
and capacity that an earlier, longer use left behind (`spare`); beyond those the
backing array is zero.  A map is kept sorted by key.  A struct lists its fields
under their Go names, in declaration order. -/
inductive GoVal where
  | int (i : Int)
  | uint8 (n : Nat)
  | float64 (f : Float64)
  | bool (b : Bool)
  | string (s : String)
  | nil
  | slice (elems : List GoVal) (spare : List GoVal)
  | array (elems : List GoVal)
  | map (entries : List (String × GoVal))
  | struct (fields : List (String × GoVal))
  deriving Repr

/-- The zero value of a type.  The fuel bounds the nesting of struct- and
array-typed fields inside one another. -/
def zeroN (D : TypeName → List Field) : Nat → GoType → GoVal
  | _, .int => .int 0
  | _, .uint8 => .uint8 0
  | _, .float64 => .float64 ⟨false, 0, 0⟩
  | _, .bool => .bool false
  | _, .string => .string ""
  | _, .iface => .nil
  | _, .slice _ => .nil
  | _, .mapStringIface => .nil
  | 0, .array _ _ => .array []
  | k + 1, .array n t => .array (List.replicate n (zeroN D k t))
  | 0, .struct _ => .struct []
  | k + 1, .struct s => .struct ((D s).map fun f => (f.name, zeroN D k f.type))

/-- The zero value of a type; the fuel 8 exceeds the deepest nesting of struct
fields in the declarations (`ObjectTemplate` / `Tileset` / `Grid`). -/
def zero (D : TypeName → List Field) (t : GoType) : GoVal := zeroN D 8 t

/-- Reads a struct field by its Go name. -/
def getField : List (String × GoVal) → String → Option GoVal
  | [], _ => none
  | (n, v) :: rest, name => if n = name then some v else getField rest name

/-- Assigns a struct field by its Go name.  A struct value built from `zero`
carries every declared field; a value that lacks the field gains it. -/
def setField : List (String × GoVal) → String → GoVal → List (String × GoVal)
  | [], name, w => [(name, w)]
  | (n, v) :: rest, name, w =>
    if n = name then (n, w) :: rest else (n, v) :: setField rest name w

/-- The field `name` of a struct value (`none` for any other value). -/
def GoVal.field (v : GoVal) (name : String) : Option GoVal :=
  match v with
  | .struct fs => getField fs name
  | _ => none

/-- The struct value with field `name` assigned. -/
def GoVal.withField (v : GoVal) (name : String) (w : GoVal) : GoVal :=
  match v with
  | .struct fs => .struct (setField fs name w)
  | other => other

/-- The order in which map keys are kept: the order of their code point sequences
(the byte-wise order of the UTF-8 encodings, by which `encoding/json` sorts map
keys). -/
def keyLt (a b : String) : Prop :=
  a.data.map Char.toNat < b.data.map Char.toNat

instance (a b : String) : Decidable (keyLt a b) :=
  inferInstanceAs (Decidable (a.data.map Char.toNat < b.data.map Char.toNat))

/-- Assigns `m[k] = w` in a map kept sorted by key. -/
def mapInsert : List (String × GoVal) → String → GoVal → List (String × GoVal)
  | [], k, w => [(k, w)]
  | (n, v) :: rest, k, w =>
    if k = n then (n, w) :: rest
    else if keyLt k n then (k, w) :: (n, v) :: rest
    else (n, v) :: mapInsert rest k w

/-! ## Number parsing (`strconv`) -/

/-- Number of binary digits: `bitLenAux n n` is the least `k` with `n < 2^k`. -/
def bitLenAux : Nat → Nat → Nat
  | 0, _ => 0
  | fuel + 1, n => if n = 0 then 0 else bitLenAux fuel (n / 2) + 1

/-- Number of binary digits of `n`. -/
def bitLen (n : Nat) : Nat := bitLenAux n n

/-- Strips the factors of two of a mantissa into the exponent. -/
def normAux : Nat → Nat → Int → Nat × Int
  | 0, m, e => (m, e)
  | fuel + 1, m, e => if m % 2 = 0 then normAux fuel (m / 2) (e + 1) else (m, e)

/-- Normal form of `m * 2^e`. -/
def normalize (m : Nat) (e : Int) : Nat × Int :=
  if m = 0 then (0, 0) else normAux m m e

/-- The integer part of `log2 (num / den)`, for positive `num` and `den`. -/
def ilog2 (num den : Nat) : Int :=
  let l : Int := (bitLen num : Int) - (bitLen den : Int)
  if den * 2 ^ l.toNat ≤ num * 2 ^ (-l).toNat then l else l - 1

/-- The integer nearest to `n / d`, ties to even. -/
def roundHalfEven (n d : Nat) : Nat :=
  let q := n / d
  let r := n % d
  if 2 * r < d then q else if d < 2 * r then q + 1
  else if q % 2 = 0 then q else q + 1

/-- Rounds the non-negative rational `num / den` to the nearest `float64`, ties to
even (53-bit mantissa, least exponent `-1074`): the result is `q * 2^e` with `q`
the integer nearest to `num / den / 2^e`; `none` when `q * 2^e` reaches `2^1024`,
that is, exceeds the largest finite `float64`. -/
def roundRatio (num den : Nat) : Option (Nat × Int) :=
  if num = 0 then some (0, 0)
  else
    let e : Int := max (ilog2 num den - 52) (-1074)
    let q := roundHalfEven (num * 2 ^ (-e).toNat) (den * 2 ^ e.toNat)
    if 971 < e ∨ (e = 971 ∧ 2 ^ 53 ≤ q) then none else some (normalize q e)

/-- `strconv.ParseFloat(s, 64)` on a JSON number literal; `none` is its range
error.  Underflow rounds to zero without error. -/
def parseFloat : NumLit → Option Float64
  | .int neg n => (roundRatio n 1).map fun (m, e) => ⟨neg, m, e⟩
  | .dec neg m e10 =>
    (if 0 ≤ e10 then roundRatio (m * 10 ^ e10.toNat) 1
     else roundRatio m (10 ^ (-e10).toNat)).map fun (m, e) => ⟨neg, m, e⟩

/-- `strconv.ParseInt(s, 10, 64)` followed by the overflow check for `int`;
`none` for a literal with fraction or exponent, or out of the 64-bit range. -/
def parseInt : NumLit → Option Int
  | .int false n => if n < 2 ^ 63 then some n else none
  | .int true n => if n ≤ 2 ^ 63 then some (-(n : Int)) else none
  | .dec _ _ _ => none

/-- `strconv.ParseUint(s, 10, 64)` followed by the overflow check for `uint8`;
a minus sign is not accepted. -/
def parseUint8 : NumLit → Option Nat
  | .int false n => if n < 256 then some n else none
  | _ => none

mutual

/-- Equality test on Go values. -/
def GoVal.beq : GoVal → GoVal → Bool
  | .int a, .int b => a = b
  | .uint8 a, .uint8 b => a = b
  | .float64 a, .float64 b => a = b
  | .bool a, .bool b => a = b
  | .string a, .string b => a = b
  | .nil, .nil => true
  | .slice a s, .slice b t => GoVal.beqList a b && GoVal.beqList s t
  | .array a, .array b => GoVal.beqList a b
  | .map a, .map b => GoVal.beqEntries a b
  | .struct a, .struct b => GoVal.beqEntries a b
  | _, _ => false

/-- Equality test on lists of Go values. -/
def GoVal.beqList : List GoVal → List GoVal → Bool
  | [], [] => true
  | a :: as, b :: bs => GoVal.beq a b && GoVal.beqList as bs
  | _, _ => false

/-- Equality test on named Go values. -/
def GoVal.beqEntries : List (String × GoVal) → List (String × GoVal) → Bool
  | [], [] => true
  | (k, a) :: as, (l, b) :: bs => decide (k = l) && GoVal.beq a b && GoVal.beqEntries as bs
  | _, _ => false

end


/-! ## The decoder (`encoding/json`, `decode.go`) -/

/-- Case folding of one key character.  The tags of the declarations are ASCII, and
the only characters that fold onto an ASCII letter are its two cases, the Kelvin
sign (onto `k`) and the long s (onto `s`). -/
def foldRune (c : Char) : Nat :=
  let n := c.toNat
  if 65 ≤ n ∧ n ≤ 90 then n + 32
  else if n = 0x212A then 107
  else if n = 0x17F then 115
  else n

/-- The folded form of a key, under which keys and tags are compared. -/
def foldName (s : String) : List Nat := s.data.map foldRune

/-- The field an object key is decoded into: the field whose tag is the key, else
the first field whose tag equals the key up to case folding, else none. -/
def findField (fs : List Field) (key : String) : Option Field :=
  match fs.find? (fun f => f.tag = key) with
  | some f => some f
  | none => fs.find? (fun f => foldName f.tag = foldName key)

/-- The `Value` of an `UnmarshalTypeError`: the kind of JSON value that did not fit,
with the literal for a number that failed to parse. -/
inductive ValueDesc where
  | array
  | object
  | bool
  | string
  | number
  | numberLit (n : NumLit)
  deriving DecidableEq, Repr

/-- The `json.UnmarshalTypeError` (its `Value` and `Type`; offsets and the field
path are not modelled). -/
structure UnmarshalTypeError where
  value : ValueDesc
  type : GoType
  deriving DecidableEq, Repr

/-- The saved error of the decoder state: the first one recorded is kept. -/
def firstErr (a b : Option UnmarshalTypeError) : Option UnmarshalTypeError :=
  match a with
  | some e => some e
  | none => b

/-- The backing array a slice decode writes into: elements and spare elements of
the current slice, nothing for nil. -/
def backing : GoVal → List GoVal
  | .slice es sp => es ++ sp
  | _ => []

/-- The elements of the current array value. -/
def arrayElems : GoVal → List GoVal
  | .array es => es
  | _ => []

/-- The entries of the current map value, none for nil. -/
def mapEntries : GoVal → List (String × GoVal)
  | .map es => es
  | _ => []

/-- The fields of the current struct value. -/
def structFields : GoVal → List (String × GoVal)
  | .struct fs => fs
  | _ => []

mutual

/-- Decoding of one JSON value into nothing but `interface{}`
(`valueInterface`): a fresh Go value and the first error. -/
def toIface : JSON → GoVal × Option UnmarshalTypeError
  | .null => (.nil, none)
  | .bool b => (.bool b, none)
  | .str s => (.string s, none)
  | .num l =>
    match parseFloat l with
    | some f => (.float64 f, none)
    | none => (.nil, some ⟨.numberLit l, .float64⟩)
  | .arr xs => let r := toIfaceList xs; (.slice r.1 [], r.2)
  | .obj kvs => let r := toIfaceMembers kvs []; (.map r.1, r.2)

/-- The elements of `arrayInterface`, in order. -/
def toIfaceList : List JSON → List GoVal × Option UnmarshalTypeError
  | [] => ([], none)
  | x :: xs =>
    let r := toIface x
    let rs := toIfaceList xs
    (r.1 :: rs.1, firstErr r.2 rs.2)

/-- The entries of `objectInterface`: each member is assigned in document order,
a later duplicate replacing the earlier entry. -/
def toIfaceMembers : List (String × JSON) → List (String × GoVal) →
    List (String × GoVal) × Option UnmarshalTypeError
  | [], m => (m, none)
  | (k, x) :: rest, m =>
    let r := toIface x
    let rs := toIfaceMembers rest (mapInsert m k r.1)
    (rs.1, firstErr r.2 rs.2)

end

mutual

/-- The method `decodeState.value` at a target of type `t` holding `cur`: the new
value of the target and the first `UnmarshalTypeError` recorded, if any. -/
def decode (D : TypeName → List Field) : GoType → JSON → GoVal →
    GoVal × Option UnmarshalTypeError
  -- literalStore, null: nilable kinds are set to nil, every other kind is left alone
  | .iface, .null, _ => (.nil, none)
  | .slice _, .null, _ => (.nil, none)
  | .mapStringIface, .null, _ => (.nil, none)
  | _, .null, cur => (cur, none)
  -- literalStore, true / false
  | .bool, .bool b, _ => (.bool b, none)
  | .iface, .bool b, _ => (.bool b, none)
  | t, .bool _, cur => (cur, some ⟨.bool, t⟩)
  -- literalStore, string (no declared field is a byte slice)
  | .string, .str s, _ => (.string s, none)
  | .iface, .str s, _ => (.string s, none)
  | t, .str _, cur => (cur, some ⟨.string, t⟩)
  -- literalStore, number
  | .iface, .num l, cur =>
    match parseFloat l with
    | some f => (.float64 f, none)
    | none => (cur, some ⟨.numberLit l, .float64⟩)
  | .int, .num l, cur =>
    match parseInt l with
    | some i => (.int i, none)
    | none => (cur, some ⟨.numberLit l, .int⟩)
  | .uint8, .num l, cur =>
    match parseUint8 l with
    | some n => (.uint8 n, none)
    | none => (cur, some ⟨.numberLit l, .uint8⟩)
  | .float64, .num l, cur =>
    match parseFloat l with
    | some f => (.float64 f, none)
    | none => (cur, some ⟨.numberLit l, .float64⟩)
  | t, .num _, cur => (cur, some ⟨.number, t⟩)
  -- array
  | .iface, .arr xs, _ => let r := toIfaceList xs; (.slice r.1 [], r.2)
  | .slice _, .arr [], _ => (.slice [] [], none)
  | .slice t, .arr xs, cur =>
    let r := decodeElems D t xs (backing cur)
    (.slice r.1 ((backing cur).drop xs.length), r.2)
  | .array n t, .arr xs, cur =>
    let r := decodeArray D t n xs (arrayElems cur)
    (.array r.1, r.2)
  | t, .arr _, cur => (cur, some ⟨.array, t⟩)
  -- object
  | .iface, .obj kvs, _ => let r := toIfaceMembers kvs []; (.map r.1, r.2)
  | .mapStringIface, .obj kvs, cur =>
    let r := toIfaceMembers kvs (mapEntries cur)
    (.map r.1, r.2)
  | .struct s, .obj kvs, cur =>
    let r := decodeFields D (D s) kvs (structFields cur)
    (.struct r.1, r.2)
  | t, .obj _, cur => (cur, some ⟨.object, t⟩)

/-- The loop of `decodeState.array` over a slice: element `i` is decoded into
element `i` of the backing array, or into a zero element beyond it. -/
def decodeElems (D : TypeName → List Field) (t : GoType) :
    List JSON → List GoVal → List GoVal × Option UnmarshalTypeError
  | [], _ => ([], none)
  | x :: xs, b =>
    let r := decode D t x (b.headD (zero D t))
    let rs := decodeElems D t xs b.tail
    (r.1 :: rs.1, firstErr r.2 rs.2)

/-- The loop of `decodeState.array` over a fixed array with `n` elements left:
elements are decoded in place, JSON elements beyond the array are skipped, and the
remainder of the array is zeroed. -/
def decodeArray (D : TypeName → List Field) (t : GoType) :
    Nat → List JSON → List GoVal → List GoVal × Option UnmarshalTypeError
  | 0, _, _ => ([], none)
  | n + 1, [], _ => (List.replicate (n + 1) (zero D t), none)
  | n + 1, x :: xs, b =>
    let r := decode D t x (b.headD (zero D t))
    let rs := decodeArray D t n xs b.tail
    (r.1 :: rs.1, firstErr r.2 rs.2)

/-- The loop of `decodeState.object` over a struct with fields `fs`: each member
whose key finds a field is decoded into that field's current value; a member
whose key finds none is skipped. -/
def decodeFields (D : TypeName → List Field) (fs : List Field) :
    List (String × JSON) → List (String × GoVal) →
    List (String × GoVal) × Option UnmarshalTypeError
  | [], cur => (cur, none)
  | (k, x) :: rest, cur =>
    match findField fs k with
    | none => decodeFields D fs rest cur
    | some f =>
      let r := decode D f.type x ((getField cur f.name).getD (zero D f.type))
      let rs := decodeFields D fs rest (setField cur f.name r.1)
      (rs.1, firstErr r.2 rs.2)

end

/-! ## The loaders of `src/tiled.go` -/

/-- The contents of a file. -/
abbrev Bytes := List Nat

/-- The error of `ioutil.ReadFile` (a `*os.PathError`). -/
structure ReadError where
  msg : String
  deriving DecidableEq, Repr

/-- The error of the syntax phase of `json.Unmarshal` (a `*json.SyntaxError`). -/
structure SyntaxError where
  msg : String
  deriving DecidableEq, Repr

/-- The errors a loader can return: the error of the read, or one of the two
errors of `json.Unmarshal`. -/
inductive Error where
  | read (e : ReadError)
  | malformed (e : SyntaxError)
  | mismatch (e : UnmarshalTypeError)
  deriving DecidableEq, Repr

/-- The two standard-library functions the loaders call into and that are not
modelled further: `ioutil.ReadFile`, and the syntax phase of `json.Unmarshal`,
which either rejects the bytes or determines the JSON document they spell. -/
structure Env where
  ReadFile : String → Except ReadError Bytes
  scan : Bytes → Except SyntaxError JSON

/-- The call `json.Unmarshal(data, v)` for `v` pointing to a value `cur` of type
`t`: the value `v` points to afterwards, and the returned error.  A syntax error is
returned before anything is decoded. -/
def Unmarshal (env : Env) (D : TypeName → List Field) (data : Bytes) (t : GoType)
    (cur : GoVal) : GoVal × Option Error :=
  match env.scan data with
  | .error e => (cur, some (.malformed e))
  | .ok doc =>
    let r := decode D t doc cur
    (r.1, r.2.map Error.mismatch)

/-- The function `ParseTilemap` of `src/tiled.go`.  The first component is the
returned `*Map` (`none` for the nil pointer), the second the returned error. -/
def ParseTilemap (env : Env) (path : String) : Option GoVal × Option Error :=
  let m := zero decls (.struct .Map)
  match env.ReadFile path with
  | .error err => (none, some (.read err))
  | .ok jdata =>
    let r := Unmarshal env decls jdata (.struct .Map) m
    (some r.1, r.2)

/-- The function `ParseTileset` of `src/tiled.go`. -/
def ParseTileset (env : Env) (path : String) : Option GoVal × Option Error :=
  let ts := zero decls (.struct .Tileset)
  match env.ReadFile path with
  | .error err => (none, some (.read err))
  | .ok jdata =>
    let r := Unmarshal env decls jdata (.struct .Tileset) ts
    (some r.1, r.2)

/-! ## The older package `src/tiled/tiled.go` -/

namespace Subpkg

/-- `type Map struct` of `src/tiled/tiled.go`. -/
def Map : List Field :=
  [ fld "BackgroundColor" .string "backgroundcolor",
    fld "Height" .int "height",
    fld "HexSideLength" .int "hexsidelength",
    fld "Infinite" .bool "infinite",
    fld "Layers" (.slice (.struct .Layer)) "layers",
    fld "NextLayerID" .int "nextlayerid",
    fld "NextObjectID" .int "nextobjectid",
    fld "Orientation" .string "orientation",
    fld "Properties" (.slice (.struct .Property)) "properties",
    fld "RenderOrder" .string "renderorder",
    fld "StaggerAxis" .string "staggeraxis",
    fld "StaggerIndex" .string "staggerindex",
    fld "TiledVersion" .string "tiledversion",
    fld "TileHeight" .int "tileheight",
    fld "Tilesets" (.slice (.struct .Tileset)) "tilesets",
    fld "TileWidth" .int "tilewidth",
    fld "Type" .string "type",
    fld "Version" .float64 "version",
    fld "Width" .int "width" ]

/-- `type Layer struct` of `src/tiled/tiled.go`. -/
def Layer : List Field :=
  [ fld "ID" .int "id",
    fld "Name" .string "name",
    fld "Type" .string "type",
    fld "Visible" .bool "visible",
    fld "Width" .int "width",
    fld "Height" .int "height",
    fld "X" .int "x",
    fld "Y" .int "y",
    fld "Offsetx" .float64 "offsetx",
    fld "Offsety" .float64 "offsety",
    fld "Opacity" .float64 "opacity",
    fld "Properties" (.slice (.struct .Property)) "properties",
    fld "Chunks" (.slice (.struct .Chunk)) "chunks",
    fld "Compression" .string "compression",
    fld "Data" .iface "data",
    fld "Encoding" .string "encoding",
    fld "Draworder" .string "draworder",
    fld "Layers" (.slice (.struct .Layer)) "layers",
    fld "Objects" (.slice (.struct .Object)) "objects",
    fld "Image" .string "image",
    fld "Transparentcolor" .string "transparentcolor" ]

/-- `type Object struct` of `src/tiled/tiled.go`. -/
def Object : List Field :=
  [ fld "ID" .int "id",
    fld "GID" .int "gid",
    fld "Name" .string "name",
    fld "Type" .string "type",
    fld "X" .float64 "x",
    fld "Y" .float64 "y",
    fld "Width" .float64 "width",
    fld "Height" .float64 "height",
    fld "Visible" .bool "visible",
    fld "Ellipse" .bool "ellipse",
    fld "Point" .bool "point",
    fld "Polygon" (.slice (.struct .Coordinate)) "polygon",
    fld "Polyline" (.slice (.struct .Coordinate)) "polyline",
    fld "Properties" (.slice (.struct .Property)) "properties",
    fld "Rotation" .float64 "rotation",
    fld "Template" .string "template",
    fld "Text" .mapStringIface "text" ]

/-- `type Coordinate struct` of `src/tiled/tiled.go`: the fields carry no tag, so
their JSON names are the Go names. -/
def Coordinate : List Field :=
  [ fld "X" .float64 "X",
    fld "Y" .float64 "Y" ]

/-- The anonymous struct type of `Tileset.TileOffset` in `src/tiled/tiled.go`. -/
def TileOffset : List Field :=
  [ fld "X" .int "x",
    fld "Y" .int "y" ]

/-- `type Tileset struct` of `src/tiled/tiled.go`. -/
def Tileset : List Field :=
  [ fld "FirstGID" .int "firstgid",
    fld "Name" .string "name",
    fld "Type" .string "type",
    fld "Columns" .int "columns",
    fld "Grid" (.struct .Grid) "grid",
    fld "Image" .string "image",
    fld "ImageHeight" .int "imageheight",
    fld "ImageWidth" .int "imagewidth",
    fld "Properties" (.slice (.struct .Property)) "properties",
    fld "Margin" .int "margin",
    fld "Spacing" .int "spacing",
    fld "TileCount" .int "tilecount",
    fld "TileWidth" .int "tilewidth",
    fld "TileHeight" .int "tileheight",
    fld "TransparentColor" .string "transparentcolor",
    fld "TileOffset" (.struct .Offset) "tileoffset",
    fld "Terrains" (.slice (.struct .Terrain)) "terrains",
    fld "Tiles" (.slice (.struct .Tile)) "tiles",
    fld "WangSets" (.slice (.struct .WangSet)) "wangsets" ]

/-- `type WangTile struct` of `src/tiled/tiled.go`. -/
def WangTile : List Field :=
  [ fld "TileID" .int "tileid",
    fld "WangID" (.array 8 .uint8) "wangid",
    fld "Dflip" .bool "dflip",
    fld "Hflip" .bool "hflip",
    fld "Vflip" .bool "vflip" ]

/-- The struct declarations of package `tiled` in `src/tiled/tiled.go`.  The
declarations of `Property`, `Chunk`, `Grid`, `Tile`, `Frame`, `Terrain`, `WangSet`,
`WangColor` and `ObjectTemplate` have the fields, types and tags of their
namesakes in `src/tiled.go`; `Offset` names the anonymous struct of
`Tileset.TileOffset`. -/
def decls : TypeName → List Field
  | .Map => Map
  | .Property => Tiled.Property
  | .Layer => Layer
  | .Chunk => Tiled.Chunk
  | .Object => Object
  | .Coordinate => Coordinate
  | .Offset => TileOffset
  | .Tileset => Tileset
  | .Grid => Tiled.Grid
  | .Tile => Tiled.Tile
  | .Frame => Tiled.Frame
  | .Terrain => Tiled.Terrain
  | .WangSet => Tiled.WangSet
  | .WangColor => Tiled.WangColor
  | .WangTile => WangTile
  | .ObjectTemplate => Tiled.ObjectTemplate

/-- The function `Parse` of `src/tiled/tiled.go`. -/
def Parse (env : Env) (filename : String) : Option GoVal × Option Error :=
  let m := zero decls (.struct .Map)
  match env.ReadFile filename with
  | .error err => (none, some (.read err))
  | .ok jdata =>
    let r := Unmarshal env decls jdata (.struct .Map) m
    (some r.1, r.2)

end Subpkg

/-! ## The nesting limit of the syntax phase (`encoding/json`, `scanner.go`) -/

/-- The constant `maxNestingDepth` of `scanner.go`: how many arrays and objects may
be open at once. -/
def maxNestingDepth : Nat := 10000

mutual

/-- The greatest number of arrays and objects that are open at once while a
document is read. -/
def JSON.nesting : JSON → Nat
  | .arr xs => JSON.nestingList xs + 1
  | .obj kvs => JSON.nestingMembers kvs + 1
  | _ => 0

/-- The greatest nesting of the elements of an array. -/
def JSON.nestingList : List JSON → Nat
  | [] => 0
  | x :: xs => max x.nesting (JSON.nestingList xs)

/-- The greatest nesting of the members of an object. -/
def JSON.nestingMembers : List (String × JSON) → Nat
  | [] => 0
  | (_, x) :: kvs => max x.nesting (JSON.nestingMembers kvs)

end

mutual

/-- The method `scanner.pushParseState` along a document, when `room` more arrays
and objects may be opened: the character (`[` or `\x7b`) that opens the first array
or object, in reading order, for which no room is left, if there is one. -/
def JSON.refused : JSON → Nat → Option Char
  | .arr xs, room => if room = 0 then some (Char.ofNat 91) else JSON.refusedList xs (room - 1)
  | .obj kvs, room =>
    if room = 0 then some (Char.ofNat 123) else JSON.refusedMembers kvs (room - 1)
  | _, _ => none

/-- The same along the elements of an array. -/
def JSON.refusedList : List JSON → Nat → Option Char
  | [], _ => none
  | x :: xs, room =>
    match x.refused room with
    | some c => some c
    | none => JSON.refusedList xs room

/-- The same along the members of an object. -/
def JSON.refusedMembers : List (String × JSON) → Nat → Option Char
  | [], _ => none
  | (_, x) :: kvs, room =>
    match x.refused room with
    | some c => some c
    | none => JSON.refusedMembers kvs room

end

/-- The syntax phase of `json.Unmarshal` (`checkValid`) on bytes that spell the
document `doc`: the document is accepted unless an array or object is opened when
`maxNestingDepth` of them are open already, which `pushParseState` reports as the
syntax error `invalid character ... exceeded max depth` at the character that
opens it. -/
def checkValid (doc : JSON) : Except SyntaxError JSON :=
  match doc.refused maxNestingDepth with
  | some c =>
    .error ⟨"invalid character \x27" ++ String.singleton c ++ "\x27 exceeded max depth"⟩
  | none => .ok doc

/-- An environment in which every path can be read and every file spells `doc`, the
syntax phase being that of `encoding/json`. -/
def spelledEnv (doc : JSON) : Env :=
  ⟨fun _ => .ok [], fun _ => checkValid doc⟩

/-! ## Statements about the loaders -/

/-- An environment in which every path can be read and every file spells `doc`. -/
def fileEnv (doc : JSON) : Env :=
  ⟨fun _ => .ok [], fun _ => .ok doc⟩

/-- An environment in which no path can be read. -/
def missingEnv : Env :=
  ⟨fun _ => .error ⟨"open: no such file or directory"⟩, fun _ => .ok .null⟩

/-- An environment in which every path can be read and no file is valid JSON. -/
def garbageEnv : Env :=
  ⟨fun _ => .ok [123], fun _ => .error ⟨"unexpected end of JSON input"⟩⟩

/-- The error contract of a loader `load` that reads a file and unmarshals it into
a fresh `root` struct of the declarations `D`. -/
def LoaderContract (load : Env → String → Option GoVal × Option Error)
    (D : TypeName → List Field) (root : TypeName) : Prop :=
  ∀ (env : Env) (path : String),
    -- an error is returned exactly when the read fails or the decoding fails
    ((load env path).2 ≠ none ↔
      (∃ e, env.ReadFile path = .error e) ∨
      (∃ data, env.ReadFile path = .ok data ∧
        (Unmarshal env D data (.struct root) (zero D (.struct root))).2 ≠ none)) ∧
    -- a failed read: its error, and the result does not depend on the decoder
    (∀ e, env.ReadFile path = .error e →
      ∀ scan, load ⟨env.ReadFile, scan⟩ path = (none, some (.read e))) ∧
    -- a successful read: the error of `json.Unmarshal`, unchanged
    (∀ data, env.ReadFile path = .ok data →
      (load env path).2 =
        (Unmarshal env D data (.struct root) (zero D (.struct root))).2) ∧
    -- bad syntax is a decoding failure
    (∀ data e, env.ReadFile path = .ok data → env.scan data = .error e →
      (load env path).2 = some (.malformed e)) ∧
    -- a string where a number is declared is a decoding failure
    (∀ data kvs k s f, env.ReadFile path = .ok data →
      env.scan data = .ok (.obj kvs) → (k, JSON.str s) ∈ kvs →
      findField (D root) k = some f → (f.type = .int ∨ f.type = .float64) →
      ∃ e, (load env path).2 = some (.mismatch e)) ∧
    -- no error: a record is returned
    ((load env path).2 = none → ∃ m, (load env path).1 = some m)

/-- Whether a member under key `k` is decoded into the field with Go name `name` of
a struct with fields `fs`. -/
def decodesInto (fs : List Field) (k : String) (name : String) : Bool :=
  match findField fs k with
  | some g => g.name = name
  | none => false

/-- One step into a Go value: a struct field, or a slice element. -/
inductive Step where
  | field (name : String)
  | index (i : Nat)
  deriving DecidableEq, Repr

/-- The component of a Go value one step down. -/
def GoVal.step : GoVal → Step → Option GoVal
  | .struct fs, .field name => getField fs name
  | .slice es _, .index i => es.get? i
  | _, _ => none

/-- The component of a Go value at the end of a path. -/
def GoVal.select : GoVal → List Step → Option GoVal
  | v, [] => some v
  | v, s :: p => (v.step s).bind fun w => w.select p

/-- The relation `Located D t doc p t' doc'`: when `doc` is decoded at a target of
type `t`, the sub-document `doc'` is what is decoded last into the component at
path `p`, which has type `t'`.  Going into an object that is decoded into a
struct, one follows the last member that is decoded into the field; going into an
array that is decoded into a slice, one follows an element. -/
inductive Located (D : TypeName → List Field) :
    GoType → JSON → List Step → GoType → JSON → Prop where
  | root (t : GoType) (doc : JSON) : Located D t doc [] t doc
  | member (s : TypeName) (pre post : List (String × JSON)) (k : String) (f : Field)
      (x : JSON) (p : List Step) (t' : GoType) (x' : JSON) :
      findField (D s) k = some f →
      (∀ kx ∈ post, decodesInto (D s) kx.1 f.name = false) →
      Located D f.type x p t' x' →
      Located D (.struct s) (.obj (pre ++ (k, x) :: post)) (.field f.name :: p) t' x'
  | elem (t : GoType) (pre post : List JSON) (x : JSON) (p : List Step) (t' : GoType)
      (x' : JSON) :
      Located D t x p t' x' →
      Located D (.slice t) (.arr (pre ++ x :: post)) (.index pre.length :: p) t' x'

/-- The record a loader returned, at the end of a path. -/
def recordAt (r : Option GoVal × Option Error) (p : List Step) : Option GoVal :=
  r.1.bind fun m => m.select p

/-- The `float64` that equals the natural number `n`, when `n` has at most 53
significant bits. -/
def Float64.ofNat (n : Nat) : Float64 :=
  ⟨false, (normalize n 0).1, (normalize n 0).2⟩

/-- The integer a `float64` equals, if it equals one. -/
def Float64.toInt? (f : Float64) : Option Int :=
  if 0 ≤ f.exp then
    some ((if f.neg then -1 else 1) * ((f.mant : Int) * 2 ^ f.exp.toNat))
  else none

/-- The finite `float64` values in normal form: a zero, or an odd mantissa below
`2^53` with an exponent of at least `-1074` and a value below `2^1024`. -/
def Float64.valid (f : Float64) : Bool :=
  (f.mant = 0 ∧ f.exp = 0) ∨
    (f.mant % 2 = 1 ∧ f.mant < 2 ^ 53 ∧ -1074 ≤ f.exp ∧ f.exp + bitLen f.mant ≤ 1024)

/-- The literal JSON array of the unsigned integers `gs`. -/
def gidArray (gs : List Nat) : JSON :=
  .arr (gs.map fun g => .num (.int false g))

/-- The integers a list of Go values holds, when they are numbers that are all
integers. -/
def intsOfFloats? : List GoVal → Option (List Int)
  | [] => some []
  | .float64 f :: rest =>
    match f.toInt?, intsOfFloats? rest with
    | some i, some is => some (i :: is)
    | _, _ => none
  | _ :: _ => none

/-- The integers a Go value holds, when it is a slice of numbers that are all
integers. -/
def GoVal.toInts? : GoVal → Option (List Int)
  | .slice es _ => intsOfFloats? es
  | _ => none

/-- The explicit zero literal of a field of static scalar type: `""`, `0`, `false`. -/
def scalarZero : GoType → Option JSON
  | .string => some (.str "")
  | .int => some (.num (.int false 0))
  | .uint8 => some (.num (.int false 0))
  | .float64 => some (.num (.int false 0))
  | .bool => some (.bool false)
  | _ => none

/-- The minimal orthogonal map of the spec: `width=2, height=2, tilewidth=32,
tileheight=32`, one tile layer with `data=[1,2,3,4]`, and one tileset entry that
refers to the external tileset `tiles.json`. -/
def minimalMap : JSON :=
  .obj [("width", .num (.int false 2)), ("height", .num (.int false 2)),
    ("tilewidth", .num (.int false 32)), ("tileheight", .num (.int false 32)),
    ("layers", .arr [.obj [("type", .str "tilelayer"), ("data", gidArray [1, 2, 3, 4]),
      ("width", .num (.int false 2)), ("height", .num (.int false 2))]]),
    ("tilesets", .arr [.obj [("firstgid", .num (.int false 1)),
      ("source", .str "tiles.json")]])]

/-- The `Tileset` of an external tileset reference: `FirstGID` and `Source` set,
every other field at its zero value. -/
def externalTileset (g : Nat) (s : String) : GoVal :=
  ((zero decls (.struct .Tileset)).withField "FirstGID" (.int g)).withField "Source"
    (.string s)

/-- The number of elements of a slice. -/
def GoVal.len : GoVal → Nat
  | .slice es _ => es.length
  | _ => 0

/-- A group layer as a map file writes it: the members of its JSON object before
and after the member `layers`, and the group layers that `layers` lists, to any
depth. -/
inductive Group where
  | mk (pre post : List (String × JSON)) (children : List Group)

/-- The child groups of a group layer. -/
def Group.children : Group → List Group
  | .mk _ _ cs => cs

mutual

/-- The JSON object of a group layer: its members, with its children in the member
`layers`. -/
def Group.toJSON : Group → JSON
  | .mk pre post cs => .obj (pre ++ ("layers", .arr (Group.listToJSON cs)) :: post)

/-- The JSON objects of a list of group layers, in order. -/
def Group.listToJSON : List Group → List JSON
  | [] => []
  | c :: cs => c.toJSON :: Group.listToJSON cs

end

/-- The JSON object of a map: its members before and after the member `layers`,
which lists the group layers `gs`. -/
def mapJSON (pre post : List (String × JSON)) (gs : List Group) : JSON :=
  .obj (pre ++ ("layers", .arr (Group.listToJSON gs)) :: post)

/-- Whether the members `ms` of an object that is decoded into the struct `s` leave
the field `Layers` alone and are decoded without error. -/
def plainMembers (s : TypeName) (ms : List (String × JSON)) : Bool :=
  ms.all (fun kx => !decodesInto (decls s) kx.1 "Layers") &&
    (decode decls (.struct s) (.obj ms) (zero decls (.struct s))).2.isNone

mutual

/-- Whether, in a group layer and in all the groups below it, the members other
than `layers` leave the field `Layers` alone and are decoded without error. -/
def Group.plain : Group → Bool
  | .mk pre post cs => plainMembers .Layer (pre ++ post) && Group.listPlain cs

/-- The same for every group of a list. -/
def Group.listPlain : List Group → Bool
  | [] => true
  | c :: cs => c.plain && Group.listPlain cs

end

/-- The record of type `s` (a `Map` or a `Layer`) that is expected of an object
with the members `ms` and a member `layers`: what the members `ms` alone load as,
with `Layers` holding the given layers. -/
def withLayers (s : TypeName) (ms : List (String × JSON)) (layers : List GoVal) : GoVal :=
  (decode decls (.struct s) (.obj ms) (zero decls (.struct s))).1.withField "Layers"
    (.slice layers [])

/-- The `Layer` of a group: `Name`, `Type` and `Layers` set, every other field
zero. -/
def groupLayer (name : String) (children : GoVal) : GoVal :=
  (((zero decls (.struct .Layer)).withField "Name" (.string name)).withField "Type"
    (.string "group")).withField "Layers" children

mutual

/-- The `Layer` a group layer is expected to load as: its `Layers` holds the layers
of its children, in order. -/
def Group.toLayer : Group → GoVal
  | .mk pre post cs => withLayers .Layer (pre ++ post) (Group.listToLayers cs)

/-- The `Layer` values of a list of group layers, in order. -/
def Group.listToLayers : List Group → List GoVal
  | [] => []
  | c :: cs => c.toLayer :: Group.listToLayers cs

end

/-- A group layer written with its name, its type and its children only. -/
def namedGroup (name : String) (children : List Group) : Group :=
  .mk [("name", .str name), ("type", .str "group")] [] children

/-- A chain of `n` group layers nested one inside the other, as the one-element
list of children it forms (empty for `n = 0`); the outermost group is `g<n>`. -/
def groupChain : Nat → List Group
  | 0 => []
  | n + 1 => [namedGroup ("g" ++ toString (n + 1)) (groupChain n)]

/-- Whether a list of group layers is a chain of `n` groups nested one inside the
other: one group, that holds one group, and so on, the innermost holding none. -/
def Group.isChain : Nat → List Group → Bool
  | 0, [] => true
  | n + 1, [g] => Group.isChain n g.children
  | _, _ => false

mutual

/-- The depth of the layer tree that a `Map` or `Layer` value holds in its field
`Layers` (for a slice: that its elements form): 0 when there is no layer, else one
more than the depth of the deepest layer. -/
def GoVal.layerDepth : GoVal → Nat
  | .struct fs => GoVal.layerDepthFields fs
  | .slice es _ => GoVal.layerDepthList es
  | _ => 0

/-- The depth of the layer tree in the first field named `Layers`. -/
def GoVal.layerDepthFields : List (String × GoVal) → Nat
  | [] => 0
  | (n, v) :: fs => if n = "Layers" then GoVal.layerDepth v else GoVal.layerDepthFields fs

/-- One more than the depth of the deepest layer of a list. -/
def GoVal.layerDepthList : List GoVal → Nat
  | [] => 0
  | v :: vs => max (GoVal.layerDepth v + 1) (GoVal.layerDepthList vs)

end

/-- A group layer written as the editor writes it, its members in alphabetical
order: `id`, `layers`, `name`, `opacity`, `type`, `visible`, `x`, `y`. -/
def editorGroup (id : Nat) (name : String) (children : List Group) : Group :=
  .mk [("id", .num (.int false id))]
    [("name", .str name), ("opacity", .num (.int false 1)), ("type", .str "group"),
      ("visible", .bool true), ("x", .num (.int false 0)), ("y", .num (.int false 0))]
    children

/-- A chain of five group layers nested one inside the other, written as the editor
writes them. -/
def editorChain : List Group :=
  [editorGroup 1 "world" [editorGroup 2 "region" [editorGroup 3 "town"
    [editorGroup 4 "house" [editorGroup 5 "room" []]]]]]

/-- Whether a member key is decoded into none of the fields named in `names`. -/
def keepKey (fs : List Field) (names : List String) (k : String) : Bool :=
  match findField fs k with
  | some f => decide (f.name ∉ names)
  | none => true

/-- Whether a JSON value is a number literal within the range of `float64`. -/
def isFloatLit : JSON → Bool
  | .num l => (parseFloat l).isSome
  | _ => false

/-- Whether a JSON value is a string. -/
def isStr : JSON → Bool
  | .str _ => true
  | _ => false

/-- The members of a map object other than the ones decoded into `Version` and
`TiledVersion`. -/
def withoutVersions (kvs : List (String × JSON)) : List (String × JSON) :=
  kvs.filter fun kx => keepKey Map ["Version", "TiledVersion"] kx.1

/-! ## Re-serialisation -/

/-- Modelled from the spec: the number literal the encoder writes for a `float64`.
The repository has no encoder; the spec asks for one that loses nothing, so the
literal denotes the value exactly: an integer literal when the value is an
integer, else the finite decimal expansion `mant * 5^k * 10^(-k)` of
`mant * 2^(-k)`.  (Go's `json.Marshal` writes the shortest literal that reads back
as the same `float64`.) -/
def encodeFloat (f : Float64) : NumLit :=
  if 0 ≤ f.exp then .int f.neg (f.mant * 2 ^ f.exp.toNat)
  else .dec f.neg (f.mant * 5 ^ (-f.exp).toNat) f.exp

/-- Modelled from the spec: the number literal the encoder writes for an integer. -/
def encodeInt (i : Int) : NumLit :=
  .int (decide (i < 0)) i.natAbs

/-- Modelled from the spec: part of the missing encoder.  Whether a field tagged
`omitempty` (in the source, `Object.Template`) is left out: when its value is
false, 0, nil, or of length zero. -/
def isEmptyValue : GoVal → Bool
  | .int i => i = 0
  | .uint8 n => n = 0
  | .float64 f => f.mant = 0
  | .bool b => !b
  | .string s => s = ""
  | .nil => true
  | .slice es _ => es.isEmpty
  | .array es => es.isEmpty
  | .map es => es.isEmpty
  | .struct _ => false

mutual

/-- Modelled from the spec: the encoder of the repository's records is missing from
the repository (no function re-serialises a `Map`); the spec describes it as
writing the record back to the external form.  This is the encoding of a
dynamically typed value (`Data`, `Property.Value`, the values of `Object.Text`): the
JSON value of the same shape. -/
def encodeDyn : GoVal → JSON
  | .nil => .null
  | .bool b => .bool b
  | .string s => .str s
  | .float64 f => .num (encodeFloat f)
  | .int i => .num (encodeInt i)
  | .uint8 n => .num (.int false n)
  | .slice es _ => .arr (encodeDynList es)
  | .array es => .arr (encodeDynList es)
  | .map es => .obj (encodeDynEntries es)
  | .struct fs => .obj (encodeDynEntries fs)

/-- Modelled from the spec: the encoder, on the elements of a sequence. -/
def encodeDynList : List GoVal → List JSON
  | [] => []
  | v :: vs => encodeDyn v :: encodeDynList vs

/-- Modelled from the spec: the encoder, on the entries of a map, in key order. -/
def encodeDynEntries : List (String × GoVal) → List (String × JSON)
  | [] => []
  | (k, v) :: es => (k, encodeDyn v) :: encodeDynEntries es

end

mutual

/-- Modelled from the spec: the encoder of the repository's records is missing from
the repository (no function re-serialises a `Map`); the spec describes it as
writing every attribute under its declared lowercase field name.  A struct becomes
the object of its fields in declaration order, each under the name of its `json`
tag and left out when it carries `omitempty` and is empty; a nil sequence or map
becomes `null`; every other value becomes the JSON value of the same shape. -/
def encode (D : TypeName → List Field) : GoType → GoVal → JSON
  | .struct s, .struct fs => .obj (encodeFields D (D s) fs)
  | .slice _, .nil => .null
  | .slice t, .slice es _ => .arr (encodeList D t es)
  | .array _ t, .array es => .arr (encodeList D t es)
  | .int, .int i => .num (encodeInt i)
  | .uint8, .uint8 n => .num (.int false n)
  | .float64, .float64 f => .num (encodeFloat f)
  | .bool, .bool b => .bool b
  | .string, .string s => .str s
  | .iface, v => encodeDyn v
  | .mapStringIface, v => encodeDyn v
  | _, _ => .null

/-- Modelled from the spec: the encoder, on the elements of a sequence. -/
def encodeList (D : TypeName → List Field) (t : GoType) : List GoVal → List JSON
  | [] => []
  | v :: vs => encode D t v :: encodeList D t vs

/-- Modelled from the spec: the encoder, on the fields of a struct. -/
def encodeFields (D : TypeName → List Field) :
    List Field → List (String × GoVal) → List (String × JSON)
  | f :: fs, (_, v) :: rest =>
    if f.omitempty && isEmptyValue v then encodeFields D fs rest
    else (f.tag, encode D f.type v) :: encodeFields D fs rest
  | _, _ => []

end

mutual

/-- Whether a Go value can be held by an `interface{}` field of a record: nil, a
bool, a string, a finite `float64`, a sequence or a string-keyed map of such
values; and, unless `strict`, a Go `int`.  With `strict` the value has one of the
shapes the decoder stores, and its slices have no spare elements. -/
def isDyn (strict : Bool) : GoVal → Bool
  | .nil => true
  | .bool _ => true
  | .string _ => true
  | .float64 f => f.valid
  | .int i => !strict && decide (-(2 : Int) ^ 63 ≤ i ∧ i < 2 ^ 63)
  | .slice es sp => isDynList strict es && (!strict || sp.isEmpty)
  | .map es =>
    decide (List.Pairwise keyLt (es.map Prod.fst)) &&
      isDynEntries strict es
  | _ => false

/-- Whether all values of a list can be held by an `interface{}`. -/
def isDynList (strict : Bool) : List GoVal → Bool
  | [] => true
  | v :: vs => isDyn strict v && isDynList strict vs

/-- Whether all values of the entries of a map can be held by an `interface{}`. -/
def isDynEntries (strict : Bool) : List (String × GoVal) → Bool
  | [] => true
  | (_, v) :: es => isDyn strict v && isDynEntries strict es

end

mutual

/-- Whether a Go value is a value of the given type: integers within their range,
floats finite and in normal form, maps sorted by key, structs with exactly the
declared fields.  With `strict` the dynamically typed parts have the shapes the
decoder stores and slices have no spare elements. -/
def conforms (D : TypeName → List Field) (strict : Bool) : GoType → GoVal → Bool
  | .int, .int i => decide (-(2 : Int) ^ 63 ≤ i ∧ i < 2 ^ 63)
  | .uint8, .uint8 n => decide (n < 256)
  | .float64, .float64 f => f.valid
  | .bool, .bool _ => true
  | .string, .string _ => true
  | .iface, v => isDyn strict v
  | .slice _, .nil => true
  | .slice t, .slice es sp => conformsList D strict t es && (!strict || sp.isEmpty)
  | .array n t, .array es =>
    decide (t = .uint8) && decide (es.length = n) && conformsList D strict t es
  | .mapStringIface, .nil => true
  | .mapStringIface, .map es =>
    decide (List.Pairwise keyLt (es.map Prod.fst)) &&
      isDynEntries strict es
  | .struct s, .struct fs => conformsFields D strict (D s) fs
  | _, _ => false

/-- Whether all values of a list are values of the given type. -/
def conformsList (D : TypeName → List Field) (strict : Bool) (t : GoType) :
    List GoVal → Bool
  | [] => true
  | v :: vs => conforms D strict t v && conformsList D strict t vs

/-- Whether the fields of a struct value are the declared ones, in order, each with
a value of its type. -/
def conformsFields (D : TypeName → List Field) (strict : Bool) :
    List Field → List (String × GoVal) → Bool
  | [], [] => true
  | f :: fs, (n, v) :: rest =>
    decide (n = f.name) && conforms D strict f.type v && conformsFields D strict fs rest
  | _, _ => false

end

/-- A populated `Map`: dimensions, a format version, one tile layer with `Data` as
stored by the loader and a string property, one object layer whose object carries
a `Text` map and a polygon, and one external tileset reference. -/
def sampleMap : GoVal :=
  (((((((zero decls (.struct .Map)).withField "Width" (.int 2)).withField "Height"
    (.int 2)).withField "Orientation" (.string "orthogonal")).withField "TiledVersion"
    (.string "1.2.4")).withField "Version" (.float64 ⟨false, 5404319552844595, -52⟩)).withField
    "Layers" (.slice
      [(((zero decls (.struct .Layer)).withField "Type" (.string "tilelayer")).withField "Data"
          (.slice [.float64 ⟨false, 1, 0⟩, .float64 ⟨false, 1, 1⟩, .float64 ⟨false, 3, 0⟩,
            .float64 ⟨false, 2147483653, 0⟩] [])).withField "Properties"
          (.slice [((zero decls (.struct .Property)).withField "Name"
            (.string "biome")).withField "Value" (.string "forest")] []),
       (((zero decls (.struct .Layer)).withField "Type" (.string "objectgroup")).withField
          "Opacity" (.float64 ⟨false, 1, -1⟩)).withField "Objects"
          (.slice [(((zero decls (.struct .Object)).withField "ID" (.int 7)).withField "Text"
            (.map [("text", .string "hello"), ("wrap", .bool true)])).withField "Polygon"
            (.slice [((zero decls (.struct .Coordinate)).withField "X"
              (.float64 ⟨true, 3, -1⟩))] [])] [])]
      [])).withField "Tilesets" (.slice [externalTileset 1 "tiles.json"] [])

/-- A populated `Map` whose one property holds the Go `int` 9007199254740993
(`2^53 + 1`) in its `Value`. -/
def intValueMap : GoVal :=
  (zero decls (.struct .Map)).withField "Properties"
    (.slice [(((zero decls (.struct .Property)).withField "Name" (.string "seed")).withField
      "Type" (.string "int")).withField "Value" (.int 9007199254740993)] [])

/-- The record `intValueMap` comes back as: the `Value` is the `float64` `2^53`. -/
def intValueMapReloaded : GoVal :=
  (zero decls (.struct .Map)).withField "Properties"
    (.slice [(((zero decls (.struct .Property)).withField "Name" (.string "seed")).withField
      "Type" (.string "int")).withField "Value" (.float64 ⟨false, 1, 53⟩)] [])

/-! ## Comparing the two packages -/

/-- The field of the older package that a field of `src/tiled.go` corresponds to:
the field of the same struct in `src/tiled/tiled.go` that a member under the
field's JSON name is decoded into, if there is one. -/
def counterpart (s : TypeName) (f : Field) : Option Field :=
  findField (Subpkg.decls s) f.tag

/-- The fields of a struct value of the older package, in its declaration order,
with the values listed in `conv` under the older Go names (zero where none is
listed). -/
def oldFields (s : TypeName) (conv : List (String × GoVal)) : List (String × GoVal) :=
  (Subpkg.decls s).map fun g =>
    (g.name, (getField conv g.name).getD (zero Subpkg.decls g.type))

mutual

/-- The value of the older package that a value of `src/tiled.go` corresponds to:
every struct field is filed under the Go name of its counterpart, in the older
declaration order, and a field without counterpart is left out. -/
def toOld : GoType → GoVal → GoVal
  | .struct s, .struct fs => .struct (oldFields s (toOldEntries s fs))
  | .struct s, _ => .struct (oldFields s [])
  | .slice t, .slice es sp => .slice (toOldList t es) (toOldList t sp)
  | .array _ t, .array es => .array (toOldList t es)
  | _, v => v

/-- The counterparts of the values of a list. -/
def toOldList (t : GoType) : List GoVal → List GoVal
  | [] => []
  | v :: vs => toOld t v :: toOldList t vs

/-- The fields of a struct value of `src/tiled.go` that have a counterpart, under
the older Go names. -/
def toOldEntries (s : TypeName) : List (String × GoVal) → List (String × GoVal)
  | [] => []
  | (n, v) :: rest =>
    match (decls s).find? (fun f => f.name = n) with
    | some f =>
      match counterpart s f with
      | some g => (g.name, toOld f.type v) :: toOldEntries s rest
      | none => toOldEntries s rest
    | none => toOldEntries s rest

end

/-- Whether a JSON value is a string or `null`. -/
def isStrOrNull : JSON → Bool
  | .str _ => true
  | .null => true
  | _ => false

mutual

/-- Whether, in a document decoded at a target of the given type of `src/tiled.go`,
every member that is decoded into a field without counterpart in the older package
(the `source` of a tileset) is a JSON string or `null`. -/
def sourcesAreStrings : GoType → JSON → Bool
  | .struct s, .obj kvs => sourcesAreStringsIn s kvs
  | .slice t, .arr xs => sourcesAreStringsAll t xs
  | .array _ t, .arr xs => sourcesAreStringsAll t xs
  | _, _ => true

/-- The same, for all elements of an array. -/
def sourcesAreStringsAll (t : GoType) : List JSON → Bool
  | [] => true
  | x :: xs => sourcesAreStrings t x && sourcesAreStringsAll t xs

/-- The same, for all members of an object decoded into the struct `s`. -/
def sourcesAreStringsIn (s : TypeName) : List (String × JSON) → Bool
  | [] => true
  | (k, x) :: rest =>
    (match findField (decls s) k with
      | some f =>
        match counterpart s f with
        | some _ => sourcesAreStrings f.type x
        | none => isStrOrNull x
      | none => true) && sourcesAreStringsIn s rest

end

/-- Whether the zero value of a type, and of the element types inside it, is the
same in both packages up to `toOld`. -/
def zeroAgrees : GoType → Bool
  | .slice t => zeroAgrees t
  | .array n t =>
    zeroAgrees t &&
      GoVal.beq (toOld (.array n t) (zero decls (.array n t))) (zero Subpkg.decls (.array n t))
  | t => GoVal.beq (toOld t (zero decls t)) (zero Subpkg.decls t)

mutual

theorem GoVal.eq_of_beq : ∀ a b : GoVal, GoVal.beq a b = true → a = b
  | .int a, b => by cases b <;> simp [GoVal.beq]
  | .uint8 a, b => by cases b <;> simp [GoVal.beq]
  | .float64 a, b => by cases b <;> simp [GoVal.beq]
  | .bool a, b => by cases b <;> simp [GoVal.beq]
  | .string a, b => by cases b <;> simp [GoVal.beq]
  | .nil, b => by cases b <;> simp [GoVal.beq]
  | .slice a s, b => by
    cases b <;> simp only [GoVal.beq, Bool.and_eq_true, false_implies, Bool.false_eq_true]
    rintro ⟨h1, h2⟩
    rw [GoVal.eq_of_beqList _ _ h1, GoVal.eq_of_beqList _ _ h2]
  | .array a, b => by
    cases b <;> simp only [GoVal.beq, false_implies, Bool.false_eq_true]
    intro h
    rw [GoVal.eq_of_beqList _ _ h]
  | .map a, b => by
    cases b <;> simp only [GoVal.beq, false_implies, Bool.false_eq_true]
    intro h
    rw [GoVal.eq_of_beqEntries _ _ h]
  | .struct a, b => by
    cases b <;> simp only [GoVal.beq, false_implies, Bool.false_eq_true]
    intro h
    rw [GoVal.eq_of_beqEntries _ _ h]

theorem GoVal.eq_of_beqList : ∀ as bs : List GoVal, GoVal.beqList as bs = true → as = bs
  | [], bs => by cases bs <;> simp [GoVal.beqList]
  | a :: as, bs => by
    cases bs with
    | nil => simp [GoVal.beqList]
    | cons b bs =>
      simp only [GoVal.beqList, Bool.and_eq_true]
      rintro ⟨h1, h2⟩
      rw [GoVal.eq_of_beq _ _ h1, GoVal.eq_of_beqList _ _ h2]

theorem GoVal.eq_of_beqEntries : ∀ as bs : List (String × GoVal),
    GoVal.beqEntries as bs = true → as = bs
  | [], bs => by cases bs <;> simp [GoVal.beqEntries]
  | (k, a) :: as, bs => by
    cases bs with
    | nil => simp [GoVal.beqEntries]
    | cons lb bs =>
      obtain ⟨l, b⟩ := lb
      simp only [GoVal.beqEntries, Bool.and_eq_true, decide_eq_true_eq]
      rintro ⟨⟨h0, h1⟩, h2⟩
      rw [h0, GoVal.eq_of_beq _ _ h1, GoVal.eq_of_beqEntries _ _ h2]

end

mutual

theorem GoVal.beq_self : ∀ a : GoVal, GoVal.beq a a = true
  | .int a => by simp [GoVal.beq]
  | .uint8 a => by simp [GoVal.beq]
  | .float64 a => by simp [GoVal.beq]
  | .bool a => by simp [GoVal.beq]
  | .string a => by simp [GoVal.beq]
  | .nil => by simp [GoVal.beq]
  | .slice a s => by simp [GoVal.beq, GoVal.beqList_self a, GoVal.beqList_self s]
  | .array a => by simp [GoVal.beq, GoVal.beqList_self a]
  | .map a => by simp [GoVal.beq, GoVal.beqEntries_self a]
  | .struct a => by simp [GoVal.beq, GoVal.beqEntries_self a]

theorem GoVal.beqList_self : ∀ as : List GoVal, GoVal.beqList as as = true
  | [] => by simp [GoVal.beqList]
  | a :: as => by simp [GoVal.beqList, GoVal.beq_self a, GoVal.beqList_self as]

theorem GoVal.beqEntries_self : ∀ as : List (String × GoVal), GoVal.beqEntries as as = true
  | [] => by simp [GoVal.beqEntries]
  | (k, a) :: as => by simp [GoVal.beqEntries, GoVal.beq_self a, GoVal.beqEntries_self as]

end

instance : DecidableEq GoVal := fun a b =>
  decidable_of_iff (GoVal.beq a b = true)
    ⟨GoVal.eq_of_beq a b, fun h => h ▸ GoVal.beq_self a⟩

/-! ### The saved error -/

theorem firstErr_none_left (b : Option UnmarshalTypeError) : firstErr none b = b := rfl

theorem firstErr_some_left (e : UnmarshalTypeError) (b : Option UnmarshalTypeError) :
    firstErr (some e) b = some e := rfl

theorem firstErr_eq_none {a b : Option UnmarshalTypeError} :
    firstErr a b = none ↔ a = none ∧ b = none := by
  cases a <;> simp [firstErr]

theorem firstErr_isSome_left {a : Option UnmarshalTypeError} (b : Option UnmarshalTypeError)
    (h : a ≠ none) : firstErr a b ≠ none := by
  cases a with
  | none => exact absurd rfl h
  | some e => simp [firstErr]

theorem firstErr_isSome_right (a : Option UnmarshalTypeError) {b : Option UnmarshalTypeError}
    (h : b ≠ none) : firstErr a b ≠ none := by
  cases a with
  | none => simpa [firstErr] using h
  | some e => simp [firstErr]

/-! ### A member that does not fit its field -/

theorem decode_str_into_number (D : TypeName → List Field) (t : GoType) (s : String)
    (cur : GoVal) (ht : t = .int ∨ t = .float64) :
    (decode D t (.str s) cur).2 = some ⟨.string, t⟩ := by
  rcases ht with rfl | rfl <;> simp [decode]

theorem decodeFields_error_of_member (D : TypeName → List Field) (fs : List Field)
    (k : String) (x : JSON) (f : Field) (hf : findField fs k = some f)
    (hx : ∀ cur, (decode D f.type x cur).2 ≠ none) :
    ∀ (kvs : List (String × JSON)) (cur : List (String × GoVal)),
      (k, x) ∈ kvs → (decodeFields D fs kvs cur).2 ≠ none
  | [], _, h => by simp at h
  | (k', x') :: rest, cur, h => by
    rcases List.mem_cons.mp h with heq | hmem
    · cases heq
      simp only [decodeFields, hf]
      exact firstErr_isSome_left _ (hx _)
    · cases hk : findField fs k' with
      | none =>
        simp only [decodeFields, hk]
        exact decodeFields_error_of_member D fs k x f hf hx rest cur hmem
      | some g =>
        simp only [decodeFields, hk]
        exact firstErr_isSome_right _
          (decodeFields_error_of_member D fs k x f hf hx rest _ hmem)

/-! ### The error contract of the loaders -/

theorem Unmarshal_scan_error (env : Env) (D : TypeName → List Field) (data : Bytes)
    (t : GoType) (cur : GoVal) (e : SyntaxError) (h : env.scan data = .error e) :
    Unmarshal env D data t cur = (cur, some (.malformed e)) := by
  simp [Unmarshal, h]

theorem Unmarshal_scan_ok (env : Env) (D : TypeName → List Field) (data : Bytes)
    (t : GoType) (cur : GoVal) (doc : JSON) (h : env.scan data = .ok doc) :
    Unmarshal env D data t cur =
      ((decode D t doc cur).1, (decode D t doc cur).2.map Error.mismatch) := by
  simp [Unmarshal, h]

theorem Unmarshal_string_for_number (env : Env) (D : TypeName → List Field)
    (data : Bytes) (root : TypeName) (cur : GoVal) (kvs : List (String × JSON))
    (k s : String) (f : Field) (hscan : env.scan data = .ok (.obj kvs))
    (hmem : (k, JSON.str s) ∈ kvs) (hf : findField (D root) k = some f)
    (ht : f.type = .int ∨ f.type = .float64) :
    ∃ e, (Unmarshal env D data (.struct root) cur).2 = some (.mismatch e) := by
  have herr : (decodeFields D (D root) kvs (structFields cur)).2 ≠ none :=
    decodeFields_error_of_member D (D root) k (.str s) f hf
      (fun c => by rw [decode_str_into_number D f.type s c ht]; simp) kvs _ hmem
  rw [Unmarshal_scan_ok env D data _ cur _ hscan]
  cases h : (decodeFields D (D root) kvs (structFields cur)).2 with
  | none => exact absurd h herr
  | some e => exact ⟨e, by simp [decode, h]⟩

theorem loaderContract_of_shape (load : Env → String → Option GoVal × Option Error)
    (D : TypeName → List Field) (root : TypeName)
    (hload : ∀ env path, load env path =
      match env.ReadFile path with
      | .error err => (none, some (.read err))
      | .ok jdata =>
        (some (Unmarshal env D jdata (.struct root) (zero D (.struct root))).1,
          (Unmarshal env D jdata (.struct root) (zero D (.struct root))).2)) :
    LoaderContract load D root := by
  intro env path
  refine ⟨?_, ?_, ?_, ?_, ?_, ?_⟩
  · rw [hload]
    cases h : env.ReadFile path with
    | error e => simp
    | ok data => simp
  · intro e h scan
    rw [hload]
    simp [h]
  · intro data h
    rw [hload]
    simp [h]
  · intro data e h hs
    rw [hload]
    simp [h, Unmarshal_scan_error env D data _ _ e hs]
  · intro data kvs k s f h hs hmem hf ht
    rw [hload]
    simpa [h] using Unmarshal_string_for_number env D data root _ kvs k s f hs hmem hf ht
  · rw [hload]
    cases h : env.ReadFile path with
    | error e => simp
    | ok data => simp

/-- C1. Each of the three loaders (`ParseTilemap`, `ParseTileset`, and `Parse` of the
older package) returns an error exactly when the read fails or `json.Unmarshal`
fails; a failed read returns the read error whatever the decoder would do; after a
successful read the returned error is the one of `json.Unmarshal`, in particular
the syntax error for bad syntax and a type mismatch for a string where a number
is declared; and when no error is returned a record is. -/
theorem loaders_error_contract :
    LoaderContract ParseTilemap decls .Map ∧
    LoaderContract ParseTileset decls .Tileset ∧
    LoaderContract Subpkg.Parse Subpkg.decls .Map := by
  refine ⟨?_, ?_, ?_⟩
  · apply loaderContract_of_shape
    intro env path
    rfl
  · apply loaderContract_of_shape
    intro env path
    rfl
  · apply loaderContract_of_shape
    intro env path
    rfl

/-- C2. A failed decode hands back a record together with the error: for a file
whose `width` is a string, `ParseTilemap` returns the type mismatch and a non-nil
`Map` in which the other members are filled in; for a file that is not JSON,
`ParseTilemap` and `ParseTileset` return the syntax error and a non-nil zero
record.  Only a failed read returns the nil record. -/
theorem failed_decode_returns_record :
    ParseTilemap
        (fileEnv (.obj [("width", .str "2"), ("height", .num (.int false 3))])) "map.json"
      = (some ((zero decls (.struct .Map)).withField "Height" (.int 3)),
          some (.mismatch ⟨.string, .int⟩)) ∧
    ParseTilemap garbageEnv "map.json"
      = (some (zero decls (.struct .Map)),
          some (.malformed ⟨"unexpected end of JSON input"⟩)) ∧
    ParseTileset garbageEnv "tiles.json"
      = (some (zero decls (.struct .Tileset)),
          some (.malformed ⟨"unexpected end of JSON input"⟩)) ∧
    ParseTilemap missingEnv "map.json"
      = (none, some (.read ⟨"open: no such file or directory"⟩)) := by
  refine ⟨?_, ?_, ?_, ?_⟩ <;> rfl

/-! ### Unfolding the decoder -/

theorem decode_struct_obj (D : TypeName → List Field) (s : TypeName)
    (kvs : List (String × JSON)) (cur : GoVal) :
    decode D (.struct s) (.obj kvs) cur =
      (.struct (decodeFields D (D s) kvs (structFields cur)).1,
        (decodeFields D (D s) kvs (structFields cur)).2) := by
  simp [decode]

theorem decode_slice_arr (D : TypeName → List Field) (t : GoType) (xs : List JSON)
    (cur : GoVal) (hxs : xs ≠ []) :
    decode D (.slice t) (.arr xs) cur =
      (.slice (decodeElems D t xs (backing cur)).1 ((backing cur).drop xs.length),
        (decodeElems D t xs (backing cur)).2) := by
  cases xs with
  | nil => exact absurd rfl hxs
  | cons x xs => simp [decode]

theorem decodeFields_nil (D : TypeName → List Field) (fs : List Field)
    (cur : List (String × GoVal)) : decodeFields D fs [] cur = (cur, none) := by
  simp [decodeFields]

theorem decodeFields_cons_none (D : TypeName → List Field) (fs : List Field) (k : String)
    (x : JSON) (rest : List (String × JSON)) (cur : List (String × GoVal))
    (h : findField fs k = none) :
    decodeFields D fs ((k, x) :: rest) cur = decodeFields D fs rest cur := by
  simp [decodeFields, h]

theorem decodeFields_cons_some (D : TypeName → List Field) (fs : List Field) (k : String)
    (x : JSON) (rest : List (String × JSON)) (cur : List (String × GoVal)) (f : Field)
    (h : findField fs k = some f) :
    decodeFields D fs ((k, x) :: rest) cur =
      ((decodeFields D fs rest (setField cur f.name
          (decode D f.type x ((getField cur f.name).getD (zero D f.type))).1)).1,
        firstErr (decode D f.type x ((getField cur f.name).getD (zero D f.type))).2
          (decodeFields D fs rest (setField cur f.name
            (decode D f.type x ((getField cur f.name).getD (zero D f.type))).1)).2) := by
  simp [decodeFields, h]

theorem decodeFields_append (D : TypeName → List Field) (fs : List Field) :
    ∀ (pre post : List (String × JSON)) (cur : List (String × GoVal)),
      decodeFields D fs (pre ++ post) cur =
        ((decodeFields D fs post (decodeFields D fs pre cur).1).1,
          firstErr (decodeFields D fs pre cur).2
            (decodeFields D fs post (decodeFields D fs pre cur).1).2)
  | [], post, cur => by simp [decodeFields_nil, firstErr]
  | (k, x) :: pre, post, cur => by
    cases h : findField fs k with
    | none =>
      simp only [List.cons_append, decodeFields_cons_none D fs k x _ cur h]
      exact decodeFields_append D fs pre post cur
    | some f =>
      simp only [List.cons_append, decodeFields_cons_some D fs k x _ cur f h]
      rw [decodeFields_append D fs pre post]
      cases (decode D f.type x ((getField cur f.name).getD (zero D f.type))).2 <;>
        simp [firstErr]

theorem decodeElems_cons (D : TypeName → List Field) (t : GoType) (x : JSON)
    (xs : List JSON) (b : List GoVal) :
    decodeElems D t (x :: xs) b =
      ((decode D t x (b.headD (zero D t))).1 :: (decodeElems D t xs b.tail).1,
        firstErr (decode D t x (b.headD (zero D t))).2 (decodeElems D t xs b.tail).2) := by
  simp [decodeElems]

theorem decodeElems_append (D : TypeName → List Field) (t : GoType) :
    ∀ (pre post : List JSON) (b : List GoVal),
      decodeElems D t (pre ++ post) b =
        ((decodeElems D t pre b).1 ++ (decodeElems D t post (b.drop pre.length)).1,
          firstErr (decodeElems D t pre b).2
            (decodeElems D t post (b.drop pre.length)).2)
  | [], post, b => by simp [decodeElems, firstErr]
  | x :: pre, post, b => by
    rw [List.cons_append, decodeElems_cons, decodeElems_cons, List.length_cons,
      decodeElems_append D t pre post]
    have hd : List.drop pre.length b.tail = List.drop (pre.length + 1) b := by
      cases b <;> simp
    rw [hd]
    cases (decode D t x (b.headD (zero D t))).2 <;> simp [firstErr]

/-! ### Unknown keys -/

theorem getField_setField_same (fs : List (String × GoVal)) (name : String) (w : GoVal) :
    getField (setField fs name w) name = some w := by
  induction fs with
  | nil => simp [setField, getField]
  | cons nv rest ih =>
    obtain ⟨n, v⟩ := nv
    by_cases h : n = name
    · simp [setField, getField, h]
    · simp [setField, getField, h, ih]

theorem getField_setField_ne (fs : List (String × GoVal)) (name name' : String) (w : GoVal)
    (hne : name ≠ name') :
    getField (setField fs name w) name' = getField fs name' := by
  induction fs with
  | nil => simp [setField, getField, hne]
  | cons nv rest ih =>
    obtain ⟨n, v⟩ := nv
    by_cases h : n = name
    · subst h
      simp [setField, getField, hne]
    · by_cases h' : n = name'
      · subst h'
        simp [setField, getField, h]
      · simp [setField, getField, h, h', ih]

theorem setField_of_getField (fs : List (String × GoVal)) (name : String) (v : GoVal)
    (h : getField fs name = some v) : setField fs name v = fs := by
  induction fs with
  | nil => simp [getField] at h
  | cons nv rest ih =>
    obtain ⟨n, w⟩ := nv
    by_cases hn : n = name
    · simp [getField, hn] at h
      simp [setField, hn, h]
    · simp [getField, hn] at h
      simp [setField, hn, ih h]

/-- Members that are not decoded into a field leave it as it was. -/
theorem getField_decodeFields_of_not_decodesInto (D : TypeName → List Field)
    (fs : List Field) (name : String) :
    ∀ (kvs : List (String × JSON)) (cur : List (String × GoVal)),
      (∀ kx ∈ kvs, decodesInto fs kx.1 name = false) →
      getField (decodeFields D fs kvs cur).1 name = getField cur name
  | [], cur, _ => by simp [decodeFields_nil]
  | (k, x) :: rest, cur, h => by
    have hk : decodesInto fs k name = false := h (k, x) (List.mem_cons_self _ _)
    have hrest : ∀ kx ∈ rest, decodesInto fs kx.1 name = false :=
      fun kx hkx => h kx (List.mem_cons_of_mem _ hkx)
    cases hf : findField fs k with
    | none =>
      rw [decodeFields_cons_none D fs k x rest cur hf]
      exact getField_decodeFields_of_not_decodesInto D fs name rest cur hrest
    | some g =>
      rw [decodeFields_cons_some D fs k x rest cur g hf]
      have hne : g.name ≠ name := by
        simpa [decodesInto, hf] using hk
      simp only
      rw [getField_decodeFields_of_not_decodesInto D fs name rest _ hrest,
        getField_setField_ne _ _ _ _ hne]

/-- The last member that is decoded into a field determines the field. -/
theorem getField_decodeFields_last (D : TypeName → List Field) (fs : List Field)
    (pre post : List (String × JSON)) (k : String) (x : JSON) (f : Field)
    (cur : List (String × GoVal)) (hf : findField fs k = some f)
    (hpost : ∀ kx ∈ post, decodesInto fs kx.1 f.name = false) :
    getField (decodeFields D fs (pre ++ (k, x) :: post) cur).1 f.name =
      some (decode D f.type x
        ((getField (decodeFields D fs pre cur).1 f.name).getD (zero D f.type))).1 := by
  rw [decodeFields_append, decodeFields_cons_some D fs k x post _ f hf]
  simp only
  rw [getField_decodeFields_of_not_decodesInto D fs f.name post _ hpost,
    getField_setField_same]

theorem decodeElems_length (D : TypeName → List Field) (t : GoType) :
    ∀ (xs : List JSON) (b : List GoVal), (decodeElems D t xs b).1.length = xs.length
  | [], b => by simp [decodeElems]
  | x :: xs, b => by
    rw [decodeElems_cons]
    simp [decodeElems_length D t xs]

/-- The component a located sub-document is decoded into holds the outcome of
decoding that sub-document. -/
theorem select_decode_of_located (D : TypeName → List Field) {t t' : GoType}
    {doc doc' : JSON} {p : List Step} (h : Located D t doc p t' doc') :
    ∀ cur : GoVal, ∃ cur' : GoVal,
      (decode D t doc cur).1.select p = some (decode D t' doc' cur').1 := by
  induction h with
  | root t doc => exact fun cur => ⟨cur, rfl⟩
  | member s pre post k f x p t' x' hf hpost _ ih =>
    intro cur
    obtain ⟨cur', hcur'⟩ := ih
      ((getField (decodeFields D (D s) pre (structFields cur)).1 f.name).getD (zero D f.type))
    refine ⟨cur', ?_⟩
    rw [decode_struct_obj]
    simp only [GoVal.select, GoVal.step]
    rw [getField_decodeFields_last D (D s) pre post k x f _ hf hpost]
    simpa using hcur'
  | elem t pre post x p t' x' _ ih =>
    intro cur
    obtain ⟨cur', hcur'⟩ := ih (((backing cur).drop pre.length).headD (zero D t))
    refine ⟨cur', ?_⟩
    rw [decode_slice_arr D t (pre ++ x :: post) cur (by simp), decodeElems_append,
      decodeElems_cons]
    simp only [GoVal.select, GoVal.step]
    rw [List.get?_eq_getElem?, List.getElem?_append_right (by simp [decodeElems_length])]
    simpa [decodeElems_length] using hcur'

theorem findField_mem {fs : List Field} {k : String} {f : Field}
    (h : findField fs k = some f) : f ∈ fs := by
  unfold findField at h
  cases h1 : fs.find? (fun f => f.tag = k) with
  | some g =>
    rw [h1] at h
    cases h
    exact List.mem_of_find?_eq_some h1
  | none =>
    rw [h1] at h
    exact List.mem_of_find?_eq_some h

theorem located_trans (D : TypeName → List Field) {t t' t'' : GoType}
    {doc doc' doc'' : JSON} {p q : List Step} (h : Located D t doc p t' doc')
    (h' : Located D t' doc' q t'' doc'') : Located D t doc (p ++ q) t'' doc'' := by
  induction h with
  | root t doc => exact h'
  | member s pre post k f x p t' x' hf hpost _ ih =>
    exact Located.member s pre post k f x (p ++ q) _ _ hf hpost (ih h')
  | elem t pre post x p t' x' _ ih =>
    exact Located.elem t pre post x (p ++ q) _ _ (ih h')

/-- The member of a located object that is decoded last into a field is located at
that field. -/
theorem located_member (D : TypeName → List Field) {t : GoType} {doc : JSON}
    {p : List Step} {s : TypeName} {pre post : List (String × JSON)} {k : String}
    {x : JSON} {name : String}
    (h : Located D t doc p (.struct s) (.obj (pre ++ (k, x) :: post)))
    (hk : decodesInto (D s) k name = true)
    (hpost : ∀ kx ∈ post, decodesInto (D s) kx.1 name = false) :
    ∃ f, f ∈ D s ∧ f.name = name ∧ Located D t doc (p ++ [.field name]) f.type x := by
  cases hf : findField (D s) k with
  | none => simp [decodesInto, hf] at hk
  | some f =>
    have hname : f.name = name := by simpa [decodesInto, hf] using hk
    subst hname
    exact ⟨f, findField_mem hf, rfl,
      located_trans D h (Located.member s pre post k f x [] _ _ hf hpost (Located.root _ _))⟩

theorem recordAt_ParseTilemap (env : Env) (path : String) (data : Bytes) (doc : JSON)
    (p : List Step) (hr : env.ReadFile path = .ok data) (hs : env.scan data = .ok doc) :
    recordAt (ParseTilemap env path) p =
      (decode decls (.struct .Map) doc (zero decls (.struct .Map))).1.select p := by
  simp [recordAt, ParseTilemap, hr, Unmarshal, hs]

theorem data_field_type (owner : TypeName) (howner : owner = .Layer ∨ owner = .Chunk) :
    ∀ f ∈ decls owner, f.name = "Data" → f.type = .iface := by
  rcases howner with rfl | rfl <;> decide

/-- C4. In every layer or chunk of a map file, at any depth, whose `data` member is a
JSON string `s`, `ParseTilemap` stores `Data` as the string `s` itself, whatever
the other members of the layer or chunk are (`encoding`, `compression`, ...): no
base64 decoding and no decompression takes place. -/
theorem data_string_stored_verbatim (env : Env) (path : String) (data : Bytes)
    (doc : JSON) (p : List Step) (owner : TypeName) (pre post : List (String × JSON))
    (k s : String)
    (hr : env.ReadFile path = .ok data) (hs : env.scan data = .ok doc)
    (howner : owner = .Layer ∨ owner = .Chunk)
    (hloc : Located decls (.struct .Map) doc p (.struct owner)
      (.obj (pre ++ (k, .str s) :: post)))
    (hk : decodesInto (decls owner) k "Data" = true)
    (hpost : ∀ kx ∈ post, decodesInto (decls owner) kx.1 "Data" = false) :
    recordAt (ParseTilemap env path) (p ++ [.field "Data"]) = some (.string s) := by
  obtain ⟨f, hmem, hname, hloc'⟩ := located_member decls hloc hk hpost
  have hty : f.type = .iface := data_field_type owner howner f hmem hname
  rw [hty] at hloc'
  obtain ⟨cur', hcur'⟩ := select_decode_of_located decls hloc' (zero decls (.struct .Map))
  rw [recordAt_ParseTilemap env path data doc _ hr hs, hcur']
  simp [decode]

/-- C4 at a base64, zlib-compressed tile layer. -/
theorem data_string_stored_verbatim_witness :
    recordAt
        (ParseTilemap
          (fileEnv (.obj [("layers", .arr [.obj [("type", .str "tilelayer"),
            ("encoding", .str "base64"), ("data", .str "eJxjYGBgAAAABAAB"),
            ("compression", .str "zlib")]])]))
          "map.json")
        [.field "Layers", .index 0, .field "Data"]
      = some (.string "eJxjYGBgAAAABAAB") :=
  data_string_stored_verbatim _ "map.json" [] _ [.field "Layers", .index 0] .Layer
    [("type", .str "tilelayer"), ("encoding", .str "base64")]
    [("compression", .str "zlib")] "data" "eJxjYGBgAAAABAAB" rfl rfl (Or.inl rfl)
    (Located.member .Map [] [] "layers" (fld "Layers" (.slice (.struct .Layer)) "layers")
      _ [.index 0] _ _ rfl (by simp)
      (Located.elem (.struct .Layer) [] [] _ [] _ _ (Located.root _ _)))
    (by decide) (by decide)

/-! ### Number parsing -/

theorem bitLenAux_spec : ∀ (fuel n : Nat), n ≤ fuel →
    n < 2 ^ bitLenAux fuel n ∧ (n ≠ 0 → 2 ^ (bitLenAux fuel n - 1) ≤ n)
  | 0, n, h => by
    have : n = 0 := by omega
    subst this
    simp [bitLenAux]
  | fuel + 1, n, h => by
    by_cases hn : n = 0
    · subst hn
      simp [bitLenAux]
    · have hhalf : n / 2 ≤ fuel := by omega
      obtain ⟨hlt, hge⟩ := bitLenAux_spec fuel (n / 2) hhalf
      simp only [bitLenAux, hn, if_false, Nat.add_sub_cancel]
      refine ⟨?_, fun _ => ?_⟩
      · rw [pow_succ]
        omega
      · by_cases h2 : n / 2 = 0
        · have h1 : n = 1 := by omega
          subst h1
          cases fuel <;> simp [bitLenAux]
        · have hge' := hge h2
          have hpos : bitLenAux fuel (n / 2) ≠ 0 := by
            cases fuel with
            | zero => omega
            | succ f => simp [bitLenAux, h2]
          obtain ⟨b, hb⟩ := Nat.exists_eq_succ_of_ne_zero hpos
          rw [hb] at hge' ⊢
          simp only [Nat.succ_sub_one] at hge'
          rw [Nat.succ_eq_add_one, pow_succ]
          omega

theorem lt_two_pow_bitLen (n : Nat) : n < 2 ^ bitLen n :=
  (bitLenAux_spec n n (Nat.le_refl n)).1

theorem two_pow_bitLen_le (n : Nat) (hn : n ≠ 0) : 2 ^ (bitLen n - 1) ≤ n :=
  (bitLenAux_spec n n (Nat.le_refl n)).2 hn

theorem bitLen_pos (n : Nat) (hn : n ≠ 0) : 0 < bitLen n := by
  rcases Nat.eq_zero_or_pos (bitLen n) with h | h
  · have := lt_two_pow_bitLen n
    rw [h] at this
    omega
  · exact h

theorem normAux_two_pow_mul (m : Nat) (hm : m % 2 = 1) :
    ∀ (j fuel : Nat) (e : Int), j < fuel → normAux fuel (m * 2 ^ j) e = (m, e + j)
  | 0, fuel + 1, e, _ => by
    simp [normAux, hm]
  | j + 1, fuel + 1, e, h => by
    have h1 : m * 2 ^ (j + 1) % 2 = 0 := by
      rw [pow_succ, ← Nat.mul_assoc]
      exact Nat.mul_mod_left _ _
    have h2 : m * 2 ^ (j + 1) / 2 = m * 2 ^ j := by
      rw [pow_succ, ← Nat.mul_assoc]
      exact Nat.mul_div_cancel _ (by decide)
    simp only [normAux, h1, if_true, h2]
    rw [normAux_two_pow_mul m hm j fuel (e + 1) (by omega)]
    simp only [Nat.cast_add, Nat.cast_one, Prod.mk.injEq, true_and]
    omega

theorem normalize_two_pow_mul (m j : Nat) (e : Int) (hm : m % 2 = 1) :
    normalize (m * 2 ^ j) e = (m, e + j) := by
  have hpos : 0 < m := by omega
  have hj : j < 2 ^ j := Nat.lt_two_pow j
  have hne : m * 2 ^ j ≠ 0 := by positivity
  have hfuel : j < m * 2 ^ j := by
    calc j < 2 ^ j := hj
      _ = 1 * 2 ^ j := by ring
      _ ≤ m * 2 ^ j := Nat.mul_le_mul_right _ hpos
  simp only [normalize, hne, if_false]
  exact normAux_two_pow_mul m hm j _ e hfuel

theorem roundHalfEven_mul (k d : Nat) (hd : 0 < d) : roundHalfEven (k * d) d = k := by
  simp [roundHalfEven, Nat.mul_div_cancel _ hd, Nat.mul_mod_left, hd]

theorem two_zpow_eq_div (l : Int) :
    (2 : ℚ) ^ l = (2 : ℚ) ^ l.toNat / (2 : ℚ) ^ (-l).toNat := by
  rcases le_or_lt 0 l with h | h
  · have h1 : (-l).toNat = 0 := by omega
    have h2 : (l.toNat : Int) = l := Int.toNat_of_nonneg h
    rw [h1, pow_zero, div_one, ← zpow_natCast, h2]
  · have h1 : l.toNat = 0 := by omega
    have h2 : ((-l).toNat : Int) = -l := Int.toNat_of_nonneg (by omega)
    rw [h1, pow_zero, ← zpow_natCast, h2, zpow_neg, one_div, inv_inv]

/-- The exponent `ilog2` finds is a lower bound: `2 ^ ilog2 num den ≤ num / den`. -/
theorem two_zpow_ilog2_le (num den : Nat) (hnum : num ≠ 0) (hden : den ≠ 0) :
    (2 : ℚ) ^ ilog2 num den ≤ (num : ℚ) / den := by
  have hdq : (0 : ℚ) < den := by exact_mod_cast Nat.pos_of_ne_zero hden
  unfold ilog2
  simp only
  split
  · next hcheck =>
    rw [two_zpow_eq_div, div_le_div_iff₀ (by positivity) hdq]
    have hc : ((den * 2 ^ ((bitLen num : Int) - bitLen den).toNat : Nat) : ℚ) ≤
        ((num * 2 ^ (-((bitLen num : Int) - bitLen den)).toNat : Nat) : ℚ) := by
      exact_mod_cast hcheck
    push_cast at hc
    linarith
  · have h1 : (2 : ℚ) ^ ((bitLen num : Int) - 1) ≤ num := by
      have hb := two_pow_bitLen_le num hnum
      have hpos := bitLen_pos num hnum
      have hcast : ((bitLen num - 1 : Nat) : Int) = (bitLen num : Int) - 1 := by omega
      rw [← hcast, zpow_natCast]
      exact_mod_cast hb
    have h2 : (den : ℚ) ≤ (2 : ℚ) ^ (bitLen den : Int) := by
      rw [zpow_natCast]
      exact_mod_cast (lt_two_pow_bitLen den).le
    have h3 : (2 : ℚ) ^ ((bitLen num : Int) - bitLen den - 1) =
        (2 : ℚ) ^ ((bitLen num : Int) - 1) / (2 : ℚ) ^ (bitLen den : Int) := by
      rw [← zpow_sub₀ (by norm_num)]
      congr 1
      ring
    rw [h3, div_le_div_iff₀ (by positivity) hdq]
    calc (2 : ℚ) ^ ((bitLen num : Int) - 1) * den
        ≤ num * den := by gcongr
      _ ≤ num * (2 : ℚ) ^ (bitLen den : Int) := by gcongr

/-- A rational that is a `float64` is rounded to itself. -/
theorem roundRatio_exact (num den M : Nat) (E : Int) (hnum : num ≠ 0) (hden : den ≠ 0)
    (hodd : M % 2 = 1) (hM : M < 2 ^ 53) (hE : -1074 ≤ E) (hov : E + bitLen M ≤ 1024)
    (hval : (num : ℚ) / den = M * (2 : ℚ) ^ E) :
    roundRatio num den = some (M, E) := by
  have hdq : (0 : ℚ) < den := by exact_mod_cast Nat.pos_of_ne_zero hden
  have h2 : (1 : ℚ) < 2 := by norm_num
  have hL := two_zpow_ilog2_le num den hnum hden
  rw [hval] at hL
  have hMq : (M : ℚ) < (2 : ℚ) ^ (53 : Int) := by
    have h53 : (2 : ℚ) ^ (53 : Int) = (2 : ℚ) ^ (53 : Nat) := by norm_cast
    rw [h53]
    exact_mod_cast hM
  have hMb : (M : ℚ) < (2 : ℚ) ^ (bitLen M : Int) := by
    rw [zpow_natCast]
    exact_mod_cast lt_two_pow_bitLen M
  have hEpos : (0 : ℚ) < (2 : ℚ) ^ E := by positivity
  -- the exponent found is at most `E`
  have hL1 : ilog2 num den < 53 + E := by
    have : (2 : ℚ) ^ ilog2 num den < (2 : ℚ) ^ (53 + E) := by
      rw [zpow_add₀ (by norm_num)]
      calc (2 : ℚ) ^ ilog2 num den ≤ M * (2 : ℚ) ^ E := hL
        _ < (2 : ℚ) ^ (53 : Int) * (2 : ℚ) ^ E := by gcongr
    exact (zpow_lt_zpow_iff_right₀ h2).mp this
  have hL2 : ilog2 num den < 1024 := by
    have : (2 : ℚ) ^ ilog2 num den < (2 : ℚ) ^ ((bitLen M : Int) + E) := by
      rw [zpow_add₀ (by norm_num)]
      calc (2 : ℚ) ^ ilog2 num den ≤ M * (2 : ℚ) ^ E := hL
        _ < (2 : ℚ) ^ (bitLen M : Int) * (2 : ℚ) ^ E := by gcongr
    have := (zpow_lt_zpow_iff_right₀ h2).mp this
    omega
  obtain ⟨e, he⟩ : ∃ e : Int, e = max (ilog2 num den - 52) (-1074) := ⟨_, rfl⟩
  have heE : e ≤ E := by
    rw [he]
    exact max_le (by omega) hE
  have he971 : e ≤ 971 := by
    rw [he]
    exact max_le (by omega) (by norm_num)
  obtain ⟨j, hj⟩ : ∃ j : Nat, E = e + j := ⟨(E - e).toNat, by omega⟩
  -- the scaled quotient is the integer `M * 2 ^ j`
  have hnd : num * 2 ^ (-e).toNat = M * 2 ^ j * (den * 2 ^ e.toNat) := by
    have hq : (num : ℚ) = M * (2 : ℚ) ^ E * den := by
      field_simp at hval
      linarith
    have he2 := two_zpow_eq_div e
    have hpos1 : (0 : ℚ) < (2 : ℚ) ^ (-e).toNat := by positivity
    have hsplit : (2 : ℚ) ^ E = (2 : ℚ) ^ e * (2 : ℚ) ^ j := by
      rw [hj, zpow_add₀ (by norm_num), zpow_natCast]
    have : ((num * 2 ^ (-e).toNat : Nat) : ℚ) = ((M * 2 ^ j * (den * 2 ^ e.toNat) : Nat) : ℚ) := by
      push_cast
      rw [hq, hsplit, he2]
      field_simp
      ring
    exact_mod_cast this
  have hdpos : 0 < den * 2 ^ e.toNat := by positivity
  have hne : ¬ (971 < e ∨ (e = 971 ∧ 2 ^ 53 ≤ M * 2 ^ j)) := by
    rintro (h | ⟨h, hge⟩)
    · omega
    · have hlt : (M : ℚ) * (2 : ℚ) ^ E < (2 : ℚ) ^ (1024 : Int) := by
        calc (M : ℚ) * (2 : ℚ) ^ E < (2 : ℚ) ^ (bitLen M : Int) * (2 : ℚ) ^ E := by gcongr
          _ = (2 : ℚ) ^ ((bitLen M : Int) + E) := by rw [zpow_add₀ (by norm_num)]
          _ ≤ (2 : ℚ) ^ (1024 : Int) := zpow_le_zpow_right₀ h2.le (by omega)
      have hge' : ((2 ^ 53 : Nat) : ℚ) ≤ ((M * 2 ^ j : Nat) : ℚ) := by exact_mod_cast hge
      push_cast at hge'
      have hsplit : (2 : ℚ) ^ E = (2 : ℚ) ^ (971 : Int) * (2 : ℚ) ^ j := by
        rw [hj, h, zpow_add₀ (by norm_num), zpow_natCast]
      rw [hsplit] at hlt
      have h1024 : (2 : ℚ) ^ (1024 : Int) = (2 : ℚ) ^ (971 : Int) * (2 : ℚ) ^ 53 := by
        rw [show (1024 : Int) = 971 + ((53 : Nat) : Int) by norm_num,
          zpow_add₀ (by norm_num), zpow_natCast]
      rw [h1024] at hlt
      have hp : (0 : ℚ) < (2 : ℚ) ^ (971 : Int) := by positivity
      generalize (2 : ℚ) ^ (971 : Int) = A at hlt hp
      have hmul := mul_le_mul_of_nonneg_left hge' hp.le
      linarith
  unfold roundRatio
  simp only [hnum, if_false, ← he]
  rw [hnd, roundHalfEven_mul _ _ hdpos, if_neg hne, normalize_two_pow_mul M j e hodd, hj]

theorem parseFloat_nat (n : Nat) (hn : n ≤ 2 ^ 53) :
    parseFloat (.int false n) = some (Float64.ofNat n) := by
  by_cases h0 : n = 0
  · subst h0
    rfl
  · obtain ⟨j, m, hm, rfl⟩ := Nat.exists_eq_two_pow_mul_odd h0
    have hodd : m % 2 = 1 := Nat.odd_iff.mp hm
    have hcomm : 2 ^ j * m = m * 2 ^ j := Nat.mul_comm _ _
    rw [hcomm] at hn h0 ⊢
    have hmlt : m < 2 ^ 53 := by
      rcases Nat.eq_zero_or_pos j with hj | hj
      · subst hj
        rcases Nat.lt_or_eq_of_le hn with h | h
        · simpa using h
        · rw [pow_zero, Nat.mul_one] at h
          rw [h] at hodd
          norm_num at hodd
      · have : m * 2 ≤ m * 2 ^ j := Nat.mul_le_mul_left _ (by
          calc 2 = 2 ^ 1 := by norm_num
            _ ≤ 2 ^ j := Nat.pow_le_pow_right (by norm_num) hj)
        omega
    have hb : bitLen m ≤ 53 := by
      by_contra hcon
      have h1 := two_pow_bitLen_le m (by omega)
      have h2 : 2 ^ 53 ≤ 2 ^ (bitLen m - 1) := Nat.pow_le_pow_right (by norm_num) (by omega)
      omega
    have hjb : (j : Int) + bitLen m ≤ 1024 := by
      by_contra hcon
      have h1 := two_pow_bitLen_le m (by omega)
      have h2 : 2 ^ (bitLen m - 1) * 2 ^ j ≤ m * 2 ^ j := Nat.mul_le_mul_right _ h1
      rw [← pow_add] at h2
      have h3 : 2 ^ 54 ≤ 2 ^ (bitLen m - 1 + j) := Nat.pow_le_pow_right (by norm_num) (by omega)
      have h4 : (2 : Nat) ^ 53 < 2 ^ 54 := by norm_num
      omega
    have hr : roundRatio (m * 2 ^ j) 1 = some (m, (j : Int)) :=
      roundRatio_exact (m * 2 ^ j) 1 m j h0 (by norm_num) hodd hmlt (by omega) hjb (by
        push_cast
        rw [zpow_natCast]
        simp)
    simp only [parseFloat, hr, Option.map_some', Float64.ofNat,
      normalize_two_pow_mul m j 0 hodd]
    simp

theorem Float64.toInt?_ofNat (n : Nat) : (Float64.ofNat n).toInt? = some (n : Int) := by
  by_cases h0 : n = 0
  · subst h0
    rfl
  · obtain ⟨j, m, hm, rfl⟩ := Nat.exists_eq_two_pow_mul_odd h0
    have hodd : m % 2 = 1 := Nat.odd_iff.mp hm
    rw [Nat.mul_comm]
    simp only [Float64.ofNat, Float64.toInt?, normalize_two_pow_mul m j 0 hodd]
    simp

theorem toIfaceList_gids : ∀ gs : List Nat, (∀ g ∈ gs, g ≤ 2 ^ 53) →
    toIfaceList (gs.map fun g => JSON.num (.int false g)) =
      (gs.map fun g => GoVal.float64 (Float64.ofNat g), none)
  | [], _ => by simp [toIfaceList]
  | g :: gs, h => by
    have hg : g ≤ 2 ^ 53 := h g (List.mem_cons_self _ _)
    have ih := toIfaceList_gids gs fun x hx => h x (List.mem_cons_of_mem _ hx)
    simp only [List.map_cons, toIfaceList, toIface, parseFloat_nat g hg, ih, firstErr]

theorem toInts?_floats : ∀ gs : List Nat,
    (GoVal.slice (gs.map fun g => GoVal.float64 (Float64.ofNat g)) []).toInts? =
      some (gs.map fun g => (g : Int))
  | [] => by simp [GoVal.toInts?, intsOfFloats?]
  | g :: gs => by
    have ih := toInts?_floats gs
    simp only [GoVal.toInts?] at ih
    simp [GoVal.toInts?, intsOfFloats?, ih, Float64.toInt?_ofNat]

/-- C5. In every layer or chunk of a map file, at any depth, whose `data` member is a
literal array of unsigned integers `gs` of at most 53 bits (which covers the 32-bit
global tile ids, flip and rotation bits included), `ParseTilemap` stores `Data` as
a sequence of the same length whose `i`-th element is the number `gs[i]` exactly
(held as a `float64`, the type `encoding/json` gives every number it stores in an
`interface{}`). -/
theorem data_array_stored_exactly (env : Env) (path : String) (data : Bytes)
    (doc : JSON) (p : List Step) (owner : TypeName) (pre post : List (String × JSON))
    (k : String) (gs : List Nat)
    (hr : env.ReadFile path = .ok data) (hs : env.scan data = .ok doc)
    (howner : owner = .Layer ∨ owner = .Chunk)
    (hloc : Located decls (.struct .Map) doc p (.struct owner)
      (.obj (pre ++ (k, gidArray gs) :: post)))
    (hk : decodesInto (decls owner) k "Data" = true)
    (hpost : ∀ kx ∈ post, decodesInto (decls owner) kx.1 "Data" = false)
    (hgs : ∀ g ∈ gs, g ≤ 2 ^ 53) :
    recordAt (ParseTilemap env path) (p ++ [.field "Data"]) =
        some (.slice (gs.map fun g => .float64 (Float64.ofNat g)) []) ∧
      (recordAt (ParseTilemap env path) (p ++ [.field "Data"])).bind GoVal.toInts? =
        some (gs.map fun g => (g : Int)) := by
  obtain ⟨f, hmem, hname, hloc'⟩ := located_member decls hloc hk hpost
  have hty : f.type = .iface := data_field_type owner howner f hmem hname
  rw [hty] at hloc'
  obtain ⟨cur', hcur'⟩ := select_decode_of_located decls hloc' (zero decls (.struct .Map))
  have hval : recordAt (ParseTilemap env path) (p ++ [.field "Data"]) =
      some (.slice (gs.map fun g => .float64 (Float64.ofNat g)) []) := by
    rw [recordAt_ParseTilemap env path data doc _ hr hs, hcur']
    simp [decode, gidArray, toIfaceList_gids gs hgs]
  refine ⟨hval, ?_⟩
  rw [hval]
  exact toInts?_floats gs

/-- C5 at the tile layer of the spec's minimal map, with one more id that has the
horizontal-flip bit set. -/
theorem data_array_stored_exactly_witness :
    recordAt
        (ParseTilemap
          (fileEnv (.obj [("width", .num (.int false 2)), ("layers", .arr [.obj
            [("type", .str "tilelayer"), ("data", gidArray [1, 2, 3, 4, 2147483653]),
             ("width", .num (.int false 2))]])]))
          "map.json")
        [.field "Layers", .index 0, .field "Data"]
      = some (.slice ([1, 2, 3, 4, 2147483653].map fun g => .float64 (Float64.ofNat g)) []) ∧
    (recordAt
        (ParseTilemap
          (fileEnv (.obj [("width", .num (.int false 2)), ("layers", .arr [.obj
            [("type", .str "tilelayer"), ("data", gidArray [1, 2, 3, 4, 2147483653]),
             ("width", .num (.int false 2))]])]))
          "map.json")
        [.field "Layers", .index 0, .field "Data"]).bind GoVal.toInts?
      = some [1, 2, 3, 4, 2147483653] :=
  data_array_stored_exactly _ "map.json" [] _ [.field "Layers", .index 0] .Layer
    [("type", .str "tilelayer")] [("width", .num (.int false 2))] "data"
    [1, 2, 3, 4, 2147483653] rfl rfl (Or.inl rfl)
    (Located.member .Map [("width", .num (.int false 2))] [] "layers"
      (fld "Layers" (.slice (.struct .Layer)) "layers") _ [.index 0] _ _ rfl (by simp)
      (Located.elem (.struct .Layer) [] [] _ [] _ _ (Located.root _ _)))
    (by decide) (by decide) (by decide)

/-! ### Absent members and explicit zeros -/

theorem zero_field : ∀ s : TypeName, ∀ f ∈ decls s,
    getField (structFields (zero decls (.struct s))) f.name = some (zero decls f.type) := by
  intro s
  cases s <;> decide

theorem findField_tag : ∀ s : TypeName, ∀ f ∈ decls s, findField (decls s) f.tag = some f := by
  intro s
  cases s <;> decide

theorem decode_scalarZero (D : TypeName → List Field) (t : GoType) (z : JSON)
    (hz : scalarZero t = some z) : decode D t z (zero D t) = (zero D t, none) := by
  cases t <;> simp [scalarZero] at hz <;> subst hz <;> rfl

/-- C6, as stated, fails for the dynamically typed fields and for sequences: a
property without `value` loads with `Value = nil`, with `"value": 0` it loads with
`Value = float64(0)`; a layer without `data` loads with `Data = nil`, with
`"data": ""` it loads with the empty string; a map without `layers` loads with the
nil slice, with `"layers": []` it loads with an empty non-nil slice.  In each case
the two records differ. -/
theorem absent_versus_zero_counterexample :
    recordAt (ParseTilemap (fileEnv (.obj [("properties", .arr [.obj
        [("name", .str "a")]])])) "map.json")
        [.field "Properties", .index 0, .field "Value"] = some .nil ∧
    recordAt (ParseTilemap (fileEnv (.obj [("properties", .arr [.obj
        [("name", .str "a"), ("value", .num (.int false 0))]])])) "map.json")
        [.field "Properties", .index 0, .field "Value"] = some (.float64 ⟨false, 0, 0⟩) ∧
    ParseTilemap (fileEnv (.obj [("properties", .arr [.obj
        [("name", .str "a"), ("value", .num (.int false 0))]])])) "map.json"
      ≠ ParseTilemap (fileEnv (.obj [("properties", .arr [.obj
        [("name", .str "a")]])])) "map.json" ∧
    recordAt (ParseTilemap (fileEnv (.obj [("layers", .arr [.obj
        [("id", .num (.int false 1))]])])) "map.json")
        [.field "Layers", .index 0, .field "Data"] = some .nil ∧
    recordAt (ParseTilemap (fileEnv (.obj [("layers", .arr [.obj
        [("id", .num (.int false 1)), ("data", .str "")]])])) "map.json")
        [.field "Layers", .index 0, .field "Data"] = some (.string "") ∧
    recordAt (ParseTilemap (fileEnv (.obj [])) "map.json") [.field "Layers"] = some .nil ∧
    recordAt (ParseTilemap (fileEnv (.obj [("layers", .arr [])])) "map.json")
        [.field "Layers"] = some (.slice [] []) ∧
    ParseTilemap (fileEnv (.obj [("layers", .arr [])])) "map.json"
      ≠ ParseTilemap (fileEnv (.obj [])) "map.json" := by
  refine ⟨rfl, rfl, by decide, rfl, rfl, rfl, rfl, by decide⟩

/-- C6, amended. For every declared field `f` of `Map` and of every other declared
record, decoding an object in which no member is decoded into `f` leaves `f` at
the zero value of its type (empty string, 0, false, nil sequence, nil map, nil
dynamic value).  If `f` has a static scalar type (string, number, bool), adding
the member with the explicit zero (`""`, `0`, `false`) yields the same record and
the same error.  If `f` is a sequence, an explicit `[]` yields an empty non-nil
sequence where absence yields nil.  If `f` is dynamically typed (`Value`, `Data`),
an explicit `0`, `""`, `false` or `[]` is stored as that value, where absence
yields nil. -/
theorem absent_field_is_zero (s : TypeName) (f : Field) (pre post : List (String × JSON))
    (hf : f ∈ decls s)
    (habs : ∀ kx ∈ pre ++ post, decodesInto (decls s) kx.1 f.name = false) :
    (decode decls (.struct s) (.obj (pre ++ post)) (zero decls (.struct s))).1.field f.name
        = some (zero decls f.type) ∧
    (∀ z, scalarZero f.type = some z →
      decode decls (.struct s) (.obj (pre ++ (f.tag, z) :: post)) (zero decls (.struct s))
        = decode decls (.struct s) (.obj (pre ++ post)) (zero decls (.struct s))) ∧
    (∀ t, f.type = .slice t →
      zero decls f.type = .nil ∧
      (decode decls (.struct s) (.obj (pre ++ (f.tag, .arr []) :: post))
        (zero decls (.struct s))).1.field f.name = some (.slice [] [])) ∧
    (f.type = .iface →
      zero decls f.type = .nil ∧
      (decode decls (.struct s) (.obj (pre ++ (f.tag, .num (.int false 0)) :: post))
        (zero decls (.struct s))).1.field f.name = some (.float64 ⟨false, 0, 0⟩) ∧
      (decode decls (.struct s) (.obj (pre ++ (f.tag, .str "") :: post))
        (zero decls (.struct s))).1.field f.name = some (.string "") ∧
      (decode decls (.struct s) (.obj (pre ++ (f.tag, .bool false) :: post))
        (zero decls (.struct s))).1.field f.name = some (.bool false) ∧
      (decode decls (.struct s) (.obj (pre ++ (f.tag, .arr []) :: post))
        (zero decls (.struct s))).1.field f.name = some (.slice [] [])) := by
  have hpre : ∀ kx ∈ pre, decodesInto (decls s) kx.1 f.name = false :=
    fun kx h => habs kx (List.mem_append_left _ h)
  have hpost : ∀ kx ∈ post, decodesInto (decls s) kx.1 f.name = false :=
    fun kx h => habs kx (List.mem_append_right _ h)
  have hfind := findField_tag s f hf
  have hzero := zero_field s f hf
  have hcur : getField (decodeFields decls (decls s) pre
      (structFields (zero decls (.struct s)))).1 f.name = some (zero decls f.type) := by
    rw [getField_decodeFields_of_not_decodesInto decls (decls s) f.name pre _ hpre, hzero]
  have hlast : ∀ x : JSON,
      (decode decls (.struct s) (.obj (pre ++ (f.tag, x) :: post))
        (zero decls (.struct s))).1.field f.name =
      some (decode decls f.type x (zero decls f.type)).1 := by
    intro x
    rw [decode_struct_obj]
    simp only [GoVal.field]
    rw [getField_decodeFields_last decls (decls s) pre post f.tag x f _ hfind hpost, hcur]
    rfl
  refine ⟨?_, ?_, ?_, ?_⟩
  · rw [decode_struct_obj]
    simp only [GoVal.field]
    rw [getField_decodeFields_of_not_decodesInto decls (decls s) f.name _ _ habs, hzero]
  · intro z hz
    rw [decode_struct_obj, decode_struct_obj, decodeFields_append,
      decodeFields_append decls (decls s) pre post,
      decodeFields_cons_some decls (decls s) f.tag z post _ f hfind, hcur]
    simp only [Option.getD_some, decode_scalarZero decls f.type z hz,
      setField_of_getField _ _ _ hcur, firstErr_none_left]
  · intro t ht
    refine ⟨by rw [ht]; rfl, ?_⟩
    rw [hlast, ht]
    rfl
  · intro ht
    refine ⟨by rw [ht]; rfl, ?_, ?_, ?_, ?_⟩ <;> rw [hlast, ht] <;> rfl

/-- The amended C6 at the field `Opacity` of a layer. -/
theorem absent_field_is_zero_witness :
    (decode decls (.struct .Layer)
        (.obj ([("id", .num (.int false 1))] ++ [("name", .str "ground")]))
        (zero decls (.struct .Layer))).1.field "Opacity"
      = some (.float64 ⟨false, 0, 0⟩) ∧
    decode decls (.struct .Layer)
        (.obj ([("id", .num (.int false 1))] ++
          ("opacity", .num (.int false 0)) :: [("name", .str "ground")]))
        (zero decls (.struct .Layer))
      = decode decls (.struct .Layer)
        (.obj ([("id", .num (.int false 1))] ++ [("name", .str "ground")]))
        (zero decls (.struct .Layer)) :=
  have h := absent_field_is_zero .Layer (fld "Opacity" .float64 "opacity")
    [("id", .num (.int false 1))] [("name", .str "ground")] (by decide) (by decide)
  ⟨h.1, h.2.1 _ rfl⟩

/-! ### External tileset references -/

theorem tileset_field_of_name :
    (∀ f ∈ Tileset, f.name = "FirstGID" → f = fld "FirstGID" .int "firstgid") ∧
    (∀ f ∈ Tileset, f.name = "Source" → f = fld "Source" .string "source") ∧
    (∀ f ∈ Map, f.name = "Tilesets" → f = fld "Tilesets" (.slice (.struct .Tileset)) "tilesets") := by
  decide

theorem field_of_decodesInto {fs : List Field} {k name : String}
    (h : decodesInto fs k name = true) :
    ∃ f, findField fs k = some f ∧ f ∈ fs ∧ f.name = name := by
  cases hf : findField fs k with
  | none => simp [decodesInto, hf] at h
  | some f => exact ⟨f, rfl, findField_mem hf, by simpa [decodesInto, hf] using h⟩

theorem decode_external_tileset (k1 k2 : String) (g : Nat) (s : String)
    (members : List (String × JSON))
    (hk1 : decodesInto Tileset k1 "FirstGID" = true)
    (hk2 : decodesInto Tileset k2 "Source" = true) (hg : g < 2 ^ 63)
    (hm : members = [(k1, .num (.int false g)), (k2, .str s)] ∨
      members = [(k2, .str s), (k1, .num (.int false g))]) :
    decode decls (.struct .Tileset) (.obj members) (zero decls (.struct .Tileset)) =
      (externalTileset g s, none) := by
  obtain ⟨f1, hf1, hmem1, hname1⟩ := field_of_decodesInto hk1
  obtain ⟨f2, hf2, hmem2, hname2⟩ := field_of_decodesInto hk2
  have e1 := tileset_field_of_name.1 f1 hmem1 hname1
  have e2 := tileset_field_of_name.2.1 f2 hmem2 hname2
  subst e1 e2
  have hdecls : decls .Tileset = Tileset := rfl
  rcases hm with rfl | rfl
  · rw [decode_struct_obj, hdecls, decodeFields_cons_some decls Tileset k1 _ _ _ _ hf1,
      decodeFields_cons_some decls Tileset k2 _ _ _ _ hf2, decodeFields_nil]
    simp only [fld, decode, parseInt, hg, if_true, firstErr]
    rfl
  · rw [decode_struct_obj, hdecls, decodeFields_cons_some decls Tileset k2 _ _ _ _ hf2,
      decodeFields_cons_some decls Tileset k1 _ _ _ _ hf1, decodeFields_nil]
    simp only [fld, decode, parseInt, hg, if_true, firstErr]
    rfl

/-- C8. For every map file in which one member is decoded into `Tilesets`, an entry
of that array that gives only `firstgid = g` and `source = s` (in either order) is
loaded as a `Tileset` with `FirstGID = g`, `Source = s`, and every other field zero.
For the minimal map of the spec, `ParseTilemap` returns no error, `Width = 2`,
exactly one layer, whose `Data` is the sequence 1, 2, 3, 4, and exactly one tileset,
with `FirstGID = 1` and the reference `tiles.json`. -/
theorem external_tileset_reference (env : Env) (path : String) (data : Bytes)
    (pre post : List (String × JSON)) (kt : String) (tpre tpost : List JSON)
    (members : List (String × JSON)) (k1 k2 : String) (g : Nat) (s : String)
    (hr : env.ReadFile path = .ok data)
    (hs : env.scan data =
      .ok (.obj (pre ++ (kt, .arr (tpre ++ .obj members :: tpost)) :: post)))
    (hkt : decodesInto Map kt "Tilesets" = true)
    (hpre : ∀ kx ∈ pre, decodesInto Map kx.1 "Tilesets" = false)
    (hpost : ∀ kx ∈ post, decodesInto Map kx.1 "Tilesets" = false)
    (hk1 : decodesInto Tileset k1 "FirstGID" = true)
    (hk2 : decodesInto Tileset k2 "Source" = true) (hg : g < 2 ^ 63)
    (hm : members = [(k1, .num (.int false g)), (k2, .str s)] ∨
      members = [(k2, .str s), (k1, .num (.int false g))]) :
    recordAt (ParseTilemap env path) [.field "Tilesets", .index tpre.length]
        = some (externalTileset g s) ∧
      (ParseTilemap (fileEnv minimalMap) "map.json").2 = none ∧
      recordAt (ParseTilemap (fileEnv minimalMap) "map.json") [.field "Width"]
        = some (.int 2) ∧
      (recordAt (ParseTilemap (fileEnv minimalMap) "map.json") [.field "Layers"]).map
        GoVal.len = some 1 ∧
      (recordAt (ParseTilemap (fileEnv minimalMap) "map.json")
        [.field "Layers", .index 0, .field "Data"]).bind GoVal.toInts? = some [1, 2, 3, 4] ∧
      recordAt (ParseTilemap (fileEnv minimalMap) "map.json") [.field "Tilesets"]
        = some (.slice [externalTileset 1 "tiles.json"] []) := by
  refine ⟨?_, rfl, rfl, rfl, rfl, rfl⟩
  obtain ⟨ft, hft, hmemt, hnamet⟩ := field_of_decodesInto hkt
  have et := tileset_field_of_name.2.2 ft hmemt hnamet
  subst et
  have hdecls : decls .Map = Map := rfl
  have hcur : getField (decodeFields decls Map pre
      (structFields (zero decls (.struct .Map)))).1 "Tilesets" = some .nil := by
    rw [getField_decodeFields_of_not_decodesInto decls Map "Tilesets" pre _ hpre]
    rfl
  rw [recordAt_ParseTilemap env path data _ _ hr hs, decode_struct_obj, hdecls]
  simp only [GoVal.select, GoVal.step]
  have hlast := getField_decodeFields_last decls Map pre post kt
    (.arr (tpre ++ .obj members :: tpost)) _ (structFields (zero decls (.struct .Map)))
    hft hpost
  simp only [fld] at hlast hcur ⊢
  rw [hlast, hcur]
  simp only [Option.getD_some, Option.some_bind]
  rw [decode_slice_arr decls _ _ _ (by simp), decodeElems_append, decodeElems_cons]
  simp only [GoVal.step, backing, List.drop_nil, List.headD_nil]
  rw [List.get?_eq_getElem?, List.getElem?_append_right (by simp [decodeElems_length])]
  simp [decodeElems_length, decode_external_tileset k1 k2 g s members hk1 hk2 hg hm]

/-- C8 at the minimal map of the spec. -/
theorem external_tileset_reference_witness :
    recordAt (ParseTilemap (fileEnv minimalMap) "map.json") [.field "Tilesets", .index 0]
      = some (externalTileset 1 "tiles.json") :=
  (external_tileset_reference (fileEnv minimalMap) "map.json" []
    [("width", .num (.int false 2)), ("height", .num (.int false 2)),
      ("tilewidth", .num (.int false 32)), ("tileheight", .num (.int false 32)),
      ("layers", .arr [.obj [("type", .str "tilelayer"), ("data", gidArray [1, 2, 3, 4]),
        ("width", .num (.int false 2)), ("height", .num (.int false 2))]])]
    [] "tilesets" [] [] _ "firstgid" "source" 1 "tiles.json" rfl rfl
    (by decide) (by decide) (by decide) (by decide) (by decide) (by decide)
    (Or.inl rfl)).1

/-! ### Decoding into a nil slice and into a string -/

theorem decode_slice_of_elems (D : TypeName → List Field) (t : GoType) (xs : List JSON)
    (vs : List GoVal) (h : decodeElems D t xs [] = (vs, none)) :
    decode D (.slice t) (.arr xs) .nil = (.slice vs [], none) := by
  cases xs with
  | nil =>
    simp only [decodeElems, Prod.mk.injEq, and_true] at h
    subst h
    simp [decode]
  | cons x xs =>
    rw [decode_slice_arr D t _ _ (by simp)]
    simp [backing, h]

theorem decode_string_str (D : TypeName → List Field) (s : String) (cur : GoVal) :
    decode D .string (.str s) cur = (.string s, none) := by
  simp [decode]

/-! ### The nesting limit -/

mutual

theorem refused_eq_none_iff : ∀ (doc : JSON) (room : Nat),
    doc.refused room = none ↔ doc.nesting ≤ room
  | .null, room => by simp [JSON.refused, JSON.nesting]
  | .bool _, room => by simp [JSON.refused, JSON.nesting]
  | .num _, room => by simp [JSON.refused, JSON.nesting]
  | .str _, room => by simp [JSON.refused, JSON.nesting]
  | .arr xs, room => by
    cases room with
    | zero => simp [JSON.refused, JSON.nesting]
    | succ r =>
      have ih := refusedList_eq_none_iff xs r
      simp [JSON.refused, JSON.nesting, ih]
  | .obj kvs, room => by
    cases room with
    | zero => simp [JSON.refused, JSON.nesting]
    | succ r =>
      have ih := refusedMembers_eq_none_iff kvs r
      simp [JSON.refused, JSON.nesting, ih]

theorem refusedList_eq_none_iff : ∀ (xs : List JSON) (room : Nat),
    JSON.refusedList xs room = none ↔ JSON.nestingList xs ≤ room
  | [], room => by simp [JSON.refusedList, JSON.nestingList]
  | x :: xs, room => by
    have ih1 := refused_eq_none_iff x room
    have ih2 := refusedList_eq_none_iff xs room
    cases h : x.refused room with
    | some c =>
      have : ¬ x.nesting ≤ room := fun hle => by simp [ih1.mpr hle] at h
      simp [JSON.refusedList, JSON.nestingList, h, this]
    | none =>
      simp [JSON.refusedList, JSON.nestingList, h, ih2, ih1.mp h]

theorem refusedMembers_eq_none_iff : ∀ (kvs : List (String × JSON)) (room : Nat),
    JSON.refusedMembers kvs room = none ↔ JSON.nestingMembers kvs ≤ room
  | [], room => by simp [JSON.refusedMembers, JSON.nestingMembers]
  | (k, x) :: kvs, room => by
    have ih1 := refused_eq_none_iff x room
    have ih2 := refusedMembers_eq_none_iff kvs room
    cases h : x.refused room with
    | some c =>
      have : ¬ x.nesting ≤ room := fun hle => by simp [ih1.mpr hle] at h
      simp [JSON.refusedMembers, JSON.nestingMembers, h, this]
    | none =>
      simp [JSON.refusedMembers, JSON.nestingMembers, h, ih2, ih1.mp h]

end

/-- A document nested no deeper than the limit passes the syntax phase. -/
theorem checkValid_of_nesting (doc : JSON) (h : doc.nesting ≤ maxNestingDepth) :
    checkValid doc = .ok doc := by
  simp [checkValid, (refused_eq_none_iff doc maxNestingDepth).mpr h]

/-! ### Nested group layers -/

theorem setField_comm : ∀ (fs : List (String × GoVal)) (a b : String) (v w : GoVal),
    a ≠ b → (getField fs a).isSome = true →
    setField (setField fs a v) b w = setField (setField fs b w) a v
  | [], a, b, v, w, _, h => by simp [getField] at h
  | (n, u) :: fs, a, b, v, w, hab, h => by
    by_cases hna : n = a
    · subst hna
      simp [setField, hab]
    · by_cases hnb : n = b
      · subst hnb
        simp [setField, hna]
      · have h' : (getField fs a).isSome = true := by simpa [getField, hna] using h
        simp [setField, hna, hnb, setField_comm fs a b v w hab h']

/-- Members that are not decoded into a field are decoded the same whatever the
field holds. -/
theorem decodeFields_setField_comm (D : TypeName → List Field) (fs : List Field)
    (name : String) (w : GoVal) :
    ∀ (kvs : List (String × JSON)) (cur : List (String × GoVal)),
      (∀ kx ∈ kvs, decodesInto fs kx.1 name = false) →
      (getField cur name).isSome = true →
      decodeFields D fs kvs (setField cur name w) =
        (setField (decodeFields D fs kvs cur).1 name w, (decodeFields D fs kvs cur).2)
  | [], cur, _, _ => by simp [decodeFields_nil]
  | (k, x) :: rest, cur, h, hcur => by
    have hk : decodesInto fs k name = false := h (k, x) (List.mem_cons_self _ _)
    have hrest : ∀ kx ∈ rest, decodesInto fs kx.1 name = false :=
      fun kx hkx => h kx (List.mem_cons_of_mem _ hkx)
    cases hf : findField fs k with
    | none =>
      rw [decodeFields_cons_none D fs k x rest _ hf, decodeFields_cons_none D fs k x rest _ hf]
      exact decodeFields_setField_comm D fs name w rest cur hrest hcur
    | some g =>
      have hne : g.name ≠ name := by simpa [decodesInto, hf] using hk
      rw [decodeFields_cons_some D fs k x rest _ g hf, decodeFields_cons_some D fs k x rest _ g hf,
        getField_setField_ne _ _ _ _ (Ne.symm hne), setField_comm _ _ _ _ _ (Ne.symm hne) hcur]
      have hcur' : (getField (setField cur g.name
          (decode D g.type x ((getField cur g.name).getD (zero D g.type))).1) name).isSome
          = true := by
        rw [getField_setField_ne _ _ _ _ hne]
        exact hcur
      rw [decodeFields_setField_comm D fs name w rest _ hrest hcur']

theorem findField_layers :
    findField Layer "layers" = some (fld "Layers" (.slice (.struct .Layer)) "layers") ∧
    findField Map "layers" = some (fld "Layers" (.slice (.struct .Layer)) "layers") := by
  decide

/-- An object with a member `layers` between members that leave `Layers` alone is
decoded, into a zero `Map` or `Layer`, as its other members are, with `Layers`
holding the decoded elements of `layers`. -/
theorem decode_withLayers (s : TypeName)
    (hfind : findField (decls s) "layers" =
      some (fld "Layers" (.slice (.struct .Layer)) "layers"))
    (pre post : List (String × JSON)) (xs : List JSON) (ls : List GoVal)
    (hplain : plainMembers s (pre ++ post) = true)
    (hxs : decodeElems decls (.struct .Layer) xs [] = (ls, none)) :
    decode decls (.struct s) (.obj (pre ++ ("layers", .arr xs) :: post))
        (zero decls (.struct s)) = (withLayers s (pre ++ post) ls, none) := by
  simp only [plainMembers, Bool.and_eq_true, List.all_eq_true, Bool.not_eq_true',
    Option.isNone_iff_eq_none, decode_struct_obj] at hplain
  obtain ⟨hkeys, hclean⟩ := hplain
  have hpre : ∀ kx ∈ pre, decodesInto (decls s) kx.1 "Layers" = false :=
    fun kx h => hkeys kx (List.mem_append_left _ h)
  have hpost : ∀ kx ∈ post, decodesInto (decls s) kx.1 "Layers" = false :=
    fun kx h => hkeys kx (List.mem_append_right _ h)
  have hz : getField (structFields (zero decls (.struct s))) "Layers" = some .nil :=
    zero_field s _ (findField_mem hfind)
  have h1 : getField (decodeFields decls (decls s) pre
      (structFields (zero decls (.struct s)))).1 "Layers" = some .nil := by
    rw [getField_decodeFields_of_not_decodesInto decls (decls s) "Layers" pre _ hpre, hz]
  rw [decodeFields_append] at hclean
  have hc := firstErr_eq_none.mp hclean
  rw [withLayers, decode_struct_obj, decode_struct_obj, decodeFields_append,
    decodeFields_cons_some decls (decls s) "layers" _ post _ _ hfind, decodeFields_append]
  simp only [fld, h1, Option.getD_some, decode_slice_of_elems decls _ xs ls hxs,
    firstErr_none_left, GoVal.withField]
  rw [decodeFields_setField_comm decls (decls s) "Layers" _ post _ hpost (by rw [h1]; rfl)]
  simp only [hc.1, hc.2, firstErr]

mutual

theorem decode_group : ∀ g : Group, g.plain = true →
    decode decls (.struct .Layer) g.toJSON (zero decls (.struct .Layer)) = (g.toLayer, none)
  | .mk pre post cs, h => by
    simp only [Group.plain, Bool.and_eq_true] at h
    rw [Group.toJSON, Group.toLayer]
    exact decode_withLayers .Layer findField_layers.1 pre post _ _ h.1
      (decodeElems_groups cs h.2)

theorem decodeElems_groups : ∀ gs : List Group, Group.listPlain gs = true →
    decodeElems decls (.struct .Layer) (Group.listToJSON gs) [] = (Group.listToLayers gs, none)
  | [], _ => by simp [Group.listToJSON, Group.listToLayers, decodeElems]
  | g :: gs, h => by
    simp only [Group.listPlain, Bool.and_eq_true] at h
    rw [Group.listToJSON, Group.listToLayers, decodeElems_cons]
    simp only [List.headD_nil, List.tail_nil]
    rw [decode_group g h.1, decodeElems_groups gs h.2]
    rfl

end

theorem length_listToLayers : ∀ gs : List Group, (Group.listToLayers gs).length = gs.length
  | [] => by simp [Group.listToLayers]
  | g :: gs => by simp [Group.listToLayers, length_listToLayers gs]

theorem field_withLayers (s : TypeName) (ms : List (String × JSON)) (ls : List GoVal) :
    (withLayers s ms ls).field "Layers" = some (.slice ls []) := by
  rw [withLayers, decode_struct_obj]
  simp [GoVal.withField, GoVal.field, getField_setField_same]

theorem layerDepthFields_setField : ∀ (fs : List (String × GoVal)) (v : GoVal),
    GoVal.layerDepthFields (setField fs "Layers" v) = v.layerDepth
  | [], v => by simp [setField, GoVal.layerDepthFields]
  | (n, u) :: fs, v => by
    by_cases hn : n = "Layers"
    · simp [setField, GoVal.layerDepthFields, hn]
    · simp [setField, GoVal.layerDepthFields, hn, layerDepthFields_setField fs v]

theorem layerDepth_withLayers (s : TypeName) (ms : List (String × JSON)) (ls : List GoVal) :
    (withLayers s ms ls).layerDepth = GoVal.layerDepthList ls := by
  rw [withLayers, decode_struct_obj]
  simp [GoVal.withField, GoVal.layerDepth, layerDepthFields_setField]

theorem layerDepth_of_isChain : ∀ (n : Nat) (gs : List Group), Group.isChain n gs = true →
    GoVal.layerDepthList (Group.listToLayers gs) = n
  | 0, [], _ => by simp [Group.listToLayers, GoVal.layerDepthList]
  | 0, _ :: _, h => by simp [Group.isChain] at h
  | n + 1, [], h => by simp [Group.isChain] at h
  | n + 1, [.mk pre post cs], h => by
    simp only [Group.isChain, Group.children] at h
    simp only [Group.listToLayers, Group.toLayer, GoVal.layerDepthList, layerDepth_withLayers,
      layerDepth_of_isChain n cs h]
    simp
  | n + 1, _ :: _ :: _, h => by simp [Group.isChain] at h

theorem isChain_groupChain : ∀ n : Nat, Group.isChain n (groupChain n) = true
  | 0 => by simp [groupChain, Group.isChain]
  | n + 1 => by simp [groupChain, Group.isChain, namedGroup, Group.children, isChain_groupChain n]

theorem toLayer_namedGroup (name : String) (cs : List Group) :
    (namedGroup name cs).toLayer = groupLayer name (.slice (Group.listToLayers cs) []) := by
  have hdecls : decls .Layer = Layer := rfl
  rw [namedGroup, Group.toLayer, withLayers, decode_struct_obj, hdecls]
  simp only [List.append_nil]
  rw [decodeFields_cons_some decls Layer "name" _ _ _ (fld "Name" .string "name") (by decide),
    decodeFields_cons_some decls Layer "type" _ _ _ (fld "Type" .string "type") (by decide),
    decodeFields_nil]
  simp only [fld, decode_string_str]
  rfl

theorem plain_groupChain : ∀ n : Nat, Group.listPlain (groupChain n) = true
  | 0 => by simp [groupChain, Group.listPlain]
  | n + 1 => by
    have hdecls : decls .Layer = Layer := rfl
    have hm : plainMembers .Layer
        [("name", .str ("g" ++ toString (n + 1))), ("type", .str "group")] = true := by
      simp only [plainMembers, Bool.and_eq_true, List.all_eq_true, Bool.not_eq_true',
        Option.isNone_iff_eq_none, decode_struct_obj, hdecls]
      refine ⟨?_, ?_⟩
      · intro kx hkx
        simp only [List.mem_cons, List.mem_singleton, List.not_mem_nil, or_false] at hkx
        rcases hkx with h | h <;> rw [h]
        · exact (by decide : decodesInto Layer "name" "Layers" = false)
        · exact (by decide : decodesInto Layer "type" "Layers" = false)
      · rw [decodeFields_cons_some decls Layer "name" _ _ _ (fld "Name" .string "name")
            (by decide),
          decodeFields_cons_some decls Layer "type" _ _ _ (fld "Type" .string "type")
            (by decide),
          decodeFields_nil]
        simp only [fld, decode_string_str, firstErr]
    simp only [groupChain, Group.listPlain, namedGroup, Group.plain, List.append_nil, hm,
      plain_groupChain n, Bool.and_self]

theorem nestingList_groupChain : ∀ n : Nat,
    JSON.nestingList (Group.listToJSON (groupChain n)) = 2 * n
  | 0 => by simp [groupChain, Group.listToJSON, JSON.nestingList]
  | n + 1 => by
    simp only [groupChain, namedGroup, Group.listToJSON, Group.toJSON, JSON.nestingList,
      JSON.nesting, JSON.nestingMembers, List.cons_append, List.nil_append,
      nestingList_groupChain n]
    omega

theorem nesting_groupChain (n : Nat) : (mapJSON [] [] (groupChain n)).nesting = 2 * n + 2 := by
  simp [mapJSON, JSON.nesting, JSON.nestingMembers, nestingList_groupChain n]

theorem refusedList_groupChain : ∀ (n room : Nat),
    JSON.refusedList (Group.listToJSON (groupChain n)) room =
      if 2 * n ≤ room then none
      else some (if room % 2 = 0 then Char.ofNat 123 else Char.ofNat 91)
  | 0, room => by simp [groupChain, Group.listToJSON, JSON.refusedList]
  | n + 1, 0 => by
    simp [groupChain, namedGroup, Group.listToJSON, Group.toJSON, JSON.refusedList,
      JSON.refused]
  | n + 1, 1 => by
    have h : ¬ 2 * (n + 1) ≤ 1 := by omega
    simp [groupChain, namedGroup, Group.listToJSON, Group.toJSON, JSON.refusedList,
      JSON.refused, JSON.refusedMembers, h]
  | n + 1, room + 2 => by
    have ih := refusedList_groupChain n room
    have h2 : (room + 2) % 2 = room % 2 := by omega
    have h3 : room + 2 ≠ 0 := by omega
    have h4 : room + 2 - 1 = room + 1 := by omega
    simp only [groupChain, namedGroup, Group.listToJSON, Group.toJSON, JSON.refusedList,
      JSON.refused, JSON.refusedMembers, List.cons_append, List.nil_append, h3, h4, if_false,
      Nat.add_one_ne_zero, Nat.add_sub_cancel, ih, h2]
    by_cases h : 2 * n ≤ room
    · have h' : 2 * (n + 1) ≤ room + 2 := by omega
      simp [h, h']
    · have h' : ¬ 2 * (n + 1) ≤ room + 2 := by omega
      simp [h, h']

theorem ParseTilemap_of_scan_error (env : Env) (path : String) (data : Bytes)
    (e : SyntaxError) (hr : env.ReadFile path = .ok data) (hs : env.scan data = .error e) :
    ParseTilemap env path = (some (zero decls (.struct .Map)), some (.malformed e)) := by
  simp only [ParseTilemap, hr, Unmarshal, hs]

/-- A chain of 5000 or more groups, written with name, type and children only, is
refused at the object of its 5000th group. -/
theorem checkValid_groupChain (n : Nat) (hn : 5000 ≤ n) :
    checkValid (mapJSON [] [] (groupChain n)) =
      .error ⟨"invalid character \x27\x7b\x27 exceeded max depth"⟩ := by
  have hlt : ¬ 2 * n ≤ 9998 := by omega
  have h : (mapJSON [] [] (groupChain n)).refused maxNestingDepth =
      some (Char.ofNat 123) := by
    simp [mapJSON, JSON.refused, JSON.refusedMembers, maxNestingDepth,
      refusedList_groupChain, hlt]
  rw [checkValid, h]
  rfl

theorem ParseTilemap_groupChain (n : Nat) (hn : 5000 ≤ n) :
    ParseTilemap (spelledEnv (mapJSON [] [] (groupChain n))) "map.json" =
      (some (zero decls (.struct .Map)),
        some (.malformed ⟨"invalid character \x27\x7b\x27 exceeded max depth"⟩)) :=
  ParseTilemap_of_scan_error (spelledEnv (mapJSON [] [] (groupChain n))) "map.json" [] _ rfl
    (checkValid_groupChain n hn)

/-- C9, as stated, fails for deep chains: the syntax phase of `json.Unmarshal`
refuses a document in which more than 10000 arrays and objects are open at once.
A map file that holds a chain of 5000 group layers nested one inside the other,
each written with its name, its type and its children only, is nested 10002 deep,
and `ParseTilemap` returns a syntax error for it (`exceeded max depth`). -/
theorem deep_group_chain_rejected :
    Group.isChain 5000 (groupChain 5000) = true ∧
    Group.listPlain (groupChain 5000) = true ∧
    (mapJSON [] [] (groupChain 5000)).nesting = 2 * 5000 + 2 ∧
    ∃ e : SyntaxError,
      (ParseTilemap (spelledEnv (mapJSON [] [] (groupChain 5000))) "map.json").2 =
        some (.malformed e) :=
  ⟨isChain_groupChain 5000, plain_groupChain 5000, nesting_groupChain 5000,
    ⟨_, congrArg Prod.snd (ParseTilemap_groupChain 5000 (Nat.le_refl 5000))⟩⟩

/-- C9, amended. A map file whose `layers` holds group layers nested to any depth,
the file nesting arrays and objects at most 10000 deep (the limit of the syntax
phase of `json.Unmarshal`), loads without error, whatever other members the map and
the groups carry, provided these are decoded without error and none of them is
decoded into `Layers`: the `Layers` of the map and of every group holds the layers
of its children, in input order and none dropped.  A group written with its name,
its type and its children only loads as the `Layer` with just `Name`, `Type` and
`Layers` set.  For every `n`, a chain of `n` group layers nested one inside the
other loads as a layer tree of depth exactly `n`; written with name, type and
children only, inside a map with no other member, the chain is within the limit
exactly when `n` is at most 4999. -/
theorem nested_groups_decode (env : Env) (path : String) (data : Bytes)
    (pre post : List (String × JSON)) (gs : List Group)
    (hr : env.ReadFile path = .ok data)
    (hs : env.scan data = checkValid (mapJSON pre post gs))
    (hd : (mapJSON pre post gs).nesting ≤ maxNestingDepth)
    (hm : plainMembers .Map (pre ++ post) = true)
    (hg : Group.listPlain gs = true) :
    ParseTilemap env path =
      (some (withLayers .Map (pre ++ post) (Group.listToLayers gs)), none) ∧
    recordAt (ParseTilemap env path) [.field "Layers"] =
      some (.slice (Group.listToLayers gs) []) ∧
    (Group.listToLayers gs).length = gs.length ∧
    (∀ g : Group,
      g.toLayer.field "Layers" = some (.slice (Group.listToLayers g.children) []) ∧
      (Group.listToLayers g.children).length = g.children.length) ∧
    (∀ (name : String) (cs : List Group),
      (namedGroup name cs).toLayer = groupLayer name (.slice (Group.listToLayers cs) [])) ∧
    (∀ n : Nat, Group.isChain n gs = true →
      (withLayers .Map (pre ++ post) (Group.listToLayers gs)).layerDepth = n) ∧
    (∀ n : Nat, (mapJSON [] [] (groupChain n)).nesting ≤ maxNestingDepth ↔ n ≤ 4999) := by
  have hload : ParseTilemap env path =
      (some (withLayers .Map (pre ++ post) (Group.listToLayers gs)), none) := by
    rw [checkValid_of_nesting _ hd] at hs
    simp only [ParseTilemap, hr, Unmarshal, hs, mapJSON]
    rw [decode_withLayers .Map findField_layers.2 pre post _ _ hm (decodeElems_groups gs hg)]
    rfl
  refine ⟨hload, ?_, length_listToLayers gs, ?_, toLayer_namedGroup, ?_, ?_⟩
  · rw [hload]
    simp only [recordAt, Option.bind_some, GoVal.select]
    have h := field_withLayers .Map (pre ++ post) (Group.listToLayers gs)
    rw [withLayers, decode_struct_obj] at h ⊢
    simp only [GoVal.withField, GoVal.field] at h
    simp [GoVal.withField, GoVal.step, h]
  · rintro ⟨gpre, gpost, cs⟩
    exact ⟨field_withLayers .Layer (gpre ++ gpost) (Group.listToLayers cs),
      length_listToLayers cs⟩
  · intro n hn
    rw [layerDepth_withLayers, layerDepth_of_isChain n gs hn]
  · intro n
    rw [nesting_groupChain, maxNestingDepth]
    omega

/-- The amended C9 at a map with other members whose `layers` holds a chain of five
group layers, each written as the editor writes it: the map loads without error,
as a layer tree of depth 5. -/
theorem nested_groups_decode_witness :
    ParseTilemap (spelledEnv (mapJSON [("height", .num (.int false 4))]
        [("orientation", .str "orthogonal"), ("width", .num (.int false 4))] editorChain))
        "map.json" =
      (some (withLayers .Map
        [("height", .num (.int false 4)), ("orientation", .str "orthogonal"),
          ("width", .num (.int false 4))] (Group.listToLayers editorChain)), none) ∧
    (withLayers .Map
        [("height", .num (.int false 4)), ("orientation", .str "orthogonal"),
          ("width", .num (.int false 4))] (Group.listToLayers editorChain)).layerDepth = 5 :=
  have h := nested_groups_decode
    (spelledEnv (mapJSON [("height", .num (.int false 4))]
      [("orientation", .str "orthogonal"), ("width", .num (.int false 4))] editorChain))
    "map.json" [] [("height", .num (.int false 4))]
    [("orientation", .str "orthogonal"), ("width", .num (.int false 4))] editorChain
    rfl rfl (by decide) (by decide) (by decide)
  ⟨h.1, h.2.2.2.2.2.1 5 (by decide)⟩

/-! ### The version fields -/

/-- Members decoded into the fields `names` do not disturb the decoding of the other
members: if the object without them decodes without error, and they themselves
decode without error, the whole object decodes without error. -/
theorem decodeFields_noerr_of_filter (D : TypeName → List Field) (fs : List Field)
    (names : List String) :
    ∀ (kvs : List (String × JSON)) (cur cur' : List (String × GoVal)),
      (∀ name, name ∉ names → getField cur name = getField cur' name) →
      (∀ kx ∈ kvs, ∀ f, findField fs kx.1 = some f → f.name ∈ names →
        ∀ c, (decode D f.type kx.2 c).2 = none) →
      (decodeFields D fs (kvs.filter fun kx => keepKey fs names kx.1) cur').2 = none →
      (decodeFields D fs kvs cur).2 = none
  | [], cur, cur', _, _, _ => by simp [decodeFields_nil]
  | (k, x) :: rest, cur, cur', hsim, hdrop, hrest => by
    have hdrop' : ∀ kx ∈ rest, ∀ f, findField fs kx.1 = some f → f.name ∈ names →
        ∀ c, (decode D f.type kx.2 c).2 = none :=
      fun kx h => hdrop kx (List.mem_cons_of_mem _ h)
    cases hf : findField fs k with
    | none =>
      have hkeep : keepKey fs names k = true := by simp [keepKey, hf]
      rw [List.filter_cons_of_pos (by simpa using hkeep),
        decodeFields_cons_none D fs k x _ cur' hf] at hrest
      rw [decodeFields_cons_none D fs k x rest cur hf]
      exact decodeFields_noerr_of_filter D fs names rest cur cur' hsim hdrop' hrest
    | some f =>
      by_cases hn : f.name ∈ names
      · have hkeep : keepKey fs names k = false := by simp [keepKey, hf, hn]
        rw [List.filter_cons_of_neg (by simp [hkeep])] at hrest
        rw [decodeFields_cons_some D fs k x rest cur f hf]
        have hstep := hdrop (k, x) (List.mem_cons_self _ _) f hf hn
          ((getField cur f.name).getD (zero D f.type))
        simp only [hstep, firstErr_none_left]
        refine decodeFields_noerr_of_filter D fs names rest _ cur' ?_ hdrop' hrest
        intro name hname
        have hne : f.name ≠ name := fun h => hname (h ▸ hn)
        rw [getField_setField_ne _ _ _ _ hne]
        exact hsim name hname
      · have hkeep : keepKey fs names k = true := by simp [keepKey, hf, hn]
        rw [List.filter_cons_of_pos (by simpa using hkeep),
          decodeFields_cons_some D fs k x _ cur' f hf] at hrest
        rw [decodeFields_cons_some D fs k x rest cur f hf]
        have hsame : getField cur f.name = getField cur' f.name := hsim f.name hn
        rw [hsame]
        simp only at hrest ⊢
        obtain ⟨h1, h2⟩ := firstErr_eq_none.mp hrest
        rw [h1, firstErr_none_left]
        refine decodeFields_noerr_of_filter D fs names rest _ _ ?_ hdrop' h2
        intro name hname
        by_cases hne : f.name = name
        · rw [← hne, getField_setField_same, getField_setField_same]
        · rw [getField_setField_ne _ _ _ _ hne, getField_setField_ne _ _ _ _ hne]
          exact hsim name hname

theorem version_field_of_name :
    (∀ f ∈ Map, f.name = "Version" → f = fld "Version" .float64 "version") ∧
    (∀ f ∈ Map, f.name = "TiledVersion" → f = fld "TiledVersion" .string "tiledversion") := by
  decide

/-- C10, as stated, fails: `Version` is declared `float64`, so a file in which
`version` is a JSON string is rejected with a type mismatch and `Version` stays
`0`; only `TiledVersion` is a string attribute. -/
theorem version_string_counterexample :
    ParseTilemap
        (fileEnv (.obj [("version", .str "1.2"), ("tiledversion", .str "1.2.4")])) "map.json"
      = (some ((zero decls (.struct .Map)).withField "TiledVersion" (.string "1.2.4")),
          some (.mismatch ⟨.string, .float64⟩)) ∧
    recordAt (ParseTilemap
        (fileEnv (.obj [("version", .str "1.2"), ("tiledversion", .str "1.2.4")])) "map.json")
        [.field "Version"] = some (.float64 ⟨false, 0, 0⟩) := by
  exact ⟨rfl, rfl⟩

/-- C10, amended. The editor version is a string attribute and the format version
is a `float64`: for every map file that is valid apart from its `version` and
`tiledversion` members, in which every `tiledversion` is a JSON string and every
`version` a JSON number within the `float64` range, `ParseTilemap` succeeds,
`TiledVersion` holds exactly the string of the last `tiledversion` member, and
`Version` holds the `float64` nearest to the number of the last `version` member. -/
theorem version_fields (env : Env) (path : String) (data : Bytes)
    (kvs : List (String × JSON))
    (hr : env.ReadFile path = .ok data) (hs : env.scan data = .ok (.obj kvs))
    (hvalid : (decode decls (.struct .Map) (.obj (withoutVersions kvs))
      (zero decls (.struct .Map))).2 = none)
    (hv : ∀ kx ∈ kvs, decodesInto Map kx.1 "Version" = true → isFloatLit kx.2 = true)
    (ht : ∀ kx ∈ kvs, decodesInto Map kx.1 "TiledVersion" = true → isStr kx.2 = true) :
    (ParseTilemap env path).2 = none ∧
    (∀ pre post k l, kvs = pre ++ (k, .num l) :: post →
      decodesInto Map k "Version" = true →
      (∀ kx ∈ post, decodesInto Map kx.1 "Version" = false) →
      ∃ v, parseFloat l = some v ∧
        recordAt (ParseTilemap env path) [.field "Version"] = some (.float64 v)) ∧
    (∀ pre post k s, kvs = pre ++ (k, .str s) :: post →
      decodesInto Map k "TiledVersion" = true →
      (∀ kx ∈ post, decodesInto Map kx.1 "TiledVersion" = false) →
      recordAt (ParseTilemap env path) [.field "TiledVersion"] = some (.string s)) := by
  have hdecls : decls .Map = Map := rfl
  refine ⟨?_, ?_, ?_⟩
  · simp only [ParseTilemap, hr, Unmarshal, hs]
    rw [decode_struct_obj, hdecls]
    rw [decode_struct_obj, hdecls] at hvalid
    simp only [Option.map_eq_none']
    refine decodeFields_noerr_of_filter decls Map ["Version", "TiledVersion"] kvs _ _
      (fun _ _ => rfl) ?_ hvalid
    intro kx hkx f hf hname c
    simp only [List.mem_cons, List.mem_singleton, List.not_mem_nil, or_false] at hname
    rcases hname with hname | hname
    · have hfe := version_field_of_name.1 f (findField_mem hf) hname
      have hlit := hv kx hkx (by simp [decodesInto, hf, hname])
      subst hfe
      obtain ⟨k, x⟩ := kx
      cases x <;> simp [isFloatLit] at hlit
      rename_i l
      obtain ⟨v, hv'⟩ := Option.isSome_iff_exists.mp hlit
      simp [fld, decode, hv']
    · have hfe := version_field_of_name.2 f (findField_mem hf) hname
      have hstr := ht kx hkx (by simp [decodesInto, hf, hname])
      subst hfe
      obtain ⟨k, x⟩ := kx
      cases x <;> simp [isStr] at hstr
      simp [fld, decode]
  · rintro pre post k l rfl hk hpost
    obtain ⟨f, hf, hmem, hname⟩ := field_of_decodesInto hk
    have hfe := version_field_of_name.1 f hmem hname
    subst hfe
    have hlit := hv (k, .num l) (by simp) hk
    obtain ⟨v, hv'⟩ := Option.isSome_iff_exists.mp hlit
    rw [recordAt_ParseTilemap env path data _ _ hr hs, decode_struct_obj, hdecls]
    simp only [GoVal.select, GoVal.step]
    have hlast := getField_decodeFields_last decls Map pre post k (.num l) _
      (structFields (zero decls (.struct .Map))) hf hpost
    simp only [fld] at hlast
    rw [hlast]
    exact ⟨v, hv', by simp [decode, hv']⟩
  · rintro pre post k s rfl hk hpost
    obtain ⟨f, hf, hmem, hname⟩ := field_of_decodesInto hk
    have hfe := version_field_of_name.2 f hmem hname
    subst hfe
    rw [recordAt_ParseTilemap env path data _ _ hr hs, decode_struct_obj, hdecls]
    simp only [GoVal.select, GoVal.step]
    have hlast := getField_decodeFields_last decls Map pre post k (.str s) _
      (structFields (zero decls (.struct .Map))) hf hpost
    simp only [fld] at hlast
    rw [hlast]
    simp [decode]

/-- The amended C10 at a map file with `"version": 1.2` and
`"tiledversion": "1.2.4"`. -/
theorem version_fields_witness :
    (ParseTilemap (fileEnv (.obj [("version", .num (.dec false 12 (-1))),
        ("tiledversion", .str "1.2.4"), ("width", .num (.int false 2))])) "map.json").2
      = none ∧
    recordAt (ParseTilemap (fileEnv (.obj [("version", .num (.dec false 12 (-1))),
        ("tiledversion", .str "1.2.4"), ("width", .num (.int false 2))])) "map.json")
        [.field "TiledVersion"] = some (.string "1.2.4") ∧
    ∃ v, parseFloat (.dec false 12 (-1)) = some v ∧
      recordAt (ParseTilemap (fileEnv (.obj [("version", .num (.dec false 12 (-1))),
        ("tiledversion", .str "1.2.4"), ("width", .num (.int false 2))])) "map.json")
        [.field "Version"] = some (.float64 v) :=
  have h := version_fields
    (fileEnv (.obj [("version", .num (.dec false 12 (-1))),
      ("tiledversion", .str "1.2.4"), ("width", .num (.int false 2))])) "map.json" []
    [("version", .num (.dec false 12 (-1))), ("tiledversion", .str "1.2.4"),
      ("width", .num (.int false 2))] rfl rfl (by decide) (by decide) (by decide)
  ⟨h.1,
    h.2.2 [("version", .num (.dec false 12 (-1)))] [("width", .num (.int false 2))]
      "tiledversion" "1.2.4" rfl (by decide) (by decide),
    h.2.1 [] [("tiledversion", .str "1.2.4"), ("width", .num (.int false 2))]
      "version" (.dec false 12 (-1)) rfl (by decide) (by decide)⟩

/-! ### Re-serialisation: numbers -/

theorem parseFloat_encodeFloat (f : Float64) (hv : f.valid = true) :
    parseFloat (encodeFloat f) = some f := by
  obtain ⟨neg, m, e⟩ := f
  simp only [Float64.valid, Bool.or_eq_true, Bool.and_eq_true, decide_eq_true_eq,
    Bool.decide_and, Bool.decide_or] at hv
  rcases hv with ⟨hm, he⟩ | ⟨hodd, hlt, hge, hov⟩
  · subst hm he
    simp [encodeFloat, parseFloat, roundRatio]
  · have hm0 : m ≠ 0 := by omega
    by_cases hpos : 0 ≤ e
    · have hcast : ((e.toNat : Nat) : Int) = e := Int.toNat_of_nonneg hpos
      have hr : roundRatio (m * 2 ^ e.toNat) 1 = some (m, e) :=
        roundRatio_exact (m * 2 ^ e.toNat) 1 m e (by positivity) (by norm_num) hodd hlt hge hov
          (by
            push_cast
            rw [← zpow_natCast, hcast]
            simp)
      simp [encodeFloat, hpos, parseFloat, hr]
    · have hneg : e < 0 := by omega
      have hcast : (((-e).toNat : Nat) : Int) = -e := Int.toNat_of_nonneg (by omega)
      have hr : roundRatio (m * 5 ^ (-e).toNat) (10 ^ (-e).toNat) = some (m, e) :=
        roundRatio_exact _ _ m e (by positivity) (by positivity) hodd hlt hge hov
          (by
            have h10 : ((10 : ℚ)) ^ (-e).toNat = 2 ^ (-e).toNat * 5 ^ (-e).toNat := by
              rw [← mul_pow]
              norm_num
            have he2 : (2 : ℚ) ^ e = ((2 : ℚ) ^ (-e).toNat)⁻¹ := by
              rw [← zpow_natCast, hcast, zpow_neg, inv_inv]
            push_cast
            rw [h10, he2]
            field_simp
            ring)
      simp [encodeFloat, hpos, parseFloat, hneg.not_le, hr]

theorem parseInt_encodeInt (i : Int) (h : -(2 : Int) ^ 63 ≤ i ∧ i < 2 ^ 63) :
    parseInt (encodeInt i) = some i := by
  by_cases hneg : i < 0
  · have h1 : i.natAbs ≤ 2 ^ 63 := by omega
    have h2 : -(i.natAbs : Int) = i := by omega
    simp only [encodeInt, hneg, decide_True, parseInt, h1, if_true, h2]
  · have h1 : i.natAbs < 2 ^ 63 := by omega
    have h2 : (i.natAbs : Int) = i := by omega
    simp only [encodeInt, hneg, decide_False, parseInt, h1, if_true, h2]

/-! ### Re-serialisation: dynamically typed values -/

theorem mapInsert_append : ∀ (acc : List (String × GoVal)) (k : String) (w : GoVal),
    (∀ a ∈ acc, keyLt a.1 k) → mapInsert acc k w = acc ++ [(k, w)]
  | [], k, w, _ => by simp [mapInsert]
  | (n, v) :: rest, k, w, h => by
    have hn : keyLt n k := h (n, v) (List.mem_cons_self _ _)
    have hne : ¬ k = n := fun hkn => lt_irrefl (n.data.map Char.toNat) (hkn ▸ hn)
    have hnlt : ¬ keyLt k n := fun hkn => lt_asymm hn hkn
    simp only [mapInsert, hne, hnlt, if_false, List.cons_append]
    rw [mapInsert_append rest k w fun a ha => h a (List.mem_cons_of_mem _ ha)]

mutual

theorem toIface_encodeDyn : ∀ v : GoVal, isDyn true v = true →
    toIface (encodeDyn v) = (v, none)
  | .nil, _ => by simp [encodeDyn, toIface]
  | .bool b, _ => by simp [encodeDyn, toIface]
  | .string s, _ => by simp [encodeDyn, toIface]
  | .float64 f, h => by
    simp only [isDyn] at h
    simp [encodeDyn, toIface, parseFloat_encodeFloat f h]
  | .int i, h => by simp [isDyn] at h
  | .uint8 n, h => by simp [isDyn] at h
  | .array es, h => by simp [isDyn] at h
  | .struct fs, h => by simp [isDyn] at h
  | .slice es sp, h => by
    simp only [isDyn, Bool.and_eq_true, Bool.not_true, Bool.false_or, List.isEmpty_iff] at h
    obtain ⟨h1, h2⟩ := h
    subst h2
    simp [encodeDyn, toIface, toIfaceList_encodeDynList es h1]
  | .map es, h => by
    simp only [isDyn, Bool.and_eq_true, decide_eq_true_eq] at h
    obtain ⟨h1, h2⟩ := h
    have := toIfaceMembers_encodeDynEntries es [] (by simp) h1 h2
    simp [encodeDyn, toIface, this]

theorem toIfaceList_encodeDynList : ∀ vs : List GoVal, isDynList true vs = true →
    toIfaceList (encodeDynList vs) = (vs, none)
  | [], _ => by simp [encodeDynList, toIfaceList]
  | v :: vs, h => by
    simp only [isDynList, Bool.and_eq_true] at h
    simp [encodeDynList, toIfaceList, toIface_encodeDyn v h.1,
      toIfaceList_encodeDynList vs h.2, firstErr]

theorem toIfaceMembers_encodeDynEntries : ∀ (es acc : List (String × GoVal)),
    (∀ a ∈ acc, ∀ e ∈ es, keyLt a.1 e.1) →
    List.Pairwise keyLt (es.map Prod.fst) →
    isDynEntries true es = true →
    toIfaceMembers (encodeDynEntries es) acc = (acc ++ es, none)
  | [], acc, _, _, _ => by simp [encodeDynEntries, toIfaceMembers]
  | (k, v) :: es, acc, hacc, hsorted, h => by
    simp only [isDynEntries, Bool.and_eq_true] at h
    simp only [List.map_cons, List.pairwise_cons] at hsorted
    have hins : mapInsert acc k v = acc ++ [(k, v)] :=
      mapInsert_append acc k v fun a ha => hacc a ha (k, v) (List.mem_cons_self _ _)
    have hacc' : ∀ a ∈ acc ++ [(k, v)], ∀ e ∈ es, keyLt a.1 e.1 := by
      intro a ha e he
      rcases List.mem_append.mp ha with ha | ha
      · exact hacc a ha e (List.mem_cons_of_mem _ he)
      · simp only [List.mem_singleton] at ha
        subst ha
        exact hsorted.1 e.1 (List.mem_map_of_mem _ he)
    simp only [encodeDynEntries, toIfaceMembers, toIface_encodeDyn v h.1, hins,
      toIfaceMembers_encodeDynEntries es _ hacc' hsorted.2 h.2, firstErr]
    simp

end

/-! ### Re-serialisation: records -/

theorem getField_append_fresh : ∀ (done rest : List (String × GoVal)) (name : String),
    name ∉ done.map Prod.fst → getField (done ++ rest) name = getField rest name
  | [], _, _, _ => rfl
  | (n, v) :: done, rest, name, h => by
    simp only [List.map_cons, List.mem_cons, not_or] at h
    have hne : ¬ n = name := fun hn => h.1 hn.symm
    simp only [List.cons_append, getField, hne, if_false]
    exact getField_append_fresh done rest name h.2

theorem setField_append_fresh : ∀ (done rest : List (String × GoVal)) (name : String)
    (z v : GoVal), name ∉ done.map Prod.fst →
    setField (done ++ (name, z) :: rest) name v = done ++ (name, v) :: rest
  | [], _, _, _, _, _ => by simp [setField]
  | (n, w) :: done, rest, name, z, v, h => by
    simp only [List.map_cons, List.mem_cons, not_or] at h
    have hne : ¬ n = name := fun hn => h.1 hn.symm
    simp only [List.cons_append, setField, hne, if_false]
    exact congrArg _ (setField_append_fresh done rest name z v h.2)

theorem structFields_zero : ∀ s : TypeName,
    structFields (zero decls (.struct s)) =
      (decls s).map fun f => (f.name, zero decls f.type) := by
  intro s
  cases s <;> rfl

theorem names_nodup : ∀ s : TypeName, ((decls s).map Field.name).Nodup := by
  intro s
  cases s <;> decide

theorem omitempty_is_string : ∀ s : TypeName, ∀ f ∈ decls s,
    f.omitempty = true → f.type = .string := by
  intro s
  cases s <;> decide

theorem decode_iface_of_toIface (D : TypeName → List Field) (j : JSON) (cur : GoVal)
    (h : (toIface j).2 = none) : decode D .iface j cur = toIface j := by
  cases j with
  | null => simp [decode, toIface]
  | bool b => simp [decode, toIface]
  | str s => simp [decode, toIface]
  | num l =>
    cases hp : parseFloat l with
    | none => simp [toIface, hp] at h
    | some f => simp [decode, toIface, hp]
  | arr xs => simp [decode, toIface]
  | obj kvs => simp [decode, toIface]

theorem decodeArray_encode_uint8 : ∀ (n : Nat) (es b : List GoVal),
    es.length = n → conformsList decls true .uint8 es = true →
    decodeArray decls .uint8 n (encodeList decls .uint8 es) b = (es, none)
  | 0, es, b, hlen, _ => by
    have : es = [] := List.length_eq_zero.mp hlen
    subst this
    simp [decodeArray]
  | n + 1, [], b, hlen, _ => by simp at hlen
  | n + 1, v :: es, b, hlen, h => by
    simp only [conformsList, Bool.and_eq_true] at h
    obtain ⟨hv, hes⟩ := h
    have hlen' : es.length = n := by simpa using hlen
    cases v <;> simp [conforms] at hv
    rename_i k
    have hk : parseUint8 (.int false k) = some k := by simp [parseUint8, hv]
    simp only [encodeList, encode, decodeArray, decode, hk,
      decodeArray_encode_uint8 n es b.tail hlen' hes, firstErr]

mutual

theorem decode_encode : ∀ (v : GoVal) (t : GoType), conforms decls true t v = true →
    decode decls t (encode decls t v) (zero decls t) = (v, none)
  | .int i, t, h => by
    cases t <;> simp [conforms, isDyn] at h
    simp [encode, decode, parseInt_encodeInt i h]
  | .uint8 n, t, h => by
    cases t <;> simp [conforms, isDyn] at h
    simp [encode, decode, parseUint8, h]
  | .float64 f, t, h => by
    cases t <;> simp only [conforms, isDyn, Bool.false_eq_true] at h
    · simp [encode, decode, parseFloat_encodeFloat f h]
    · simp [encode, encodeDyn, decode, parseFloat_encodeFloat f h]
  | .bool b, t, h => by
    cases t <;> simp [conforms, isDyn] at h <;> simp [encode, encodeDyn, decode]
  | .string s, t, h => by
    cases t <;> simp [conforms, isDyn] at h <;> simp [encode, encodeDyn, decode]
  | .nil, t, h => by
    cases t <;> simp [conforms, isDyn] at h <;> simp [encode, encodeDyn, decode]
  | .slice es sp, t, h => by
    cases t with
    | iface =>
      have hd : isDyn true (.slice es sp) = true := by simpa [conforms] using h
      rw [encode, decode_iface_of_toIface _ _ _ (by rw [toIface_encodeDyn _ hd]),
        toIface_encodeDyn _ hd]
    | slice t' =>
      simp only [conforms, Bool.and_eq_true, Bool.not_true, Bool.false_or,
        List.isEmpty_iff] at h
      obtain ⟨h1, h2⟩ := h
      subst h2
      have ih := decodeElems_encodeList es t' h1
      rw [encode]
      exact decode_slice_of_elems decls t' _ es ih
    | _ => simp [conforms] at h
  | .array es, t, h => by
    cases t with
    | array n t' =>
      simp only [conforms, Bool.and_eq_true, decide_eq_true_eq] at h
      obtain ⟨⟨h0, h1⟩, h2⟩ := h
      subst h0
      simp [encode, decode, decodeArray_encode_uint8 n es _ h1 h2]
    | _ => simp [conforms, isDyn] at h
  | .map es, t, h => by
    cases t with
    | iface =>
      have hd : isDyn true (.map es) = true := by simpa [conforms] using h
      rw [encode, decode_iface_of_toIface _ _ _ (by rw [toIface_encodeDyn _ hd]),
        toIface_encodeDyn _ hd]
    | mapStringIface =>
      have hd : isDyn true (.map es) = true := by simpa [conforms, isDyn] using h
      have ht := toIface_encodeDyn _ hd
      simp only [encodeDyn, toIface, Prod.mk.injEq, GoVal.map.injEq] at ht
      simp [encode, encodeDyn, decode, zero, zeroN, mapEntries, ht.1, ht.2]
    | _ => simp [conforms] at h
  | .struct fs, t, h => by
    cases t with
    | struct s =>
      simp only [conforms] at h
      have ih := decodeFields_encodeFields s fs (decls s) [] (fun f hf => hf)
        (by simp) (names_nodup s) h
      rw [List.nil_append, List.nil_append] at ih
      rw [encode, decode_struct_obj, structFields_zero, ih]
    | _ => simp [conforms, isDyn] at h
termination_by v => sizeOf v

theorem decodeElems_encodeList : ∀ (es : List GoVal) (t : GoType),
    conformsList decls true t es = true →
    decodeElems decls t (encodeList decls t es) [] = (es, none)
  | [], t, _ => by simp [encodeList, decodeElems]
  | v :: es, t, h => by
    simp only [conformsList, Bool.and_eq_true] at h
    rw [encodeList, decodeElems_cons]
    simp only [List.headD_nil, List.tail_nil]
    rw [decode_encode v t h.1, decodeElems_encodeList es t h.2]
    rfl
termination_by es => sizeOf es

theorem decodeFields_encodeFields (s : TypeName) : ∀ (vals : List (String × GoVal))
    (todo : List Field) (done : List (String × GoVal)),
    (∀ f ∈ todo, f ∈ decls s) →
    (∀ f ∈ todo, f.name ∉ done.map Prod.fst) →
    (todo.map Field.name).Nodup →
    conformsFields decls true todo vals = true →
    decodeFields decls (decls s) (encodeFields decls todo vals)
        (done ++ todo.map fun f => (f.name, zero decls f.type)) = (done ++ vals, none)
  | [], todo, done, _, _, _, h => by
    cases todo with
    | nil => simp [encodeFields, decodeFields_nil]
    | cons f todo => simp [conformsFields] at h
  | (n, v) :: vals, todo, done, hsub, hfresh, hnodup, h => by
    cases todo with
    | nil => simp [conformsFields] at h
    | cons f todo =>
      simp only [conformsFields, Bool.and_eq_true, decide_eq_true_eq] at h
      obtain ⟨⟨hn, hv⟩, hrest⟩ := h
      subst hn
      simp only [List.map_cons, List.nodup_cons] at hnodup
      have hf : f ∈ decls s := hsub f (List.mem_cons_self _ _)
      have hfr : f.name ∉ done.map Prod.fst := hfresh f (List.mem_cons_self _ _)
      have hsub' : ∀ g ∈ todo, g ∈ decls s := fun g hg => hsub g (List.mem_cons_of_mem _ hg)
      have hfresh' : ∀ g ∈ todo, g.name ∉ (done ++ [(f.name, v)]).map Prod.fst := by
        intro g hg hmem
        simp only [List.map_append, List.map_cons, List.map_nil, List.mem_append,
          List.mem_singleton] at hmem
        rcases hmem with hmem | hmem
        · exact hfresh g (List.mem_cons_of_mem _ hg) hmem
        · exact hnodup.1 (hmem ▸ List.mem_map_of_mem _ hg)
      have ih := decodeFields_encodeFields s vals todo (done ++ [(f.name, v)]) hsub' hfresh'
        hnodup.2 hrest
      simp only [List.append_assoc, List.singleton_append] at ih
      by_cases hom : (f.omitempty && isEmptyValue v) = true
      · simp only [Bool.and_eq_true] at hom
        have hty := omitempty_is_string s f hf hom.1
        have hzero : v = zero decls f.type := by
          rw [hty] at hv ⊢
          cases v <;> simp [conforms] at hv
          simpa [isEmptyValue, zero, zeroN] using hom.2
        simp only [encodeFields, hom.1, hom.2, Bool.and_self, if_true, List.map_cons]
        rw [← hzero]
        exact ih
      · simp only [encodeFields, hom, if_false, List.map_cons, Bool.false_eq_true]
        rw [decodeFields_cons_some decls (decls s) f.tag _ _ _ f (findField_tag s f hf)]
        have hget : getField (done ++ (f.name, zero decls f.type) ::
            todo.map fun g => (g.name, zero decls g.type)) f.name
            = some (zero decls f.type) := by
          rw [getField_append_fresh _ _ _ hfr]
          simp [getField]
        rw [hget]
        simp only [Option.getD_some, decode_encode v f.type hv, firstErr_none_left]
        rw [setField_append_fresh _ _ _ _ _ hfr]
        exact ih
termination_by vals => sizeOf vals

end

/-- C7, as stated, fails: the `Map` whose property `seed` holds the Go `int`
`2^53 + 1` in its dynamically typed `Value` is a value of type `Map`; encoded and
loaded again it comes back, without error, with `Value` the `float64` `2^53`, a
record that differs from the original. -/
theorem round_trip_counterexample :
    conforms decls false (.struct .Map) intValueMap = true ∧
    encode decls (.struct .Property)
        ((((zero decls (.struct .Property)).withField "Name" (.string "seed")).withField
          "Type" (.string "int")).withField "Value" (.int 9007199254740993))
      = .obj [("name", .str "seed"), ("type", .str "int"),
          ("value", .num (.int false 9007199254740993))] ∧
    ParseTilemap (fileEnv (encode decls (.struct .Map) intValueMap)) "map.json"
      = (some intValueMapReloaded, none) ∧
    intValueMapReloaded ≠ intValueMap := by
  refine ⟨by decide, rfl, by decide, by decide⟩

/-- C7, amended. For every `Map` record in which every `float64` is finite (the
type `Float64` holds no NaN and no infinity), every string is valid Unicode text
(as every `String` is), the dynamically typed parts (`Data`, `Property.Value`, the
values of `Object.Text`) hold only values of the shapes the loader stores (nil,
bool, `float64`, string, non-nil sequences and string-keyed maps of these), and
whose encoding nests arrays and objects at most 10000 deep (the limit of the syntax
phase): encoding the record under the declared field names and loading the result
with `ParseTilemap` succeeds and returns a record equal to it in every field.
(`conforms` also fixes the representation: integers within range, floats in normal
form, maps sorted by key, and slices without spare elements, which are not part of
a slice's value.) -/
theorem round_trip (env : Env) (path : String) (data : Bytes) (m : GoVal)
    (hr : env.ReadFile path = .ok data)
    (hs : env.scan data = checkValid (encode decls (.struct .Map) m))
    (hd : (encode decls (.struct .Map) m).nesting ≤ maxNestingDepth)
    (hm : conforms decls true (.struct .Map) m = true) :
    ParseTilemap env path = (some m, none) := by
  rw [checkValid_of_nesting _ hd] at hs
  simp only [ParseTilemap, hr, Unmarshal, hs, decode_encode m (.struct .Map) hm,
    Option.map_none']

/-- The amended C7 at a populated map with tile data, a property, a text object, a
fractional version and an external tileset. -/
theorem round_trip_witness :
    conforms decls true (.struct .Map) sampleMap = true ∧
    (encode decls (.struct .Map) sampleMap).nesting ≤ maxNestingDepth ∧
    ParseTilemap (spelledEnv (encode decls (.struct .Map) sampleMap)) "map.json"
      = (some sampleMap, none) :=
  have h : conforms decls true (.struct .Map) sampleMap = true := by decide
  have hd : (encode decls (.struct .Map) sampleMap).nesting ≤ maxNestingDepth := by
    set_option maxRecDepth 100000 in decide
  ⟨h, hd, round_trip (spelledEnv (encode decls (.struct .Map) sampleMap)) "map.json" []
    sampleMap rfl rfl hd h⟩

/-! ### The two packages: their declarations -/

theorem find_by_name : ∀ s : TypeName, ∀ f ∈ decls s,
    (decls s).find? (fun f' => f'.name = f.name) = some f := by
  intro s
  cases s <;> decide

theorem counterpart_same_type : ∀ s : TypeName, ∀ f ∈ decls s, ∀ g ∈ counterpart s f,
    g.type = f.type ∧ foldName g.name = foldName f.name := by
  intro s
  cases s <;> decide

theorem old_tags_fold_injective : ∀ s : TypeName, ∀ g ∈ Subpkg.decls s,
    ∀ g' ∈ Subpkg.decls s, foldName g.tag = foldName g'.tag → g = g' := by
  intro s
  cases s <;> decide

theorem old_field_has_counterpart : ∀ s : TypeName, ∀ g ∈ Subpkg.decls s,
    ∃ f ∈ decls s, counterpart s f = some g := by
  intro s
  cases s <;> decide

theorem zeroAgrees_fields : ∀ s : TypeName, ∀ f ∈ decls s, zeroAgrees f.type = true := by
  intro s
  cases s <;> decide

theorem counterpart_injective : ∀ s : TypeName, ∀ f ∈ decls s, ∀ f' ∈ decls s,
    counterpart s f ≠ none → counterpart s f = counterpart s f' → f = f' := by
  intro s
  cases s <;> decide

theorem old_names_nodup : ∀ s : TypeName, ((Subpkg.decls s).map Field.name).Nodup := by
  intro s
  cases s <;> decide

theorem old_names_injective : ∀ s : TypeName, ∀ g ∈ Subpkg.decls s,
    ∀ g' ∈ Subpkg.decls s, g.name = g'.name → g = g' := by
  intro s
  cases s <;> decide

theorem no_counterpart_is_source : ∀ s : TypeName, ∀ f ∈ decls s,
    counterpart s f = none → s = .Tileset ∧ f = fld "Source" .string "source" := by
  intro s
  cases s <;> decide

/-! ### The two packages: key matching -/

theorem fold_of_findField {fs : List Field} {k : String} {f : Field}
    (h : findField fs k = some f) : foldName f.tag = foldName k := by
  unfold findField at h
  cases h1 : fs.find? (fun f => f.tag = k) with
  | some g =>
    rw [h1] at h
    cases h
    have := List.find?_some h1
    simp only [decide_eq_true_eq] at this
    rw [this]
  | none =>
    rw [h1] at h
    have := List.find?_some h
    simpa using this

theorem findField_eq_none {fs : List Field} {k : String} (h : findField fs k = none) :
    ∀ f ∈ fs, foldName f.tag ≠ foldName k := by
  unfold findField at h
  cases h1 : fs.find? (fun f => f.tag = k) with
  | some g => rw [h1] at h; cases h
  | none =>
    rw [h1] at h
    intro f hf
    have := List.find?_eq_none.mp h f hf
    simpa using this

/-- With tags that stay distinct under folding, the field a key finds is the field
whose tag folds to the folded key. -/
theorem findField_of_fold {fs : List Field} {k : String} {g : Field}
    (hinj : ∀ a ∈ fs, ∀ b ∈ fs, foldName a.tag = foldName b.tag → a = b)
    (hg : g ∈ fs) (hk : foldName g.tag = foldName k) : findField fs k = some g := by
  cases h : findField fs k with
  | none => exact absurd hk (findField_eq_none h g hg)
  | some g' =>
    have h1 := fold_of_findField h
    rw [hinj g' (findField_mem h) g hg (h1.trans hk.symm)]

/-- A key finds in the older package the counterpart of the field it finds in
`src/tiled.go`. -/
theorem findField_old (s : TypeName) (k : String) :
    findField (Subpkg.decls s) k = (findField (decls s) k).bind (counterpart s) := by
  cases h : findField (decls s) k with
  | some f =>
    simp only [Option.some_bind, counterpart]
    have hk := fold_of_findField h
    cases hc : findField (Subpkg.decls s) f.tag with
    | some g =>
      exact findField_of_fold (old_tags_fold_injective s) (findField_mem hc)
        ((fold_of_findField hc).trans hk)
    | none =>
      cases ho : findField (Subpkg.decls s) k with
      | none => rfl
      | some g =>
        exact absurd ((fold_of_findField ho).trans hk.symm)
          (findField_eq_none hc g (findField_mem ho))
  | none =>
    simp only [Option.none_bind]
    cases ho : findField (Subpkg.decls s) k with
    | none => rfl
    | some g =>
      obtain ⟨f, hf, hc⟩ := old_field_has_counterpart s g (findField_mem ho)
      have h1 : foldName g.tag = foldName f.tag := fold_of_findField hc
      exact absurd (h1.symm.trans (fold_of_findField ho)) (findField_eq_none h f hf)

/-! ### The two packages: struct values -/

theorem getField_map_fields (h : Field → GoVal) : ∀ (L : List Field) (g : Field),
    g ∈ L → (L.map Field.name).Nodup →
    getField (L.map fun a => (a.name, h a)) g.name = some (h g)
  | [], g, hg, _ => by simp at hg
  | a :: L, g, hg, hnd => by
    simp only [List.map_cons, List.nodup_cons] at hnd
    rcases List.mem_cons.mp hg with rfl | hg'
    · simp [getField]
    · have hn : ¬ a.name = g.name := fun hag =>
        hnd.1 (hag ▸ List.mem_map_of_mem _ hg')
      simp only [List.map_cons, getField, hn, if_false]
      exact getField_map_fields h L g hg' hnd.2

theorem setField_map_fields (h : Field → GoVal) (w : GoVal) : ∀ (L : List Field) (g : Field),
    g ∈ L → (L.map Field.name).Nodup →
    setField (L.map fun a => (a.name, h a)) g.name w =
      L.map fun a => (a.name, if a.name = g.name then w else h a)
  | [], g, hg, _ => by simp at hg
  | a :: L, g, hg, hnd => by
    simp only [List.map_cons, List.nodup_cons] at hnd
    rcases List.mem_cons.mp hg with rfl | hg'
    · simp only [List.map_cons, setField, if_true, List.cons.injEq, true_and]
      apply List.map_congr_left
      intro b hb
      have hne : ¬ b.name = g.name := fun hba =>
        hnd.1 (hba ▸ List.mem_map_of_mem _ hb)
      simp [hne]
    · have hn : ¬ a.name = g.name := fun hag =>
        hnd.1 (hag ▸ List.mem_map_of_mem _ hg')
      simp only [List.map_cons, setField, hn, if_false, List.cons.injEq, true_and]
      exact setField_map_fields h w L g hg' hnd.2

theorem name_injective (s : TypeName) (f f' : Field) (hf : f ∈ decls s) (hf' : f' ∈ decls s)
    (h : f.name = f'.name) : f = f' := by
  have h1 := find_by_name s f hf
  have h2 := find_by_name s f' hf'
  rw [h] at h1
  rw [h1] at h2
  exact Option.some.inj h2

/-- The value listed for an older field is the counterpart of the value of the
field it corresponds to. -/
theorem getField_toOldEntries (s : TypeName) (f g : Field) (hf : f ∈ decls s)
    (hc : counterpart s f = some g) :
    ∀ fs : List (String × GoVal),
      getField (toOldEntries s fs) g.name = (getField fs f.name).map (toOld f.type)
  | [] => by simp [toOldEntries, getField]
  | (n, v) :: rest => by
    have ih := getField_toOldEntries s f g hf hc rest
    have hgmem : g ∈ Subpkg.decls s := findField_mem hc
    by_cases hn : n = f.name
    · subst hn
      simp [toOldEntries, find_by_name s f hf, hc, getField]
    · cases hfind : (decls s).find? (fun f' => f'.name = n) with
      | none => simp [toOldEntries, hfind, getField, hn, ih]
      | some f' =>
        have hf' : f' ∈ decls s := List.mem_of_find?_eq_some hfind
        have hname : f'.name = n := by simpa using List.find?_some hfind
        cases hc' : counterpart s f' with
        | none => simp [toOldEntries, hfind, hc', getField, hn, ih]
        | some g' =>
          have hne : ¬ g'.name = g.name := by
            intro hg
            have hgg : g' = g :=
              old_names_injective s g' (findField_mem hc') g hgmem hg
            have hff : f' = f :=
              counterpart_injective s f' hf' f hf (by simp [hc']) (by rw [hc', hc, hgg])
            exact hn (by rw [← hname, hff])
          simp [toOldEntries, hfind, hc', getField, hn, hne, ih]

/-- Assigning a field that has a counterpart assigns the counterpart. -/
theorem oldFields_setField (s : TypeName) (f g : Field) (hf : f ∈ decls s)
    (hc : counterpart s f = some g) (fs : List (String × GoVal)) (v : GoVal) :
    oldFields s (toOldEntries s (setField fs f.name v)) =
      setField (oldFields s (toOldEntries s fs)) g.name (toOld f.type v) := by
  unfold oldFields
  rw [setField_map_fields _ _ _ g (findField_mem hc) (old_names_nodup s)]
  apply List.map_congr_left
  intro g' hg'
  obtain ⟨f', hf', hc'⟩ := old_field_has_counterpart s g' hg'
  rw [getField_toOldEntries s f' g' hf' hc', getField_toOldEntries s f' g' hf' hc']
  by_cases hgg : g'.name = g.name
  · have e1 : g' = g := old_names_injective s g' hg' g (findField_mem hc) hgg
    have e2 : f' = f :=
      counterpart_injective s f' hf' f hf (by simp [hc']) (by rw [hc', hc, e1])
    subst e2
    simp [hgg, getField_setField_same]
  · have hne : f.name ≠ f'.name := by
      intro hff
      have e2 := name_injective s f f' hf hf' hff
      subst e2
      rw [hc] at hc'
      exact hgg (by rw [Option.some.inj hc'])
    simp [hgg, getField_setField_ne _ _ _ _ hne]

/-- Assigning a field that has no counterpart changes nothing in the older record. -/
theorem oldFields_setField_of_none (s : TypeName) (f : Field) (hf : f ∈ decls s)
    (hc : counterpart s f = none) (fs : List (String × GoVal)) (v : GoVal) :
    oldFields s (toOldEntries s (setField fs f.name v)) =
      oldFields s (toOldEntries s fs) := by
  unfold oldFields
  apply List.map_congr_left
  intro g' hg'
  obtain ⟨f', hf', hc'⟩ := old_field_has_counterpart s g' hg'
  rw [getField_toOldEntries s f' g' hf' hc', getField_toOldEntries s f' g' hf' hc']
  have hne : f.name ≠ f'.name := by
    intro hff
    have e2 := name_injective s f f' hf hf' hff
    subst e2
    rw [hc] at hc'
    cases hc'
  rw [getField_setField_ne _ _ _ _ hne]

theorem toOld_zero_of_zeroAgrees (t : GoType) (h : zeroAgrees t = true) :
    toOld t (zero decls t) = zero Subpkg.decls t := by
  cases t <;> simp only [zeroAgrees, Bool.and_eq_true] at h <;>
    first
      | exact GoVal.eq_of_beq _ _ h
      | exact GoVal.eq_of_beq _ _ h.2
      | rfl

/-- The current value of an older field is the counterpart of the current value of
the field it corresponds to. -/
theorem getField_oldFields (s : TypeName) (f g : Field) (hf : f ∈ decls s)
    (hc : counterpart s f = some g) (fs : List (String × GoVal)) :
    (getField (oldFields s (toOldEntries s fs)) g.name).getD (zero Subpkg.decls g.type) =
      toOld f.type ((getField fs f.name).getD (zero decls f.type)) := by
  have hty : g.type = f.type := (counterpart_same_type s f hf g (by simp [hc])).1
  have hz := toOld_zero_of_zeroAgrees f.type (zeroAgrees_fields s f hf)
  unfold oldFields
  rw [getField_map_fields _ _ g (findField_mem hc) (old_names_nodup s),
    getField_toOldEntries s f g hf hc, hty]
  cases getField fs f.name with
  | none => simp [hz]
  | some v => simp

/-! ### The decoders of the two packages, side by side -/

theorem toOldList_eq_map (t : GoType) : ∀ vs : List GoVal, toOldList t vs = vs.map (toOld t)
  | [] => by simp [toOldList]
  | v :: vs => by simp [toOldList, toOldList_eq_map t vs]

theorem toOld_plain (t : GoType) (v : GoVal) (h1 : ∀ s, t ≠ .struct s)
    (h2 : ∀ u, t ≠ .slice u) (h3 : ∀ n u, t ≠ .array n u) : toOld t v = v := by
  cases t <;>
    first
      | exact absurd rfl (h1 _)
      | exact absurd rfl (h2 _)
      | exact absurd rfl (h3 _ _)
      | (cases v <;> simp [toOld])

theorem decode_plain (D D' : TypeName → List Field) (t : GoType) (doc : JSON) (cur : GoVal)
    (h1 : ∀ s, t ≠ .struct s) (h2 : ∀ u, t ≠ .slice u) (h3 : ∀ n u, t ≠ .array n u) :
    decode D t doc cur = decode D' t doc cur := by
  cases t <;>
    first
      | exact absurd rfl (h1 _)
      | exact absurd rfl (h2 _)
      | exact absurd rfl (h3 _ _)
      | (cases doc <;> simp [decode])

theorem backing_toOld (t : GoType) (cur : GoVal) :
    backing (toOld (.slice t) cur) = toOldList t (backing cur) := by
  cases cur <;> simp [toOld, backing, toOldList, toOldList_eq_map]

theorem arrayElems_toOld (n : Nat) (t : GoType) (cur : GoVal) :
    arrayElems (toOld (.array n t) cur) = toOldList t (arrayElems cur) := by
  cases cur <;> simp [toOld, arrayElems, toOldList, toOldList_eq_map]

theorem structFields_toOld (s : TypeName) (cur : GoVal) :
    structFields (toOld (.struct s) cur) = oldFields s (toOldEntries s (structFields cur)) := by
  cases cur <;> simp [toOld, structFields, toOldEntries]

theorem headD_toOldList (t : GoType) (b : List GoVal) (hz : zeroAgrees t = true) :
    (toOldList t b).headD (zero Subpkg.decls t) = toOld t (b.headD (zero decls t)) := by
  cases b with
  | nil => simp [toOldList, toOld_zero_of_zeroAgrees t hz]
  | cons v vs => simp [toOldList]

theorem tail_toOldList (t : GoType) (b : List GoVal) :
    (toOldList t b).tail = toOldList t b.tail := by
  cases b <;> simp [toOldList]

theorem zeroAgrees_elem_of_slice {t : GoType} (h : zeroAgrees (.slice t) = true) :
    zeroAgrees t = true := by
  simpa [zeroAgrees] using h

theorem zeroAgrees_elem_of_array {n : Nat} {t : GoType} (h : zeroAgrees (.array n t) = true) :
    zeroAgrees t = true := by
  simp only [zeroAgrees, Bool.and_eq_true] at h
  exact h.1

theorem decode_source (D : TypeName → List Field) (x : JSON) (cur : GoVal)
    (h : isStrOrNull x = true) : (decode D .string x cur).2 = none := by
  cases x <;> simp [isStrOrNull] at h <;> simp [decode]

mutual

/-- Decoding a document with the declarations of the older package, into the
counterpart of a value, gives the counterpart of what the declarations of
`src/tiled.go` give; it records no error unless they do, and the same error when
every `source` is a string or `null`. -/
theorem decode_toOld : ∀ (doc : JSON) (t : GoType) (cur : GoVal), zeroAgrees t = true →
    (decode Subpkg.decls t doc (toOld t cur)).1 = toOld t (decode decls t doc cur).1 ∧
    ((decode decls t doc cur).2 = none →
      (decode Subpkg.decls t doc (toOld t cur)).2 = none) ∧
    (sourcesAreStrings t doc = true →
      (decode Subpkg.decls t doc (toOld t cur)).2 = (decode decls t doc cur).2)
  | doc, .struct s, cur, hz => by
    cases doc with
    | obj kvs =>
      have ih := decodeFields_toOld kvs s (structFields cur)
      rw [decode_struct_obj, decode_struct_obj, structFields_toOld]
      refine ⟨?_, ih.2.1, ?_⟩
      · simp only [toOld, ih.1]
      · intro h
        exact ih.2.2 (by simpa [sourcesAreStrings] using h)
    | null => simp [decode]
    | bool b => simp [decode]
    | num n => simp [decode]
    | str s => simp [decode]
    | arr xs => simp [decode]
  | doc, .slice t, cur, hz => by
    have hzt := zeroAgrees_elem_of_slice hz
    cases doc with
    | arr xs =>
      cases xs with
      | nil => simp [decode, toOld, toOldList]
      | cons x xs =>
        have ih := decodeElems_toOld (x :: xs) t (backing cur) hzt
        rw [decode_slice_arr _ _ _ _ (List.cons_ne_nil _ _),
          decode_slice_arr _ _ _ _ (List.cons_ne_nil _ _), backing_toOld]
        refine ⟨?_, ih.2.1, ?_⟩
        · simp only [toOld, ih.1]
          simp [toOldList_eq_map, List.map_drop]
        · intro h
          exact ih.2.2 (by simpa [sourcesAreStrings] using h)
    | null => simp [decode, toOld]
    | bool b => simp [decode]
    | num n => simp [decode]
    | str s => simp [decode]
    | obj kvs => simp [decode]
  | doc, .array n t, cur, hz => by
    have hzt := zeroAgrees_elem_of_array hz
    cases doc with
    | arr xs =>
      have ih := decodeArray_toOld xs t n (arrayElems cur) hzt
      simp only [decode, arrayElems_toOld]
      refine ⟨?_, ih.2.1, ?_⟩
      · simp only [toOld, ih.1]
      · intro h
        exact ih.2.2 (by simpa [sourcesAreStrings] using h)
    | null => simp [decode]
    | bool b => simp [decode]
    | num n => simp [decode]
    | str s => simp [decode]
    | obj kvs => simp [decode]
  | doc, .int, cur, _ => by
    rw [toOld_plain _ _ (by simp) (by simp) (by simp),
      toOld_plain _ _ (by simp) (by simp) (by simp),
      decode_plain Subpkg.decls decls _ _ _ (by simp) (by simp) (by simp)]
    simp
  | doc, .uint8, cur, _ => by
    rw [toOld_plain _ _ (by simp) (by simp) (by simp),
      toOld_plain _ _ (by simp) (by simp) (by simp),
      decode_plain Subpkg.decls decls _ _ _ (by simp) (by simp) (by simp)]
    simp
  | doc, .float64, cur, _ => by
    rw [toOld_plain _ _ (by simp) (by simp) (by simp),
      toOld_plain _ _ (by simp) (by simp) (by simp),
      decode_plain Subpkg.decls decls _ _ _ (by simp) (by simp) (by simp)]
    simp
  | doc, .bool, cur, _ => by
    rw [toOld_plain _ _ (by simp) (by simp) (by simp),
      toOld_plain _ _ (by simp) (by simp) (by simp),
      decode_plain Subpkg.decls decls _ _ _ (by simp) (by simp) (by simp)]
    simp
  | doc, .string, cur, _ => by
    rw [toOld_plain _ _ (by simp) (by simp) (by simp),
      toOld_plain _ _ (by simp) (by simp) (by simp),
      decode_plain Subpkg.decls decls _ _ _ (by simp) (by simp) (by simp)]
    simp
  | doc, .iface, cur, _ => by
    rw [toOld_plain _ _ (by simp) (by simp) (by simp),
      toOld_plain _ _ (by simp) (by simp) (by simp),
      decode_plain Subpkg.decls decls _ _ _ (by simp) (by simp) (by simp)]
    simp
  | doc, .mapStringIface, cur, _ => by
    rw [toOld_plain _ _ (by simp) (by simp) (by simp),
      toOld_plain _ _ (by simp) (by simp) (by simp),
      decode_plain Subpkg.decls decls _ _ _ (by simp) (by simp) (by simp)]
    simp
termination_by doc => sizeOf doc

/-- The same for the elements of a slice. -/
theorem decodeElems_toOld : ∀ (xs : List JSON) (t : GoType) (b : List GoVal),
    zeroAgrees t = true →
    (decodeElems Subpkg.decls t xs (toOldList t b)).1 = toOldList t (decodeElems decls t xs b).1 ∧
    ((decodeElems decls t xs b).2 = none →
      (decodeElems Subpkg.decls t xs (toOldList t b)).2 = none) ∧
    (sourcesAreStringsAll t xs = true →
      (decodeElems Subpkg.decls t xs (toOldList t b)).2 = (decodeElems decls t xs b).2)
  | [], t, b, _ => by simp [decodeElems, toOldList]
  | x :: xs, t, b, hz => by
    have ih1 := decode_toOld x t (b.headD (zero decls t)) hz
    have ih2 := decodeElems_toOld xs t b.tail hz
    rw [decodeElems_cons, decodeElems_cons, headD_toOldList t b hz, tail_toOldList]
    refine ⟨?_, ?_, ?_⟩
    · simp only [toOldList, ih1.1, ih2.1]
    · intro h
      have h' := firstErr_eq_none.mp h
      simp only [ih1.2.1 h'.1, ih2.2.1 h'.2, firstErr]
    · intro h
      simp only [sourcesAreStringsAll, Bool.and_eq_true] at h
      simp only [ih1.2.2 h.1, ih2.2.2 h.2]
termination_by xs => sizeOf xs

/-- The same for the elements of a fixed array. -/
theorem decodeArray_toOld : ∀ (xs : List JSON) (t : GoType) (n : Nat) (b : List GoVal),
    zeroAgrees t = true →
    (decodeArray Subpkg.decls t n xs (toOldList t b)).1 =
      toOldList t (decodeArray decls t n xs b).1 ∧
    ((decodeArray decls t n xs b).2 = none →
      (decodeArray Subpkg.decls t n xs (toOldList t b)).2 = none) ∧
    (sourcesAreStringsAll t xs = true →
      (decodeArray Subpkg.decls t n xs (toOldList t b)).2 = (decodeArray decls t n xs b).2)
  | _, t, 0, b, _ => by simp [decodeArray, toOldList]
  | [], t, n + 1, b, hz => by
    simp [decodeArray, toOldList_eq_map, toOld_zero_of_zeroAgrees t hz]
  | x :: xs, t, n + 1, b, hz => by
    have ih1 := decode_toOld x t (b.headD (zero decls t)) hz
    have ih2 := decodeArray_toOld xs t n b.tail hz
    simp only [decodeArray, headD_toOldList t b hz, tail_toOldList]
    refine ⟨?_, ?_, ?_⟩
    · simp only [toOldList, ih1.1, ih2.1]
    · intro h
      have h' := firstErr_eq_none.mp h
      simp only [ih1.2.1 h'.1, ih2.2.1 h'.2, firstErr]
    · intro h
      simp only [sourcesAreStringsAll, Bool.and_eq_true] at h
      simp only [ih1.2.2 h.1, ih2.2.2 h.2]
termination_by xs => sizeOf xs

/-- The same for the members of an object decoded into a struct. -/
theorem decodeFields_toOld : ∀ (kvs : List (String × JSON)) (s : TypeName)
    (cur : List (String × GoVal)),
    (decodeFields Subpkg.decls (Subpkg.decls s) kvs (oldFields s (toOldEntries s cur))).1 =
      oldFields s (toOldEntries s (decodeFields decls (decls s) kvs cur).1) ∧
    ((decodeFields decls (decls s) kvs cur).2 = none →
      (decodeFields Subpkg.decls (Subpkg.decls s) kvs
        (oldFields s (toOldEntries s cur))).2 = none) ∧
    (sourcesAreStringsIn s kvs = true →
      (decodeFields Subpkg.decls (Subpkg.decls s) kvs (oldFields s (toOldEntries s cur))).2 =
        (decodeFields decls (decls s) kvs cur).2)
  | [], s, cur => by simp [decodeFields_nil]
  | (k, x) :: rest, s, cur => by
    have hold := findField_old s k
    cases hf : findField (decls s) k with
    | none =>
      rw [hf] at hold
      rw [decodeFields_cons_none _ _ _ _ _ _ hf, decodeFields_cons_none _ _ _ _ _ _ hold]
      have ih := decodeFields_toOld rest s cur
      refine ⟨ih.1, ih.2.1, ?_⟩
      intro h
      simp only [sourcesAreStringsIn, hf, Bool.true_and] at h
      exact ih.2.2 h
    | some f =>
      have hfm : f ∈ decls s := findField_mem hf
      rw [hf] at hold
      rw [decodeFields_cons_some _ _ _ _ _ _ f hf]
      cases hc : counterpart s f with
      | none =>
        have hold' : findField (Subpkg.decls s) k = none := by simpa [hc] using hold
        rw [decodeFields_cons_none _ _ _ _ _ _ hold']
        have ih := decodeFields_toOld rest s (setField cur f.name
          (decode decls f.type x ((getField cur f.name).getD (zero decls f.type))).1)
        rw [oldFields_setField_of_none s f hfm hc] at ih
        refine ⟨ih.1, ?_, ?_⟩
        · intro h
          exact ih.2.1 (firstErr_eq_none.mp h).2
        · intro h
          simp only [sourcesAreStringsIn, hf, hc, Bool.and_eq_true] at h
          have hty : f.type = .string := by
            rw [(no_counterpart_is_source s f hfm hc).2]; rfl
          rw [ih.2.2 h.2, hty, decode_source _ _ _ h.1, firstErr_none_left]
      | some g =>
        have hold' : findField (Subpkg.decls s) k = some g := by simpa [hc] using hold
        have hty : g.type = f.type := (counterpart_same_type s f hfm g (by simp [hc])).1
        have ih1 := decode_toOld x f.type ((getField cur f.name).getD (zero decls f.type))
          (zeroAgrees_fields s f hfm)
        have ih2 := decodeFields_toOld rest s (setField cur f.name
          (decode decls f.type x ((getField cur f.name).getD (zero decls f.type))).1)
        rw [oldFields_setField s f g hfm hc] at ih2
        rw [decodeFields_cons_some _ _ _ _ _ _ g hold', getField_oldFields s f g hfm hc, hty,
          ih1.1]
        refine ⟨ih2.1, ?_, ?_⟩
        · intro h
          have h' := firstErr_eq_none.mp h
          simp only [ih1.2.1 h'.1, ih2.2.1 h'.2, firstErr]
        · intro h
          simp only [sourcesAreStringsIn, hf, hc, Bool.and_eq_true] at h
          simp only [ih1.2.2 h.1, ih2.2.2 h.2]
termination_by kvs => sizeOf kvs

end

/-! ### The two map loaders -/

end Tiled
